import Mathlib

/-! NetFPGA hardware flow table (`datapath/hwtable-nf2/hwtable-nf2.c`)

A shallow embedding of the table operations of `hwtable-nf2.c`.

* A `struct sw_flow *` is an address (`Nat`); the flow records live in a
  memory `flow_mem`, a map from addresses to records.
* The two intrusive kernel lists of the table (`flows`, linked through
  `sw_flow.node`, and `iter_flows`, linked through `sw_flow.iter_node`) are
  lists of addresses, head first.
* `int` and `atomic_t` values are `Int`; the live-flow counter is not
  wrapped (fewer than `2^31` flows are linked at any time).  `unsigned long`
  values (`serial`, the iteration cursor) are `Nat` below `2^64`, and the
  bitwise complement is taken explicitly modulo `2^64`.
* The NetFPGA collaborator (`nf2_openflow.h`) is a record of functions,
  `nf2_offload`.  RCU-deferred freeing and the spin lock do not change the
  sequential contents of the table and are left out.
* In `table_nf2_timeout` the clock `jiffies` is read as one value for the
  whole sweep; deadlines are `unsigned long` values modulo `2^64`, compared
  with the kernel's `time_after`; byte counts are `uint64_t` values modulo
  `2^64`.  The calls of `dp_send_flow_expired` are recorded in a list.
* The helpers of `flow.c` (`flow_matches`, `flow_del_matches`, `flow_del`,
  `flow_timeout`) are not among the sources and are modelled from the
  specification.
-/

namespace HwTableNf2

/-! ## Data model -/

/-- Modelled from the spec: `struct sw_flow_key` is declared in `flow.h`, which
is not among the sources.  The key holds the ingress port, the VLAN tag, the
L2/L3/L4 header fields and the wildcard bitmask (spec, section 3). -/
structure sw_flow_key where
  in_port : Nat
  dl_vlan : Nat
  dl_src : Nat
  dl_dst : Nat
  dl_type : Nat
  nw_src : Nat
  nw_dst : Nat
  nw_proto : Nat
  tp_src : Nat
  tp_dst : Nat
  wildcards : Nat
deriving DecidableEq, Repr

/-- Modelled from the spec: `struct sw_flow` is declared in `flow.h`, which is
not among the sources.  The fields are the ones `hwtable-nf2.c` reads or
writes; `private_` is the C field `private` (the offload handle, `none` for
`NULL`), `deleted` the flag that `flow_del` sets, `actions` is opaque. -/
structure sw_flow where
  key : sw_flow_key
  priority : Nat
  max_idle : Nat
  timeout : Nat
  serial : Nat
  private_ : Option Nat
  packet_count : Nat
  byte_count : Nat
  deleted : Bool
  actions : List Nat
deriving DecidableEq, Repr

/-- The memory holding the flow records, by address. -/
abbrev flow_mem := Nat → sw_flow

/-- The C `struct sw_table_nf2` (declared in `hwtable-nf2.h`), with the
fields `hwtable-nf2.c` uses: the advisory capacity, the live-flow counter, the
match-list, the iteration-list and the serial generator. -/
structure sw_table_nf2 where
  max_flows : Nat
  n_flows : Int
  flows : List Nat
  iter_flows : List Nat
  next_serial : Nat
deriving DecidableEq, Repr

/-- The flow memory together with the table. -/
structure nf2_state where
  mem : flow_mem
  td : sw_table_nf2

/-- The NetFPGA collaborator, whose code is outside `hwtable-nf2.c`:
`nf2_are_actions_supported` returns an `int` (nonzero: supported);
`nf2_build_and_write_flow` returns an `int` (nonzero: failure) together with
the value it leaves in `flow->private`; the two counter readers take the
handle stored in `flow->private`. -/
structure nf2_offload where
  nf2_are_actions_supported : sw_flow → Int
  nf2_build_and_write_flow : sw_flow → Int × Option Nat
  nf2_get_packet_count : Nat → Nat
  nf2_get_byte_count : Nat → Nat

/-- The C `struct sw_table_position`: only `private[0]` is used. -/
structure sw_table_position where
  private_0 : Nat
deriving DecidableEq, Repr

/-! ## Helpers of `flow.c` -/

/-- Modelled from the spec: one field of the matcher of section 4.1, which is
in `flow.c`, not among the sources: a field wildcarded in the stored key (its
bit set in the mask) matches anything, any other field must be equal. -/
def field_matches (wildcards bit a b : Nat) : Bool :=
  wildcards.testBit bit || a == b

/-- Modelled from the spec: `flow_matches` is in `flow.c`, not among the
sources.  Section 4.1: for every field not wildcarded in `stored` (first
argument), the corresponding field in `probe` must be equal; wildcarded fields
in `stored` match anything.  Bit `i` of the mask stands for the `i`-th field
in the order of `sw_flow_key`. -/
def flow_matches (t d : sw_flow_key) : Bool :=
  field_matches t.wildcards 0 t.in_port d.in_port &&
  field_matches t.wildcards 1 t.dl_vlan d.dl_vlan &&
  field_matches t.wildcards 2 t.dl_src d.dl_src &&
  field_matches t.wildcards 3 t.dl_dst d.dl_dst &&
  field_matches t.wildcards 4 t.dl_type d.dl_type &&
  field_matches t.wildcards 5 t.nw_src d.nw_src &&
  field_matches t.wildcards 6 t.nw_dst d.nw_dst &&
  field_matches t.wildcards 7 t.nw_proto d.nw_proto &&
  field_matches t.wildcards 8 t.tp_src d.tp_src &&
  field_matches t.wildcards 9 t.tp_dst d.tp_dst

/-- Modelled from the spec: `flow_del_matches` is in `flow.c`, not among the
sources.  Section 4.1: identical to `flow_matches`, except when `strict` is
true (nonzero) the wildcard masks themselves must also be equal. -/
def flow_del_matches (t d : sw_flow_key) (strict : Int) : Bool :=
  if strict ≠ 0 ∧ t.wildcards ≠ d.wildcards then false else flow_matches t d

/-- The assignment `flow->private = x`. -/
def set_private (mem : flow_mem) (flow : Nat) (x : Option Nat) : flow_mem :=
  Function.update mem flow { mem flow with private_ := x }

/-- Modelled from the spec: `flow_del` is in `flow.c`, not among the sources.
It marks the flow deleted and tells whether this call did so: it returns
false, changing nothing, on a flow that is already marked. -/
def flow_del (mem : flow_mem) (flow : Nat) : Bool × flow_mem :=
  if (mem flow).deleted then (false, mem)
  else (true, Function.update mem flow { mem flow with deleted := true })

/-! ## Kernel list primitives on address lists -/

/-- `list_replace_rcu(&old->node, &new->node)`: `new` takes the place of
`old` in the list `old` is linked in. -/
def list_replace_rcu (old new : Nat) : List Nat → List Nat
  | [] => []
  | x :: xs => if x = old then new :: xs else x :: list_replace_rcu old new xs

/-- `list_del_rcu(&flow->node)`: unlink `flow` from the list it is in. -/
def list_del_rcu (flow : Nat) (l : List Nat) : List Nat :=
  l.erase flow

/-- `list_add_rcu(&flow->node, head)`: link `flow` right after the head. -/
def list_add_rcu (flow : Nat) (l : List Nat) : List Nat :=
  flow :: l

/-! ## `table_nf2_lookup` -/

/-- The `list_for_each_entry` loop of `table_nf2_lookup`. -/
def lookup_loop (mem : flow_mem) (key : sw_flow_key) : List Nat → Option Nat
  | [] => none
  | flow :: rest =>
    if flow_matches (mem flow).key key then some flow
    else lookup_loop mem key rest

/-- `table_nf2_lookup`: `none` is `NULL`. -/
def table_nf2_lookup (s : nf2_state) (key : sw_flow_key) : Option Nat :=
  lookup_loop s.mem key s.td.flows

/-! ## `table_nf2_insert` -/

/-- The replace loop of `table_nf2_insert` over the match-list: `some` is the
state at the `return 1` inside the loop, `none` means the loop ran to its end
(with the memory unchanged, as a failed `flow_del` changes nothing). -/
def insert_replace_loop (flow : Nat) : List Nat → nf2_state → Option nf2_state
  | [], _ => none
  | f :: rest, s =>
    if (s.mem f).key.wildcards = (s.mem flow).key.wildcards
        && flow_matches (s.mem f).key (s.mem flow).key then
      match flow_del s.mem f with
      | (true, mem1) =>
        some { mem := mem1,
               td := { s.td with
                 flows := list_replace_rcu f flow s.td.flows,
                 iter_flows := list_replace_rcu f flow s.td.iter_flows } }
      | (false, mem1) => insert_replace_loop flow rest { s with mem := mem1 }
    else insert_replace_loop flow rest s

/-- `table_nf2_insert`: the returned `int` and the state afterwards. -/
def table_nf2_insert (nf : nf2_offload) (s : nf2_state) (flow : Nat) :
    Int × nf2_state :=
  if nf.nf2_are_actions_supported (s.mem flow) ≠ 0 then
    let w := nf.nf2_build_and_write_flow (s.mem flow)
    let s1 : nf2_state := { s with mem := set_private s.mem flow w.2 }
    if w.1 ≠ 0 then (0, s1)
    else
      match insert_replace_loop flow s1.td.flows s1 with
      | some s2 => (1, s2)
      | none =>
        (1, { s1 with
          td := { s1.td with
            n_flows := s1.td.n_flows + 1,
            flows := list_add_rcu flow s1.td.flows,
            iter_flows := list_add_rcu flow s1.td.iter_flows } })
  else (0, s)

/-! ## `do_delete` and `table_nf2_delete` -/

/-- `do_delete`: on a successful `flow_del` the flow is unlinked from both
lists and its offload handle is released (`flow->private = NULL`). -/
def do_delete (s : nf2_state) (flow : Nat) : Int × nf2_state :=
  match flow_del s.mem flow with
  | (true, mem1) =>
    let mem2 : flow_mem :=
      if (mem1 flow).private_.isSome then set_private mem1 flow none else mem1
    (1, { mem := mem2,
          td := { s.td with
            flows := list_del_rcu flow s.td.flows,
            iter_flows := list_del_rcu flow s.td.iter_flows } })
  | (false, mem1) => (0, { s with mem := mem1 })

/-- The condition under which `table_nf2_delete` calls `do_delete` on an
entry: `flow_del_matches(&flow->key, key, strict) && (!strict ||
(flow->priority == priority))`. -/
def delete_selects (mem : flow_mem) (key : sw_flow_key) (priority : Nat) (strict : Int)
    (flow : Nat) : Bool :=
  flow_del_matches (mem flow).key key strict
    && (strict = 0 || (mem flow).priority = priority)

/-- The `list_for_each_entry_rcu` loop of `table_nf2_delete`; `list_del_rcu`
leaves the `next` link of an unlinked entry in place, so the loop walks the
match-list as it was on entry. -/
def delete_loop (key : sw_flow_key) (priority : Nat) (strict : Int) :
    List Nat → Int × nf2_state → Int × nf2_state
  | [], acc => acc
  | flow :: rest, (count, s) =>
    if delete_selects s.mem key priority strict flow then
      delete_loop key priority strict rest (count + (do_delete s flow).1, (do_delete s flow).2)
    else delete_loop key priority strict rest (count, s)

/-- `table_nf2_delete`: the returned count and the state afterwards. -/
def table_nf2_delete (s : nf2_state) (key : sw_flow_key) (priority : Nat)
    (strict : Int) : Int × nf2_state :=
  let r := delete_loop key priority strict s.td.flows (0, s)
  if r.1 ≠ 0 then
    (r.1, { r.2 with td := { r.2.td with n_flows := r.2.td.n_flows - r.1 } })
  else (r.1, r.2)

/-! ## `table_nf2_iterate` -/

/-- The largest `unsigned long`. -/
def ULONG_MAX : Nat := 2 ^ 64 - 1

/-- The C operator `~` on an `unsigned long`. -/
def ulong_not (x : Nat) : Nat := ULONG_MAX - x % 2 ^ 64

/-- What a call of `table_nf2_iterate` leaves behind: the returned `int`, the
cursor, the callback's private data, and (a ghost record) the entries on
which the callback was invoked, in order. -/
structure iterate_result (σ : Type) where
  error : Int
  position : sw_table_position
  priv : σ
  visited : List Nat

/-- The `list_for_each_entry_rcu` loop of `table_nf2_iterate`. -/
def iterate_loop {σ : Type} (mem : flow_mem) (key : sw_flow_key) (start : Nat)
    (callback : Nat → σ → Int × σ) (position : sw_table_position) :
    List Nat → σ → iterate_result σ
  | [], priv => { error := 0, position := position, priv := priv, visited := [] }
  | flow :: rest, priv =>
    if (mem flow).serial ≤ start && flow_matches key (mem flow).key then
      let r := callback flow priv
      if r.1 ≠ 0 then
        { error := r.1, position := { private_0 := ulong_not (mem flow).serial },
          priv := r.2, visited := [flow] }
      else
        let t := iterate_loop mem key start callback position rest r.2
        { t with visited := flow :: t.visited }
    else iterate_loop mem key start callback position rest priv

/-- `table_nf2_iterate`. -/
def table_nf2_iterate {σ : Type} (s : nf2_state) (key : sw_flow_key)
    (position : sw_table_position) (callback : Nat → σ → Int × σ) (priv : σ) :
    iterate_result σ :=
  iterate_loop s.mem key (ulong_not position.private_0) callback position
    s.td.iter_flows priv

/-! ## `table_nf2_timeout` -/

/-- The constants of headers that are not among the sources, taken as
parameters: `HZ` of the kernel, `OFP_FLOW_PERMANENT` and
`OFPC_SEND_FLOW_EXP` of `openflow.h`. -/
structure nf2_consts where
  HZ : Nat
  OFP_FLOW_PERMANENT : Nat
  OFPC_SEND_FLOW_EXP : Nat

/-- The C `struct datapath`: `table_nf2_timeout` reads its `flags` only. -/
structure datapath where
  flags : Nat

/-- The kernel macro `time_after (a, b)` on `unsigned long` clock values: `a`
is after `b` when the difference `b - a`, taken modulo `2^64` and read as a
`long`, is negative. -/
def time_after (a b : Nat) : Bool :=
  decide (2 ^ 63 ≤ (b % 2 ^ 64 + 2 ^ 64 - a % 2 ^ 64) % 2 ^ 64)

/-- Modelled from the spec: `flow_timeout` is in `flow.c`, not among the
sources.  Sections 3 and 4.2: an entry is timed out when its current deadline
(`flow->timeout`) has passed; an entry whose idle time is the sentinel
`OFP_FLOW_PERMANENT` never expires.  "Has passed" is the comparison
`time_after (jiffies, flow->timeout)` of the wrapping kernel clock. -/
def flow_timeout (c : nf2_consts) (jiffies : Nat) (flow : sw_flow) : Bool :=
  if flow.max_idle = c.OFP_FLOW_PERMANENT then false
  else time_after jiffies flow.timeout

/-- One call `dp_send_flow_expired (dp, flow)`: the flow, the record the call
reads, and (a ghost) whether the flow was linked in the match-list then. -/
structure flow_expired where
  flow : Nat
  snapshot : sw_flow
  linked : Bool
deriving DecidableEq, Repr

/-- The variables of the loop of `table_nf2_timeout`: the local
`packet_count`, which is declared outside the loop, `del_count`, the flow
memory and the table, and the notifications sent so far. -/
structure timeout_acc where
  packet_count : Nat
  del_count : Int
  s : nf2_state
  sent : List flow_expired

/-- The lines `sfw = flow->private; if (sfw) packet_count =
nf2_get_packet_count (dev, sfw);`: the value of the local afterwards. -/
def timeout_packet_count (nf : nf2_offload) (mem : flow_mem) (packet_count flow : Nat) : Nat :=
  match (mem flow).private_ with
  | some sfw => nf.nf2_get_packet_count sfw
  | none => packet_count

/-- The assignments `flow->packet_count = packet_count; flow->timeout =
jiffies + HZ * flow->max_idle;` (`unsigned long` arithmetic). -/
def set_refreshed (c : nf2_consts) (jiffies : Nat) (mem : flow_mem) (flow packet_count : Nat) :
    flow_mem :=
  Function.update mem flow
    { mem flow with
      packet_count := packet_count,
      timeout := (jiffies + c.HZ * (mem flow).max_idle) % 2 ^ 64 }

/-- The refresh of `table_nf2_timeout`: `if ((packet_count >
flow->packet_count) && (flow->max_idle != OFP_FLOW_PERMANENT))` the stored
count and the deadline are rewritten. -/
def timeout_refresh (c : nf2_consts) (jiffies : Nat) (mem : flow_mem)
    (flow packet_count : Nat) : flow_mem :=
  if (mem flow).packet_count < packet_count ∧ (mem flow).max_idle ≠ c.OFP_FLOW_PERMANENT then
    set_refreshed c jiffies mem flow packet_count
  else mem

/-- The statement `flow->byte_count += nf2_get_byte_count (dev, sfw);`
(`uint64_t` arithmetic), done only `if (sfw)`. -/
def timeout_add_bytes (nf : nf2_offload) (mem : flow_mem) (flow : Nat) (sfw : Option Nat) :
    flow_mem :=
  match sfw with
  | some h =>
    Function.update mem flow
      { mem flow with byte_count := ((mem flow).byte_count + nf.nf2_get_byte_count h) % 2 ^ 64 }
  | none => mem

/-- The body of `if (flow_timeout (flow))` up to the call of `do_delete`: when
`dp->flags & OFPC_SEND_FLOW_EXP` is set, the byte count is brought up to date
and `dp_send_flow_expired` is called. -/
def timeout_notify (nf : nf2_offload) (c : nf2_consts) (dp : datapath) (s : nf2_state)
    (flow : Nat) (sfw : Option Nat) (sent : List flow_expired) :
    nf2_state × List flow_expired :=
  if dp.flags &&& c.OFPC_SEND_FLOW_EXP ≠ 0 then
    ({ s with mem := timeout_add_bytes nf s.mem flow sfw },
      sent ++ [{ flow := flow, snapshot := timeout_add_bytes nf s.mem flow sfw flow,
                 linked := decide (flow ∈ s.td.flows) }])
  else (s, sent)

/-- The state after the first two statements of the loop body for the entry
`flow`: the local `packet_count` is read and the refresh is done. -/
def timeout_refreshed (nf : nf2_offload) (c : nf2_consts) (jiffies : Nat)
    (acc : timeout_acc) (flow : Nat) : nf2_state :=
  { mem := timeout_refresh c jiffies acc.s.mem flow
      (timeout_packet_count nf acc.s.mem acc.packet_count flow),
    td := acc.s.td }

/-- The body of the `list_for_each_entry_rcu` loop of `table_nf2_timeout` for
one entry.  `jiffies` is read as one value for the whole sweep; the counter
`i` and `msleep_interruptible` have no effect on the table and are left out. -/
def timeout_step (nf : nf2_offload) (c : nf2_consts) (dp : datapath) (jiffies : Nat)
    (acc : timeout_acc) (flow : Nat) : timeout_acc :=
  let sfw := (acc.s.mem flow).private_
  let packet_count := timeout_packet_count nf acc.s.mem acc.packet_count flow
  let s1 : nf2_state := timeout_refreshed nf c jiffies acc flow
  if flow_timeout c jiffies (s1.mem flow) then
    let n := timeout_notify nf c dp s1 flow sfw acc.sent
    { packet_count := packet_count,
      del_count := acc.del_count + (do_delete n.1 flow).1,
      s := (do_delete n.1 flow).2,
      sent := n.2 }
  else
    { packet_count := packet_count, del_count := acc.del_count, s := s1, sent := acc.sent }

/-- The `list_for_each_entry_rcu` loop of `table_nf2_timeout`; as in
`table_nf2_delete`, it walks the match-list as it was on entry. -/
def timeout_loop (nf : nf2_offload) (c : nf2_consts) (dp : datapath) (jiffies : Nat) :
    List Nat → timeout_acc → timeout_acc
  | [], acc => acc
  | flow :: rest, acc =>
    timeout_loop nf c dp jiffies rest (timeout_step nf c dp jiffies acc flow)

/-- What a call of `table_nf2_timeout` leaves behind: the returned `int`, the
state, and the notifications sent to the controller, in order. -/
structure timeout_result where
  del_count : Int
  s : nf2_state
  sent : List flow_expired

/-- The byte count `dp_send_flow_expired` reads for a timed-out entry whose
record was `r` before the sweep: the stored count, increased (`uint64_t`
arithmetic) by the count reported for the entry's handle when it has one. -/
def expired_byte_count (nf : nf2_offload) (r : sw_flow) : Nat :=
  match r.private_ with
  | some h => (r.byte_count + nf.nf2_get_byte_count h) % 2 ^ 64
  | none => r.byte_count

/-- What a sweep that started from the memory `mem0` and the match-list
`flows0` and ended with the memory `mem1` says in a notification `m`: the
entry is still linked, not yet marked deleted and still holds its handle, the
byte count is `expired_byte_count`, the packet count is the one the sweep
leaves in the entry, and the entry keeps the byte count that was sent. -/
def expired_sent_ok (nf : nf2_offload) (mem0 : flow_mem) (flows0 : List Nat)
    (mem1 : flow_mem) (m : flow_expired) : Prop :=
  m.linked = decide (m.flow ∈ flows0) ∧
  m.snapshot.deleted = (mem0 m.flow).deleted ∧
  m.snapshot.private_ = (mem0 m.flow).private_ ∧
  m.snapshot.byte_count = expired_byte_count nf (mem0 m.flow) ∧
  m.snapshot.packet_count = (mem1 m.flow).packet_count ∧
  (mem1 m.flow).byte_count = m.snapshot.byte_count

/-- The variables of `table_nf2_timeout` on entry to the loop:
`packet_count = 0`, `del_count = 0`. -/
def timeout_start (s : nf2_state) : timeout_acc :=
  { packet_count := 0, del_count := 0, s := s, sent := [] }

/-- `table_nf2_timeout`. -/
def table_nf2_timeout (nf : nf2_offload) (c : nf2_consts) (dp : datapath) (jiffies : Nat)
    (s : nf2_state) : timeout_result :=
  let acc := timeout_loop nf c dp jiffies s.td.flows (timeout_start s)
  if acc.del_count ≠ 0 then
    { del_count := acc.del_count,
      s := { acc.s with td := { acc.s.td with n_flows := acc.s.td.n_flows - acc.del_count } },
      sent := acc.sent }
  else { del_count := acc.del_count, s := acc.s, sent := acc.sent }

/-! ## `table_nf2_stats` and `table_nf2_create` -/

/-- The C `struct sw_table_stats`. -/
structure sw_table_stats where
  name : String
  n_flows : Int
  max_flows : Nat
deriving DecidableEq, Repr

/-- `table_nf2_stats`. -/
def table_nf2_stats (td : sw_table_nf2) : sw_table_stats :=
  { name := "nf2", n_flows := td.n_flows, max_flows := td.max_flows }

/-- `table_nf2_create`, when `kzalloc` succeeds; the two table sizes are
constants of `nf2_openflow.h`, taken as parameters. -/
def table_nf2_create (OPENFLOW_NF2_EXACT_TABLE_SIZE OPENFLOW_WILDCARD_TABLE_SIZE : Nat) :
    sw_table_nf2 :=
  { max_flows := OPENFLOW_NF2_EXACT_TABLE_SIZE + OPENFLOW_WILDCARD_TABLE_SIZE - 8,
    n_flows := 0,
    flows := [],
    iter_flows := [],
    next_serial := 0 }

/-! ## Sequences of calls and sample data -/

/-- The test of the replace loop of `table_nf2_insert`, on the keys: the linked
entry has the wildcard mask of the new flow and its key matches the new
flow's key. -/
def exact_match (old new : sw_flow_key) : Bool :=
  old.wildcards = new.wildcards && flow_matches old new

/-- Successive calls of `table_nf2_insert`, one per flow of the list, oldest
first. -/
def insert_all (nf : nf2_offload) : List Nat → nf2_state → nf2_state
  | [], s => s
  | flow :: rest, s => insert_all nf rest (table_nf2_insert nf s flow).2

/-- A key with the given ingress port and wildcard mask, all other fields 0. -/
def sample_key (in_port wildcards : Nat) : sw_flow_key :=
  { in_port := in_port, dl_vlan := 0, dl_src := 0, dl_dst := 0, dl_type := 0,
    nw_src := 0, nw_dst := 0, nw_proto := 0, tp_src := 0, tp_dst := 0,
    wildcards := wildcards }

/-- A fresh flow record: not marked deleted, no offload handle, counters 0. -/
def sample_flow (key : sw_flow_key) (priority serial : Nat) : sw_flow :=
  { key := key, priority := priority, max_idle := 0, timeout := 0, serial := serial,
    private_ := none, packet_count := 0, byte_count := 0, deleted := false,
    actions := [] }

/-- A collaborator that supports and programs every flow. -/
def accept_all : nf2_offload :=
  { nf2_are_actions_supported := fun _ => 1,
    nf2_build_and_write_flow := fun f => (0, some f.key.in_port),
    nf2_get_packet_count := fun _ => 0,
    nf2_get_byte_count := fun _ => 0 }

/-- A memory in which the flow at address `a` has the exact-match key with
ingress port `a`, priority 0 and the `serial` field `a`. -/
def port_mem : flow_mem :=
  fun a => sample_flow (sample_key a 0) 0 a

/-- As `port_mem`, with every `serial` field 0 (zero-filled records). -/
def zero_serial_mem : flow_mem :=
  fun a => sample_flow (sample_key a 0) 0 0

/-- A memory in which the flow at address `a` has the exact-match key with
ingress port `a % 2`, priority `a` and the `serial` field `a`: flows at
addresses of the same parity match each other exactly. -/
def parity_mem : flow_mem :=
  fun a => sample_flow (sample_key (a % 2) 0) a a

/-- A memory of flows on ingress port 1: the flow at an odd address wildcards
the VLAN tag (mask 2), the flow at an even address is exact (mask 0). -/
def mask_mem : flow_mem :=
  fun a => sample_flow (sample_key 1 (2 * (a % 2))) 0 a

/-- The table after `table_nf2_create` and the inserts of the flows at
addresses 1 and 2 of `parity_mem`. -/
def parity_state : nf2_state :=
  insert_all accept_all [1, 2] { mem := parity_mem, td := table_nf2_create 32768 32 }

/-- The table after `table_nf2_create` and the inserts of the flows at
addresses 1, 2 and 3 of `port_mem`. -/
def port_state : nf2_state :=
  insert_all accept_all [1, 2, 3] { mem := port_mem, td := table_nf2_create 32768 32 }

/-- The table after `table_nf2_create` and the inserts of the flows at
addresses 1 to 5 of `port_mem`, whose `serial` fields are 1 to 5. -/
def five_state : nf2_state :=
  insert_all accept_all [1, 2, 3, 4, 5]
    { mem := port_mem, td := table_nf2_create 32768 32 }

/-- The table after `table_nf2_create` and the inserts of the flows at
addresses 1 and 2 of `mask_mem`. -/
def mask_state : nf2_state :=
  insert_all accept_all [1, 2] { mem := mask_mem, td := table_nf2_create 32768 32 }

/-- The full test of the replace loop of `table_nf2_insert` on the linked
entry `f` and the new flow: the keys match exactly and `flow_del (f)`
succeeds. -/
def replaceable (mem : flow_mem) (flow f : Nat) : Bool :=
  exact_match (mem f).key (mem flow).key && !(mem f).deleted

/-- The effect of a successful `flow_del` on the memory. -/
def set_deleted (mem : flow_mem) (flow : Nat) : flow_mem :=
  Function.update mem flow { mem flow with deleted := true }

/-- The table after `table_nf2_create` with capacity 1 and the insert of the
flow at address 1 of `port_mem`: the live count has reached `max_flows`. -/
def full_state : nf2_state :=
  insert_all accept_all [1] { mem := port_mem, td := table_nf2_create 4 5 }

/-- A memory for the end-to-end replacement: flow A at address 1 and flow B
at address 2 have the same key (ingress port 1, every other field
wildcarded); A has priority 10 and actions `[1]`, B priority 20 and actions
`[2]`. -/
def replace_mem : flow_mem :=
  fun a => { sample_flow (sample_key 1 1022) (10 * a) 0 with actions := [a] }

/-! ## Reachable states -/

/-- The caller of `table_nf2_insert` hands over a freshly allocated flow: the
record `r` is written at the address `flow`. -/
def alloc_flow (s : nf2_state) (flow : Nat) (r : sw_flow) : nf2_state :=
  { mem := Function.update s.mem flow r, td := s.td }

/-- The states reachable from a newly created table by insert, delete and
timeout operations.  A flow handed to `table_nf2_insert` is freshly
allocated: it is not linked in the table and not marked deleted. -/
inductive reachable : nf2_state → Prop
  | create (mem : flow_mem) (exact_size wildcard_size : Nat) :
      reachable { mem := mem, td := table_nf2_create exact_size wildcard_size }
  | insert (nf : nf2_offload) (s : nf2_state) (flow : Nat) (r : sw_flow) :
      reachable s → flow ∉ s.td.flows → r.deleted = false →
      reachable (table_nf2_insert nf (alloc_flow s flow r) flow).2
  | delete (s : nf2_state) (key : sw_flow_key) (priority : Nat) (strict : Int) :
      reachable s → reachable (table_nf2_delete s key priority strict).2
  | timeout (nf : nf2_offload) (c : nf2_consts) (dp : datapath) (jiffies : Nat)
      (s : nf2_state) :
      reachable s → reachable (table_nf2_timeout nf c dp jiffies s).s

/-- The invariant of the reachable states: the match-list has no duplicates,
the iteration-list is the same list, no linked entry is marked deleted, the
live-flow counter is the length of the list, and no two linked entries match
each other exactly. -/
def table_inv (s : nf2_state) : Prop :=
  s.td.flows.Nodup ∧
  s.td.iter_flows = s.td.flows ∧
  (∀ f ∈ s.td.flows, (s.mem f).deleted = false) ∧
  s.td.n_flows = s.td.flows.length ∧
  (∀ x ∈ s.td.flows, ∀ y ∈ s.td.flows, x ≠ y →
    exact_match (s.mem x).key (s.mem y).key = false)

/-- A reachable sample state: on a newly created table the flows at addresses
1 and 2 of `port_mem` are allocated and inserted. -/
def reached_state : nf2_state :=
  (table_nf2_insert accept_all (alloc_flow (table_nf2_insert accept_all
    (alloc_flow { mem := port_mem, td := table_nf2_create 32768 32 } 1 (port_mem 1)) 1).2
    2 (port_mem 2)) 2).2

/-- Sample constants: `HZ` 100, `OFP_FLOW_PERMANENT` 0, `OFPC_SEND_FLOW_EXP` 1. -/
def sample_consts : nf2_consts :=
  { HZ := 100, OFP_FLOW_PERMANENT := 0, OFPC_SEND_FLOW_EXP := 1 }

/-- A collaborator that programs every flow, attaches a handle (the ingress
port) to the flows on odd ports only, and reports `10 * h` packets and
`100 * h` bytes for the handle `h`. -/
def odd_handles : nf2_offload :=
  { nf2_are_actions_supported := fun _ => 1,
    nf2_build_and_write_flow :=
      fun f => (0, if f.key.in_port % 2 = 1 then some f.key.in_port else none),
    nf2_get_packet_count := fun h => 10 * h,
    nf2_get_byte_count := fun h => 100 * h }

/-- A memory of flows to age: the flow at address `a` has the exact-match key
with ingress port `a`, idle time 5, deadline 5000, 20 packets and 7 bytes. -/
def aging_mem : flow_mem :=
  fun a => { sample_flow (sample_key a 0) 0 a with
    max_idle := 5, timeout := 5000, packet_count := 20, byte_count := 7 }

/-- As `aging_mem`, with the permanent idle policy (idle time 0). -/
def permanent_mem : flow_mem :=
  fun a => { sample_flow (sample_key a 0) 0 a with
    max_idle := 0, timeout := 5000, packet_count := 20, byte_count := 7 }

/-- The table after `table_nf2_create` and the inserts of the flows at
addresses 1, 2, 3 of `aging_mem` with the collaborator `odd_handles`: the
match-list is 3, 2, 1, and the flow at address 2 has no offload handle. -/
def aging_state : nf2_state :=
  insert_all odd_handles [1, 2, 3] { mem := aging_mem, td := table_nf2_create 32768 32 }

/-- As `aging_state`, on `permanent_mem`. -/
def permanent_state : nf2_state :=
  insert_all odd_handles [1, 2, 3] { mem := permanent_mem, td := table_nf2_create 32768 32 }

/-- The filter key that wildcards every field. -/
def any_key : sw_flow_key := sample_key 0 1023

/-- A visit callback that signals stop (1) on every entry. -/
def visit_stop (_ : Nat) (u : Unit) : Int × Unit := (1, u)

/-- A visit callback that never signals stop. -/
def visit_all (_ : Nat) (u : Unit) : Int × Unit := (0, u)

/-- A visit callback that signals stop on the entries whose `serial` is `k`. -/
def visit_until (mem : flow_mem) (k : Nat) (flow : Nat) (u : Unit) : Int × Unit :=
  (if (mem flow).serial = k then 1 else 0, u)

/-! ## Lookup -/

theorem lookup_loop_eq_some (mem : flow_mem) (key : sw_flow_key) (l : List Nat) (flow : Nat) :
    lookup_loop mem key l = some flow ↔
      ∃ pre post, l = pre ++ flow :: post ∧
        flow_matches (mem flow).key key = true ∧
        ∀ f ∈ pre, flow_matches (mem f).key key = false := by
  induction l with
  | nil => simp [lookup_loop]
  | cons a l ih =>
    unfold lookup_loop
    by_cases ha : flow_matches (mem a).key key = true
    · simp only [ha, if_true, Option.some.injEq]
      constructor
      · rintro rfl
        exact ⟨[], l, rfl, ha, by simp⟩
      · rintro ⟨pre, post, hl, -, hpre⟩
        cases pre with
        | nil => simpa using (List.cons.inj hl).1
        | cons b pre =>
          have hb : a = b := (List.cons.inj hl).1
          have := hpre b (by simp)
          rw [← hb, ha] at this
          exact absurd this (by simp)
    · simp only [ha, if_false, Bool.false_eq_true]
      rw [ih]
      constructor
      · rintro ⟨pre, post, hl, hm, hpre⟩
        refine ⟨a :: pre, post, by simp [hl], hm, ?_⟩
        intro f hf
        rcases List.mem_cons.mp hf with rfl | hf
        · simpa using ha
        · exact hpre f hf
      · rintro ⟨pre, post, hl, hm, hpre⟩
        cases pre with
        | nil =>
          have : a = flow := (List.cons.inj hl).1
          rw [this] at ha
          exact absurd hm ha
        | cons b pre =>
          exact ⟨pre, post, (List.cons.inj hl).2, hm, fun f hf => hpre f (by simp [hf])⟩

theorem lookup_loop_eq_none (mem : flow_mem) (key : sw_flow_key) (l : List Nat) :
    lookup_loop mem key l = none ↔ ∀ f ∈ l, flow_matches (mem f).key key = false := by
  induction l with
  | nil => simp [lookup_loop]
  | cons a l ih =>
    unfold lookup_loop
    by_cases ha : flow_matches (mem a).key key = true
    · simp [ha]
    · simp only [ha, if_false, Bool.false_eq_true]
      rw [ih]
      simp at ha
      simp [ha]

theorem lookup_loop_congr (mem mem' : flow_mem) (key : sw_flow_key) (l : List Nat)
    (h : ∀ f, (mem' f).key = (mem f).key) :
    lookup_loop mem' key l = lookup_loop mem key l := by
  induction l with
  | nil => rfl
  | cons a l ih => simp [lookup_loop, h, ih]

/-- C1: `table_nf2_lookup` returns the first entry of the match-list, from the
head, whose stored key satisfies `flow_matches (stored, probe)`; it returns
`NULL` exactly when no entry of the match-list matches; and the result depends
on the flows through their keys only, so priority plays no part. -/
theorem table_nf2_lookup_first_match (s : nf2_state) (key : sw_flow_key) :
    (∀ flow, table_nf2_lookup s key = some flow ↔
      ∃ pre post, s.td.flows = pre ++ flow :: post ∧
        flow_matches (s.mem flow).key key = true ∧
        ∀ f ∈ pre, flow_matches (s.mem f).key key = false) ∧
    (table_nf2_lookup s key = none ↔
      ∀ f ∈ s.td.flows, flow_matches (s.mem f).key key = false) ∧
    (∀ mem' : flow_mem, (∀ f, (mem' f).key = (s.mem f).key) →
      table_nf2_lookup { s with mem := mem' } key = table_nf2_lookup s key) :=
  ⟨fun flow => lookup_loop_eq_some s.mem key s.td.flows flow,
   lookup_loop_eq_none s.mem key s.td.flows,
   fun mem' h => lookup_loop_congr s.mem mem' key s.td.flows h⟩

/-! ## Insert: rejection -/

/-- C2: `table_nf2_insert` returns 0 exactly when the collaborator reports the
actions unsupported or programming the flow fails; whenever it returns 0 the
table (match-list, iteration-list, live-flow counter) is as before the call. -/
theorem table_nf2_insert_rejects (nf : nf2_offload) (s : nf2_state) (flow : Nat) :
    ((table_nf2_insert nf s flow).1 = 0 ↔
      (nf.nf2_are_actions_supported (s.mem flow) = 0 ∨
        (nf.nf2_build_and_write_flow (s.mem flow)).1 ≠ 0)) ∧
    ((table_nf2_insert nf s flow).1 = 0 →
      (table_nf2_insert nf s flow).2.td.flows = s.td.flows ∧
      (table_nf2_insert nf s flow).2.td.iter_flows = s.td.iter_flows ∧
      (table_nf2_insert nf s flow).2.td.n_flows = s.td.n_flows) := by
  unfold table_nf2_insert
  by_cases hs : nf.nf2_are_actions_supported (s.mem flow) = 0
  · simp [hs]
  · by_cases hw : (nf.nf2_build_and_write_flow (s.mem flow)).1 = 0
    · simp only [ne_eq, hs, not_false_eq_true, if_true, hw, not_true_eq_false, if_false,
        false_or]
      split <;> simp
    · simp [hs, hw]

/-! ## Insert: replacement of an exactly matching entry -/

theorem list_replace_rcu_append (old new : Nat) (pre post : List Nat) (h : old ∉ pre) :
    list_replace_rcu old new (pre ++ old :: post) = pre ++ new :: post := by
  induction pre with
  | nil => simp [list_replace_rcu]
  | cons a pre ih =>
    have ha : a ≠ old := fun e => h (by simp [e])
    have hp : old ∉ pre := fun e => h (by simp [e])
    simp [list_replace_rcu, ha, ih hp]

theorem flow_del_live (mem : flow_mem) (f : Nat) (h : (mem f).deleted = false) :
    flow_del mem f = (true, Function.update mem f { mem f with deleted := true }) := by
  simp [flow_del, h]

theorem flow_del_marked (mem : flow_mem) (f : Nat) (h : (mem f).deleted = true) :
    flow_del mem f = (false, mem) := by
  simp [flow_del, h]

theorem insert_replace_loop_hit (flow E : Nat) (pre post : List Nat) (s : nf2_state)
    (hpre : ∀ f ∈ pre, ¬ ((s.mem f).key.wildcards = (s.mem flow).key.wildcards ∧
      flow_matches (s.mem f).key (s.mem flow).key = true ∧ (s.mem f).deleted = false))
    (hE : (s.mem E).key.wildcards = (s.mem flow).key.wildcards ∧
      flow_matches (s.mem E).key (s.mem flow).key = true ∧ (s.mem E).deleted = false) :
    insert_replace_loop flow (pre ++ E :: post) s =
      some { mem := Function.update s.mem E { s.mem E with deleted := true },
             td := { s.td with
               flows := list_replace_rcu E flow s.td.flows,
               iter_flows := list_replace_rcu E flow s.td.iter_flows } } := by
  induction pre with
  | nil =>
    simp only [List.nil_append, insert_replace_loop, hE.1, hE.2.1, decide_True, Bool.and_self,
      if_true, flow_del_live s.mem E hE.2.2]
  | cons a pre ih =>
    have ih1 := ih (fun f hf => hpre f (by simp [hf]))
    have ha := hpre a (by simp)
    simp only [List.cons_append, insert_replace_loop]
    by_cases hc : ((s.mem a).key.wildcards = (s.mem flow).key.wildcards
        && flow_matches (s.mem a).key (s.mem flow).key) = true
    · have hc1 : (s.mem a).key.wildcards = (s.mem flow).key.wildcards ∧
          flow_matches (s.mem a).key (s.mem flow).key = true := by simpa using hc
      have hd : (s.mem a).deleted = true := by
        by_contra hd
        exact ha ⟨hc1.1, hc1.2, by simpa using hd⟩
      rw [if_pos hc, flow_del_marked s.mem a hd]
      exact ih1
    · rw [if_neg hc]
      exact ih1

theorem set_private_key (mem : flow_mem) (flow : Nat) (x : Option Nat) (f : Nat) :
    (set_private mem flow x f).key = (mem f).key := by
  by_cases h : f = flow
  · subst h; simp [set_private]
  · simp [set_private, Function.update_noteq h]

theorem set_private_deleted (mem : flow_mem) (flow : Nat) (x : Option Nat) (f : Nat) :
    (set_private mem flow x f).deleted = (mem f).deleted := by
  by_cases h : f = flow
  · subst h; simp [set_private]
  · simp [set_private, Function.update_noteq h]

theorem set_private_serial (mem : flow_mem) (flow : Nat) (x : Option Nat) (f : Nat) :
    (set_private mem flow x f).serial = (mem f).serial := by
  by_cases h : f = flow
  · subst h; simp [set_private]
  · simp [set_private, Function.update_noteq h]

theorem set_private_priority (mem : flow_mem) (flow : Nat) (x : Option Nat) (f : Nat) :
    (set_private mem flow x f).priority = (mem f).priority := by
  by_cases h : f = flow
  · subst h; simp [set_private]
  · simp [set_private, Function.update_noteq h]

/-- C3: when the collaborator accepts the new flow `F` and some linked entry
that is not marked deleted has `F`'s wildcard mask and a key matching `F`'s
key, `table_nf2_insert` returns 1 and puts `F` in the place of the first such
entry `E` of the match-list, in the match-list and in the iteration-list;
`E` is in neither list afterwards, all other entries keep their positions, and
the live-flow counter is unchanged. -/
theorem table_nf2_insert_replaces (nf : nf2_offload) (s : nf2_state) (F E : Nat)
    (pre post ipre ipost : List Nat)
    (hsup : nf.nf2_are_actions_supported (s.mem F) ≠ 0)
    (hwr : (nf.nf2_build_and_write_flow (s.mem F)).1 = 0)
    (hflows : s.td.flows = pre ++ E :: post)
    (hiter : s.td.iter_flows = ipre ++ E :: ipost)
    (hnd : s.td.flows.Nodup) (hind : s.td.iter_flows.Nodup)
    (hF : F ∉ s.td.flows) (hFi : F ∉ s.td.iter_flows)
    (hpre : ∀ f ∈ pre, ¬ ((s.mem f).key.wildcards = (s.mem F).key.wildcards ∧
      flow_matches (s.mem f).key (s.mem F).key = true ∧ (s.mem f).deleted = false))
    (hE : (s.mem E).key.wildcards = (s.mem F).key.wildcards ∧
      flow_matches (s.mem E).key (s.mem F).key = true ∧ (s.mem E).deleted = false) :
    (table_nf2_insert nf s F).1 = 1 ∧
    (table_nf2_insert nf s F).2.td.flows = pre ++ F :: post ∧
    (table_nf2_insert nf s F).2.td.iter_flows = ipre ++ F :: ipost ∧
    E ∉ (table_nf2_insert nf s F).2.td.flows ∧
    E ∉ (table_nf2_insert nf s F).2.td.iter_flows ∧
    (table_nf2_insert nf s F).2.td.n_flows = s.td.n_flows := by
  have hEF : E ≠ F := by
    rintro rfl
    exact hF (by simp [hflows])
  rw [hflows] at hnd
  rw [hiter] at hind
  have hEpre : E ∉ pre := fun h => (List.nodup_append.mp hnd).2.2 h (by simp)
  have hEpost : E ∉ post := (List.nodup_cons.mp (List.nodup_append.mp hnd).2.1).1
  have hEipre : E ∉ ipre := fun h => (List.nodup_append.mp hind).2.2 h (by simp)
  have hEipost : E ∉ ipost := (List.nodup_cons.mp (List.nodup_append.mp hind).2.1).1
  have hloop := insert_replace_loop_hit F E pre post
    { s with mem := set_private s.mem F (nf.nf2_build_and_write_flow (s.mem F)).2 }
    (by
      intro f hf
      simp only [set_private_key, set_private_deleted]
      exact hpre f hf)
    (by
      simp only [set_private_key, set_private_deleted]
      exact hE)
  unfold table_nf2_insert
  simp only [ne_eq, hsup, not_false_eq_true, if_true, hwr, not_true_eq_false, if_false]
  simp only [hflows] at hloop ⊢
  rw [hloop]
  simp only [hiter, list_replace_rcu_append E F pre post hEpre,
    list_replace_rcu_append E F ipre ipost hEipre]
  refine ⟨trivial, trivial, trivial, ?_, ?_, trivial⟩
  · simp [hEpre, hEpost, hEF]
  · simp [hEipre, hEipost, hEF]

/-- The flow at address 3 of `parity_mem` replaces the flow at address 1, which
has the same key and mask, behind the flow at address 2. -/
theorem table_nf2_insert_replaces_witness :
    (table_nf2_insert accept_all parity_state 3).1 = 1 ∧
    (table_nf2_insert accept_all parity_state 3).2.td.flows = [2] ++ 3 :: [] ∧
    (table_nf2_insert accept_all parity_state 3).2.td.iter_flows = [2] ++ 3 :: [] ∧
    1 ∉ (table_nf2_insert accept_all parity_state 3).2.td.flows ∧
    1 ∉ (table_nf2_insert accept_all parity_state 3).2.td.iter_flows ∧
    (table_nf2_insert accept_all parity_state 3).2.td.n_flows = parity_state.td.n_flows :=
  table_nf2_insert_replaces accept_all parity_state 3 1 [2] [] [2] []
    (by decide) (by decide) (by decide) (by decide) (by decide) (by decide)
    (by decide) (by decide) (by decide) (by decide)

/-! ## Delete -/

theorem do_delete_live (s : nf2_state) (a : Nat) (h : (s.mem a).deleted = false) :
    (do_delete s a).1 = 1 ∧
    (do_delete s a).2.td.flows = s.td.flows.erase a ∧
    (do_delete s a).2.td.iter_flows = s.td.iter_flows.erase a ∧
    (do_delete s a).2.td.n_flows = s.td.n_flows ∧
    ((do_delete s a).2.mem a).deleted = true := by
  unfold do_delete
  rw [flow_del_live s.mem a h]
  refine ⟨rfl, rfl, rfl, rfl, ?_⟩
  by_cases hp : ((Function.update s.mem a { s.mem a with deleted := true }) a).private_.isSome
  · simp only [hp, if_true]
    rw [set_private_deleted]
    simp
  · simp only [hp]
    simp

theorem do_delete_marked (s : nf2_state) (a : Nat) (h : (s.mem a).deleted = true) :
    do_delete s a = (0, s) := by
  unfold do_delete
  rw [flow_del_marked s.mem a h]

theorem do_delete_mem (s : nf2_state) (a f : Nat) :
    ((do_delete s a).2.mem f).key = (s.mem f).key ∧
    ((do_delete s a).2.mem f).priority = (s.mem f).priority ∧
    ((do_delete s a).2.mem f).serial = (s.mem f).serial ∧
    (f ≠ a → ((do_delete s a).2.mem f).deleted = (s.mem f).deleted) := by
  by_cases h : (s.mem a).deleted = true
  · rw [do_delete_marked s a h]
    simp
  · have h0 : (s.mem a).deleted = false := by simpa using h
    unfold do_delete
    rw [flow_del_live s.mem a h0]
    by_cases hf : f = a
    · subst hf
      by_cases hp : ((Function.update s.mem f { s.mem f with deleted := true }) f).private_.isSome
      · simp only [hp, if_true, set_private_key, set_private_priority, set_private_serial]
        simp
      · simp only [hp]
        simp
    · by_cases hp : ((Function.update s.mem a { s.mem a with deleted := true }) a).private_.isSome
      · simp only [hp, if_true, set_private_key, set_private_priority, set_private_serial,
          set_private_deleted]
        simp [Function.update_noteq hf]
      · simp only [hp]
        simp [Function.update_noteq hf]

theorem delete_selects_congr (mem mem' : flow_mem) (key : sw_flow_key) (priority : Nat)
    (strict : Int) (f : Nat) (hk : (mem' f).key = (mem f).key)
    (hp : (mem' f).priority = (mem f).priority) :
    delete_selects mem' key priority strict f = delete_selects mem key priority strict f := by
  simp [delete_selects, hk, hp]

theorem delete_selects_do_delete (s : nf2_state) (a : Nat) (key : sw_flow_key)
    (priority : Nat) (strict : Int) (f : Nat) :
    delete_selects (do_delete s a).2.mem key priority strict f =
      delete_selects s.mem key priority strict f :=
  delete_selects_congr _ _ _ _ _ _ (do_delete_mem s a f).1 (do_delete_mem s a f).2.1

theorem delete_loop_spec (key : sw_flow_key) (priority : Nat) (strict : Int) (l : List Nat) :
    ∀ (count : Int) (s : nf2_state), l.Nodup →
      (delete_loop key priority strict l (count, s)).2.td.flows =
        s.td.flows.diff (l.filter (fun f =>
          delete_selects s.mem key priority strict f && !(s.mem f).deleted)) ∧
      (delete_loop key priority strict l (count, s)).2.td.iter_flows =
        s.td.iter_flows.diff (l.filter (fun f =>
          delete_selects s.mem key priority strict f && !(s.mem f).deleted)) ∧
      (delete_loop key priority strict l (count, s)).2.td.n_flows = s.td.n_flows ∧
      (delete_loop key priority strict l (count, s)).1 =
        count + ((l.filter (fun f =>
          delete_selects s.mem key priority strict f && !(s.mem f).deleted)).length : Int) := by
  induction l with
  | nil => intro count s _; simp [delete_loop]
  | cons a rest ih =>
    intro count s hnd
    have hnd' : rest.Nodup := (List.nodup_cons.mp hnd).2
    have ha : a ∉ rest := (List.nodup_cons.mp hnd).1
    by_cases hsel : delete_selects s.mem key priority strict a = true
    · by_cases hdel : (s.mem a).deleted = true
      · have h1 := ih count s hnd'
        simp only [delete_loop, hsel, if_true, do_delete_marked s a hdel, add_zero]
        simp only [List.filter_cons, hsel, hdel, Bool.not_true, Bool.and_false,
          Bool.false_eq_true, if_false]
        exact h1
      · have hlive : (s.mem a).deleted = false := by simpa using hdel
        obtain ⟨hr, hfl, hil, hn, -⟩ := do_delete_live s a hlive
        have hfilt : rest.filter (fun f =>
              delete_selects (do_delete s a).2.mem key priority strict f
                && !((do_delete s a).2.mem f).deleted) =
            rest.filter (fun f =>
              delete_selects s.mem key priority strict f && !(s.mem f).deleted) := by
          apply List.filter_congr
          intro f hf
          have hfa : f ≠ a := fun e => ha (e ▸ hf)
          rw [delete_selects_do_delete, (do_delete_mem s a f).2.2.2 hfa]
        obtain ⟨h1, h2, h3, h4⟩ := ih (count + (do_delete s a).1) (do_delete s a).2 hnd'
        simp only [delete_loop, hsel, if_true]
        rw [h1, h2, h3, h4, hfilt, hfl, hil, hn, hr]
        simp only [List.filter_cons, hsel, hlive, Bool.not_false, Bool.and_self, if_true,
          List.diff_cons, List.length_cons]
        refine ⟨trivial, trivial, trivial, ?_⟩
        push_cast
        ring
    · have h1 := ih count s hnd'
      simp only [delete_loop, hsel, Bool.false_eq_true, if_false]
      simp only [List.filter_cons, hsel, Bool.false_and, Bool.false_eq_true, if_false]
      exact h1

theorem table_nf2_delete_fields (s : nf2_state) (key : sw_flow_key) (priority : Nat)
    (strict : Int) :
    (table_nf2_delete s key priority strict).1 =
      (delete_loop key priority strict s.td.flows (0, s)).1 ∧
    (table_nf2_delete s key priority strict).2.td.flows =
      (delete_loop key priority strict s.td.flows (0, s)).2.td.flows ∧
    (table_nf2_delete s key priority strict).2.td.iter_flows =
      (delete_loop key priority strict s.td.flows (0, s)).2.td.iter_flows ∧
    (table_nf2_delete s key priority strict).2.td.n_flows =
      (delete_loop key priority strict s.td.flows (0, s)).2.td.n_flows -
        (delete_loop key priority strict s.td.flows (0, s)).1 := by
  unfold table_nf2_delete
  by_cases h : (delete_loop key priority strict s.td.flows (0, s)).1 = 0
  · simp [h]
  · simp [h]

theorem delete_selects_iff (mem : flow_mem) (key : sw_flow_key) (priority : Nat)
    (strict : Int) (f : Nat) :
    delete_selects mem key priority strict f = true ↔
      (flow_del_matches (mem f).key key strict = true ∧
        (strict ≠ 0 → (mem f).priority = priority)) := by
  unfold delete_selects
  by_cases hs : strict = 0
  · simp [hs]
  · simp [hs]

theorem delete_loop_nonstrict (key : sw_flow_key) (p p' : Nat) (l : List Nat) :
    ∀ acc : Int × nf2_state, delete_loop key p 0 l acc = delete_loop key p' 0 l acc := by
  induction l with
  | nil => intro acc; rfl
  | cons a rest ih =>
    rintro ⟨count, s⟩
    have hsel : delete_selects s.mem key p 0 a = delete_selects s.mem key p' 0 a := by
      simp [delete_selects]
    simp only [delete_loop, hsel, ih]

theorem delete_loop_none (key : sw_flow_key) (priority : Nat) (strict : Int) (l : List Nat)
    (count : Int) (s : nf2_state)
    (h : ∀ f ∈ l, delete_selects s.mem key priority strict f = false) :
    delete_loop key priority strict l (count, s) = (count, s) := by
  induction l with
  | nil => rfl
  | cons a rest ih =>
    have ha := h a (by simp)
    simp only [delete_loop, ha, Bool.false_eq_true, if_false]
    exact ih (fun f hf => h f (by simp [hf]))

theorem delete_loop_keeps (key : sw_flow_key) (priority : Nat) (strict : Int) (f : Nat)
    (l : List Nat) :
    ∀ (count : Int) (s : nf2_state), delete_selects s.mem key priority strict f = false →
      (f ∈ s.td.flows → f ∈ (delete_loop key priority strict l (count, s)).2.td.flows) ∧
      (f ∈ s.td.iter_flows →
        f ∈ (delete_loop key priority strict l (count, s)).2.td.iter_flows) := by
  induction l with
  | nil => intro count s _; simp [delete_loop]
  | cons a rest ih =>
    intro count s hf
    by_cases hsel : delete_selects s.mem key priority strict a = true
    · have hfa : f ≠ a := by
        rintro rfl
        rw [hsel] at hf
        exact absurd hf (by simp)
      simp only [delete_loop, hsel, if_true]
      have h1 := ih (count + (do_delete s a).1) (do_delete s a).2
        (by rw [delete_selects_do_delete]; exact hf)
      by_cases hdel : (s.mem a).deleted = true
      · rw [do_delete_marked s a hdel] at h1 ⊢
        exact h1
      · have hlive : (s.mem a).deleted = false := by simpa using hdel
        obtain ⟨-, hfl, hil, -, -⟩ := do_delete_live s a hlive
        rw [hfl, hil] at h1
        exact ⟨fun hm => h1.1 ((List.mem_erase_of_ne hfa).mpr hm),
          fun hm => h1.2 ((List.mem_erase_of_ne hfa).mpr hm)⟩
    · simp only [delete_loop, hsel, Bool.false_eq_true, if_false]
      exact ih count s hf

theorem length_diff_of_subset (L : List Nat) :
    ∀ l : List Nat, L.Nodup → (∀ f ∈ L, f ∈ l) → (l.diff L).length + L.length = l.length := by
  induction L with
  | nil => intro l _ _; simp
  | cons a L ih =>
    intro l hnd hsub
    have ha : a ∈ l := hsub a (by simp)
    have haL : a ∉ L := (List.nodup_cons.mp hnd).1
    have hsub' : ∀ f ∈ L, f ∈ l.erase a := by
      intro f hf
      have hfa : f ≠ a := fun e => haL (e ▸ hf)
      exact (List.mem_erase_of_ne hfa).mpr (hsub f (by simp [hf]))
    have h1 := ih (l.erase a) (List.nodup_cons.mp hnd).2 hsub'
    rw [List.diff_cons, List.length_cons]
    rw [List.length_erase_of_mem ha] at h1
    have hpos : 0 < l.length := List.length_pos_of_mem ha
    omega

/-- C5: on a table whose linked entries can all be marked deleted,
`table_nf2_delete` leaves in the match-list and in the iteration-list exactly
the previous entries, in their previous order, that do not satisfy
`flow_del_matches (entry.key, selector, strict)` together with, when `strict`,
`entry.priority == priority`; and a non-strict delete does the same whatever
the priority argument. -/
theorem table_nf2_delete_removes_selected (s : nf2_state) (key : sw_flow_key)
    (priority : Nat) (strict : Int)
    (hnd : s.td.flows.Nodup) (hind : s.td.iter_flows.Nodup)
    (hsub : ∀ f ∈ s.td.iter_flows, f ∈ s.td.flows)
    (hlive : ∀ f ∈ s.td.flows, (s.mem f).deleted = false) :
    (table_nf2_delete s key priority strict).2.td.flows =
      s.td.flows.filter (fun f => decide (¬ (flow_del_matches (s.mem f).key key strict = true ∧
        (strict ≠ 0 → (s.mem f).priority = priority)))) ∧
    (table_nf2_delete s key priority strict).2.td.iter_flows =
      s.td.iter_flows.filter (fun f =>
        decide (¬ (flow_del_matches (s.mem f).key key strict = true ∧
          (strict ≠ 0 → (s.mem f).priority = priority)))) ∧
    (strict = 0 → ∀ priority' : Nat,
      table_nf2_delete s key priority' strict = table_nf2_delete s key priority strict) := by
  obtain ⟨-, hfl, hil, -⟩ := table_nf2_delete_fields s key priority strict
  obtain ⟨h1, h2, -, -⟩ := delete_loop_spec key priority strict s.td.flows 0 s hnd
  have hL : s.td.flows.filter (fun f =>
        delete_selects s.mem key priority strict f && !(s.mem f).deleted) =
      s.td.flows.filter (fun f => delete_selects s.mem key priority strict f) := by
    apply List.filter_congr
    intro f hf
    simp [hlive f hf]
  have hmem : ∀ f ∈ s.td.flows,
      (decide (f ∉ s.td.flows.filter (fun f => delete_selects s.mem key priority strict f))) =
      decide (¬ (flow_del_matches (s.mem f).key key strict = true ∧
        (strict ≠ 0 → (s.mem f).priority = priority))) := by
    intro f hf
    rw [decide_eq_decide, List.mem_filter, ← delete_selects_iff]
    simp [hf]
  refine ⟨?_, ?_, ?_⟩
  · rw [hfl, h1, hL, List.Nodup.diff_eq_filter hnd]
    exact List.filter_congr hmem
  · rw [hil, h2, hL, List.Nodup.diff_eq_filter hind]
    exact List.filter_congr (fun f hf => hmem f (hsub f hf))
  · intro h0 priority'
    subst h0
    unfold table_nf2_delete
    rw [delete_loop_nonstrict key priority' priority]

/-- A non-strict delete of ingress port 2 from the table holding the flows at
addresses 3, 2, 1 of `port_mem` leaves 3, 1. -/
theorem table_nf2_delete_removes_selected_witness :
    (port_state.td.flows = [3, 2, 1] ∧
      (table_nf2_delete port_state (sample_key 2 0) 7 0).2.td.flows = [3, 1] ∧
      (table_nf2_delete port_state (sample_key 2 0) 7 0).2.td.iter_flows = [3, 1]) ∧
    (table_nf2_delete port_state (sample_key 2 0) 7 0).2.td.flows =
      port_state.td.flows.filter (fun f =>
        decide (¬ (flow_del_matches (port_state.mem f).key (sample_key 2 0) 0 = true ∧
          ((0 : Int) ≠ 0 → (port_state.mem f).priority = 7)))) ∧
    (table_nf2_delete port_state (sample_key 2 0) 7 0).2.td.iter_flows =
      port_state.td.iter_flows.filter (fun f =>
        decide (¬ (flow_del_matches (port_state.mem f).key (sample_key 2 0) 0 = true ∧
          ((0 : Int) ≠ 0 → (port_state.mem f).priority = 7)))) ∧
    ((0 : Int) = 0 → ∀ priority' : Nat,
      table_nf2_delete port_state (sample_key 2 0) priority' 0 =
        table_nf2_delete port_state (sample_key 2 0) 7 0) :=
  ⟨by decide, table_nf2_delete_removes_selected port_state (sample_key 2 0) 7 0
    (by decide) (by decide) (by decide) (by decide)⟩

/-- C6: `table_nf2_delete` returns the number of entries it removed from the
match-list (and from the iteration-list) and takes exactly that number off
the live-flow counter; when no entry is selected it returns 0 and the state
is as before. -/
theorem table_nf2_delete_count (s : nf2_state) (key : sw_flow_key)
    (priority : Nat) (strict : Int)
    (hnd : s.td.flows.Nodup) (hsub : ∀ f ∈ s.td.flows, f ∈ s.td.iter_flows) :
    ((table_nf2_delete s key priority strict).2.td.flows.length : Int) +
      (table_nf2_delete s key priority strict).1 = s.td.flows.length ∧
    ((table_nf2_delete s key priority strict).2.td.iter_flows.length : Int) +
      (table_nf2_delete s key priority strict).1 = s.td.iter_flows.length ∧
    (table_nf2_delete s key priority strict).2.td.n_flows =
      s.td.n_flows - (table_nf2_delete s key priority strict).1 ∧
    0 ≤ (table_nf2_delete s key priority strict).1 ∧
    ((∀ f ∈ s.td.flows, ¬ (flow_del_matches (s.mem f).key key strict = true ∧
        (strict ≠ 0 → (s.mem f).priority = priority))) →
      table_nf2_delete s key priority strict = (0, s)) := by
  obtain ⟨hr, hfl, hil, hn⟩ := table_nf2_delete_fields s key priority strict
  obtain ⟨h1, h2, h3, h4⟩ := delete_loop_spec key priority strict s.td.flows 0 s hnd
  have hLnd : (s.td.flows.filter (fun f =>
      delete_selects s.mem key priority strict f && !(s.mem f).deleted)).Nodup :=
    hnd.filter _
  have hLsub : ∀ f ∈ s.td.flows.filter (fun f =>
      delete_selects s.mem key priority strict f && !(s.mem f).deleted), f ∈ s.td.flows :=
    fun f hf => (List.mem_filter.mp hf).1
  have e1 := length_diff_of_subset _ s.td.flows hLnd hLsub
  have e2 := length_diff_of_subset _ s.td.iter_flows hLnd (fun f hf => hsub f (hLsub f hf))
  refine ⟨?_, ?_, ?_, ?_, ?_⟩
  · rw [hfl, hr, h1, h4, zero_add, ← e1]
    push_cast
    ring
  · rw [hil, hr, h2, h4, zero_add, ← e2]
    push_cast
    ring
  · rw [hn, hr, h3]
  · rw [hr, h4, zero_add]
    exact Int.natCast_nonneg _
  · intro hnone
    have hl := delete_loop_none key priority strict s.td.flows 0 s (by
      intro f hf
      have := hnone f hf
      rw [← delete_selects_iff] at this
      simpa using this)
    unfold table_nf2_delete
    simp [hl]

/-- A strict delete of ingress port 2, priority 0, from the table holding the
flows at addresses 3, 2, 1 of `port_mem` removes one entry and returns 1. -/
theorem table_nf2_delete_count_witness :
    ((table_nf2_delete port_state (sample_key 2 0) 0 1).1 = 1 ∧
      port_state.td.n_flows = 3 ∧
      (table_nf2_delete port_state (sample_key 2 0) 0 1).2.td.n_flows = 2 ∧
      (table_nf2_delete port_state (sample_key 9 0) 0 1).1 = 0) ∧
    ((table_nf2_delete port_state (sample_key 2 0) 0 1).2.td.flows.length : Int) +
      (table_nf2_delete port_state (sample_key 2 0) 0 1).1 = port_state.td.flows.length ∧
    ((table_nf2_delete port_state (sample_key 2 0) 0 1).2.td.iter_flows.length : Int) +
      (table_nf2_delete port_state (sample_key 2 0) 0 1).1 =
        port_state.td.iter_flows.length ∧
    (table_nf2_delete port_state (sample_key 2 0) 0 1).2.td.n_flows =
      port_state.td.n_flows - (table_nf2_delete port_state (sample_key 2 0) 0 1).1 ∧
    0 ≤ (table_nf2_delete port_state (sample_key 2 0) 0 1).1 ∧
    ((∀ f ∈ port_state.td.flows,
        ¬ (flow_del_matches (port_state.mem f).key (sample_key 2 0) 1 = true ∧
          ((1 : Int) ≠ 0 → (port_state.mem f).priority = 0))) →
      table_nf2_delete port_state (sample_key 2 0) 0 1 = (0, port_state)) :=
  ⟨by decide,
    table_nf2_delete_count port_state (sample_key 2 0) 0 1 (by decide) (by decide)⟩

/-- C7 (with `flow_del_matches` as the spec describes it): a strict
`table_nf2_delete` leaves in both lists every entry whose stored wildcard mask
differs from the selector's mask, whatever its pattern, and every entry whose
priority differs from the priority argument. -/
theorem table_nf2_delete_strict_scope (s : nf2_state) (key : sw_flow_key)
    (priority : Nat) (strict : Int) (f : Nat)
    (hstrict : strict ≠ 0)
    (hdiff : (s.mem f).key.wildcards ≠ key.wildcards ∨ (s.mem f).priority ≠ priority) :
    (f ∈ s.td.flows → f ∈ (table_nf2_delete s key priority strict).2.td.flows) ∧
    (f ∈ s.td.iter_flows → f ∈ (table_nf2_delete s key priority strict).2.td.iter_flows) := by
  obtain ⟨-, hfl, hil, -⟩ := table_nf2_delete_fields s key priority strict
  have hsel : delete_selects s.mem key priority strict f = false := by
    rcases hdiff with hw | hp
    · simp [delete_selects, flow_del_matches, hstrict, hw]
    · simp [delete_selects, hstrict, hp]
  rw [hfl, hil]
  exact delete_loop_keeps key priority strict f s.td.flows 0 s hsel

/-- In `mask_state` the flow at address 1 wildcards the VLAN tag, so its
pattern covers the exact selector on ingress port 1; a strict delete with
that selector removes the exact flow at address 2 and keeps the flow at
address 1, which a non-strict delete removes as well. -/
theorem table_nf2_delete_strict_scope_witness :
    (mask_state.td.flows = [2, 1] ∧
      flow_matches (mask_state.mem 1).key (sample_key 1 0) = true ∧
      (table_nf2_delete mask_state (sample_key 1 0) 0 1).2.td.flows = [1] ∧
      (table_nf2_delete mask_state (sample_key 1 0) 0 0).2.td.flows = []) ∧
    (1 ∈ mask_state.td.flows →
      1 ∈ (table_nf2_delete mask_state (sample_key 1 0) 0 1).2.td.flows) ∧
    (1 ∈ mask_state.td.iter_flows →
      1 ∈ (table_nf2_delete mask_state (sample_key 1 0) 0 1).2.td.iter_flows) :=
  ⟨by decide,
    table_nf2_delete_strict_scope mask_state (sample_key 1 0) 0 1 1 (by decide) (by decide)⟩

/-! ## Serial numbers -/

theorem insert_replace_loop_serial (flow : Nat) (l : List Nat) :
    ∀ (s s2 : nf2_state), insert_replace_loop flow l s = some s2 →
      s2.td.next_serial = s.td.next_serial ∧ ∀ f, (s2.mem f).serial = (s.mem f).serial := by
  induction l with
  | nil => intro s s2 h; simp [insert_replace_loop] at h
  | cons a rest ih =>
    intro s s2 h
    unfold insert_replace_loop at h
    by_cases hd : (s.mem a).deleted = true
    · rw [flow_del_marked s.mem a hd] at h
      split at h
      · exact ih _ _ h
      · exact ih _ _ h
    · have hlive : (s.mem a).deleted = false := by simpa using hd
      rw [flow_del_live s.mem a hlive] at h
      split at h
      · simp only [Option.some.injEq] at h
        subst h
        refine ⟨rfl, fun f => ?_⟩
        by_cases hf : f = a
        · subst hf; simp
        · simp [Function.update_noteq hf]
      · exact ih _ _ h

theorem table_nf2_insert_serial (nf : nf2_offload) (s : nf2_state) (flow : Nat) :
    (table_nf2_insert nf s flow).2.td.next_serial = s.td.next_serial ∧
    ∀ f, ((table_nf2_insert nf s flow).2.mem f).serial = (s.mem f).serial := by
  unfold table_nf2_insert
  by_cases hs : nf.nf2_are_actions_supported (s.mem flow) = 0
  · simp [hs]
  · by_cases hw : (nf.nf2_build_and_write_flow (s.mem flow)).1 = 0
    · simp only [ne_eq, hs, not_false_eq_true, if_true, hw, not_true_eq_false, if_false]
      split
      · rename_i s2 h
        obtain ⟨h1, h2⟩ := insert_replace_loop_serial _ _ _ _ h
        exact ⟨h1, fun f => by rw [h2 f]; exact set_private_serial _ _ _ _⟩
      · exact ⟨rfl, fun f => set_private_serial _ _ _ _⟩
    · simp only [ne_eq, hs, not_false_eq_true, if_true, hw, if_true]
      exact ⟨trivial, fun f => set_private_serial _ _ _ _⟩

/-- C4 (the code at the failing input): on a newly created table, the flows at
addresses 1 and 2 (different ingress ports, `serial` fields 0) are both
inserted as new entries, yet the second keeps the `serial` 0 of the first and
the serial generator of the table still stands at 0: no serial is assigned. -/
theorem table_nf2_insert_assigns_no_serial :
    (table_nf2_insert accept_all
      { mem := zero_serial_mem, td := table_nf2_create 32768 32 } 1).1 = 1 ∧
    (table_nf2_insert accept_all (table_nf2_insert accept_all
      { mem := zero_serial_mem, td := table_nf2_create 32768 32 } 1).2 2).1 = 1 ∧
    (insert_all accept_all [1, 2]
      { mem := zero_serial_mem, td := table_nf2_create 32768 32 }).td.flows = [2, 1] ∧
    (insert_all accept_all [1, 2]
      { mem := zero_serial_mem, td := table_nf2_create 32768 32 }).td.n_flows = 2 ∧
    ((insert_all accept_all [1, 2]
      { mem := zero_serial_mem, td := table_nf2_create 32768 32 }).mem 1).serial = 0 ∧
    ((insert_all accept_all [1, 2]
      { mem := zero_serial_mem, td := table_nf2_create 32768 32 }).mem 2).serial = 0 ∧
    (insert_all accept_all [1, 2]
      { mem := zero_serial_mem, td := table_nf2_create 32768 32 }).td.next_serial = 0 := by
  refine ⟨by decide, by decide, by decide, by decide, by decide, by decide, by decide⟩

/-! ## Iterate -/

theorem ulong_not_ulong_not (x : Nat) (h : x < 2 ^ 64) : ulong_not (ulong_not x) = x := by
  unfold ulong_not ULONG_MAX
  norm_num at h ⊢
  omega

theorem ulong_not_zero : ulong_not 0 = ULONG_MAX := by
  simp [ulong_not]

theorem iterate_loop_stop {σ : Type} (mem : flow_mem) (key : sw_flow_key) (start : Nat)
    (callback : Nat → σ → Int × σ) (position : sw_table_position) (l : List Nat) :
    ∀ priv : σ, (iterate_loop mem key start callback position l priv).error ≠ 0 →
      ∃ (init : List Nat) (E : Nat) (p : σ),
        (iterate_loop mem key start callback position l priv).visited = init ++ [E] ∧
        E ∈ l ∧ (mem E).serial ≤ start ∧ flow_matches key (mem E).key = true ∧
        (callback E p).1 = (iterate_loop mem key start callback position l priv).error ∧
        (iterate_loop mem key start callback position l priv).position =
          { private_0 := ulong_not (mem E).serial } := by
  induction l with
  | nil => intro priv h; simp [iterate_loop] at h
  | cons a rest ih =>
    intro priv h
    unfold iterate_loop at h ⊢
    by_cases hc : ((decide ((mem a).serial ≤ start)) && flow_matches key (mem a).key) = true
    · have hc' : (mem a).serial ≤ start ∧ flow_matches key (mem a).key = true := by
        simpa using hc
      simp only [hc, if_true] at h ⊢
      by_cases he : (callback a priv).1 = 0
      · simp only [he, ne_eq, not_true_eq_false, if_false] at h ⊢
        obtain ⟨init, E, p, hv, hE, hs, hm, hcb, hpos⟩ := ih (callback a priv).2 h
        exact ⟨a :: init, E, p, by simp [hv], by simp [hE], hs, hm, hcb, hpos⟩
      · simp only [ne_eq, he, not_false_eq_true, if_true]
        exact ⟨[], a, priv, by simp, by simp, hc'.1, hc'.2, rfl, rfl⟩
    · simp only [hc, Bool.false_eq_true, if_false] at h ⊢
      obtain ⟨init, E, p, hv, hE, hs, hm, hcb, hpos⟩ := ih priv h
      exact ⟨init, E, p, hv, by simp [hE], hs, hm, hcb, hpos⟩

theorem iterate_loop_all {σ : Type} (mem : flow_mem) (key : sw_flow_key) (start : Nat)
    (callback : Nat → σ → Int × σ) (position : sw_table_position)
    (hall : ∀ f p, (callback f p).1 = 0) (l : List Nat) :
    ∀ priv : σ,
      (iterate_loop mem key start callback position l priv).error = 0 ∧
      (iterate_loop mem key start callback position l priv).position = position ∧
      (iterate_loop mem key start callback position l priv).visited =
        l.filter (fun f => decide ((mem f).serial ≤ start) && flow_matches key (mem f).key) := by
  induction l with
  | nil => intro priv; simp [iterate_loop]
  | cons a rest ih =>
    intro priv
    unfold iterate_loop
    by_cases hc : ((decide ((mem a).serial ≤ start)) && flow_matches key (mem a).key) = true
    · simp only [hc, if_true, hall a priv, ne_eq, not_true_eq_false, if_false,
        List.filter_cons]
      obtain ⟨h1, h2, h3⟩ := ih (callback a priv).2
      exact ⟨h1, h2, by rw [h3]⟩
    · simp only [hc, Bool.false_eq_true, if_false, List.filter_cons]
      exact ih priv

/-- C8 (counterexample): on the table holding the single flow at address 1
(serial 1), a call with a fresh cursor stops on that entry and returns the
signal 1; the call resumed with the cursor it left visits the same entry
again. -/
theorem table_nf2_iterate_revisits_stopped_entry :
    (insert_all accept_all [1]
      { mem := port_mem, td := table_nf2_create 32768 32 }).td.iter_flows = [1] ∧
    (table_nf2_iterate (insert_all accept_all [1]
      { mem := port_mem, td := table_nf2_create 32768 32 }) any_key
      { private_0 := 0 } visit_stop ()).error = 1 ∧
    (table_nf2_iterate (insert_all accept_all [1]
      { mem := port_mem, td := table_nf2_create 32768 32 }) any_key
      { private_0 := 0 } visit_stop ()).visited = [1] ∧
    ¬ (1 ∉ (table_nf2_iterate (insert_all accept_all [1]
      { mem := port_mem, td := table_nf2_create 32768 32 }) any_key
      (table_nf2_iterate (insert_all accept_all [1]
        { mem := port_mem, td := table_nf2_create 32768 32 }) any_key
        { private_0 := 0 } visit_stop ()).position visit_stop ()).visited) := by
  refine ⟨by decide, by decide, by decide, by decide⟩

/-- Every nonzero return of `table_nf2_iterate` comes from a stop: the value
returned is what visit signalled on the last entry `E` visited, the cursor
holds the complement of the serial `S` of `E`, which decodes to the threshold
`S`, and a resumed call on the unchanged table whose visit never stops visits
exactly the entries matching the filter with serial `<= S`, `E` among them. -/
theorem table_nf2_iterate_nonzero_return {σ τ : Type} (s : nf2_state) (key : sw_flow_key)
    (position : sw_table_position) (callback : Nat → σ → Int × σ) (priv : σ)
    (callback' : Nat → τ → Int × τ) (priv' : τ)
    (hstop : (table_nf2_iterate s key position callback priv).error ≠ 0)
    (hser : ∀ f ∈ s.td.iter_flows, (s.mem f).serial < 2 ^ 64)
    (hall : ∀ f p, (callback' f p).1 = 0) :
    ∃ (init : List Nat) (E : Nat) (p : σ),
      (table_nf2_iterate s key position callback priv).visited = init ++ [E] ∧
      E ∈ s.td.iter_flows ∧
      (callback E p).1 = (table_nf2_iterate s key position callback priv).error ∧
      (table_nf2_iterate s key position callback priv).position.private_0 =
        ulong_not (s.mem E).serial ∧
      ulong_not (table_nf2_iterate s key position callback priv).position.private_0 =
        (s.mem E).serial ∧
      (table_nf2_iterate s key (table_nf2_iterate s key position callback priv).position
          callback' priv').visited =
        s.td.iter_flows.filter (fun f =>
          decide ((s.mem f).serial ≤ (s.mem E).serial) && flow_matches key (s.mem f).key) ∧
      E ∈ (table_nf2_iterate s key (table_nf2_iterate s key position callback priv).position
          callback' priv').visited := by
  obtain ⟨init, E, p, hv, hE, -, hm, hcb, hpos⟩ :=
    iterate_loop_stop s.mem key (ulong_not position.private_0) callback position
      s.td.iter_flows priv hstop
  have hdec : ulong_not (table_nf2_iterate s key position callback priv).position.private_0 =
      (s.mem E).serial := by
    unfold table_nf2_iterate
    rw [hpos]
    exact ulong_not_ulong_not _ (hser E hE)
  have hres : (table_nf2_iterate s key (table_nf2_iterate s key position callback priv).position
        callback' priv').visited =
      s.td.iter_flows.filter (fun f =>
        decide ((s.mem f).serial ≤ (s.mem E).serial) && flow_matches key (s.mem f).key) := by
    rw [← hdec]
    exact (iterate_loop_all s.mem key _ callback' _ hall s.td.iter_flows priv').2.2
  refine ⟨init, E, p, hv, hE, hcb, ?_, hdec, hres, ?_⟩
  · unfold table_nf2_iterate
    rw [hpos]
  · rw [hres, List.mem_filter]
    exact ⟨hE, by simp [hm]⟩

/-- On the table holding the flows at addresses 3, 2, 1 of `port_mem`, a call
that stops on serial 2 has visited 3, 2; the resumed call visits 2, 1. -/
theorem table_nf2_iterate_nonzero_return_witness :
    ((table_nf2_iterate port_state any_key { private_0 := 0 }
        (visit_until port_state.mem 2) ()).visited = [3, 2] ∧
      (table_nf2_iterate port_state any_key
        (table_nf2_iterate port_state any_key { private_0 := 0 }
          (visit_until port_state.mem 2) ()).position visit_all ()).visited = [2, 1]) ∧
    ∃ (init : List Nat) (E : Nat) (p : Unit),
      (table_nf2_iterate port_state any_key { private_0 := 0 }
        (visit_until port_state.mem 2) ()).visited = init ++ [E] ∧
      E ∈ port_state.td.iter_flows ∧
      (visit_until port_state.mem 2 E p).1 =
        (table_nf2_iterate port_state any_key { private_0 := 0 }
          (visit_until port_state.mem 2) ()).error ∧
      (table_nf2_iterate port_state any_key { private_0 := 0 }
        (visit_until port_state.mem 2) ()).position.private_0 =
        ulong_not (port_state.mem E).serial ∧
      ulong_not (table_nf2_iterate port_state any_key { private_0 := 0 }
        (visit_until port_state.mem 2) ()).position.private_0 = (port_state.mem E).serial ∧
      (table_nf2_iterate port_state any_key
          (table_nf2_iterate port_state any_key { private_0 := 0 }
            (visit_until port_state.mem 2) ()).position visit_all ()).visited =
        port_state.td.iter_flows.filter (fun f =>
          decide ((port_state.mem f).serial ≤ (port_state.mem E).serial)
            && flow_matches any_key (port_state.mem f).key) ∧
      E ∈ (table_nf2_iterate port_state any_key
          (table_nf2_iterate port_state any_key { private_0 := 0 }
            (visit_until port_state.mem 2) ()).position visit_all ()).visited :=
  ⟨by decide, table_nf2_iterate_nonzero_return port_state any_key { private_0 := 0 }
    (visit_until port_state.mem 2) () visit_all () (by decide) (by decide)
    (fun _ _ => rfl)⟩

/-! ## Sequences of non-replacing inserts -/

theorem insert_replace_loop_miss (flow : Nat) (l : List Nat) (s : nf2_state)
    (h : ∀ f ∈ l, exact_match (s.mem f).key (s.mem flow).key = false) :
    insert_replace_loop flow l s = none := by
  induction l with
  | nil => rfl
  | cons a rest ih =>
    have ha := h a (by simp)
    unfold exact_match at ha
    unfold insert_replace_loop
    rw [if_neg (by simp [ha])]
    exact ih (fun f hf => h f (by simp [hf]))

theorem table_nf2_insert_new (nf : nf2_offload) (s : nf2_state) (flow : Nat)
    (hsup : nf.nf2_are_actions_supported (s.mem flow) ≠ 0)
    (hwr : (nf.nf2_build_and_write_flow (s.mem flow)).1 = 0)
    (h : ∀ f ∈ s.td.flows, exact_match (s.mem f).key (s.mem flow).key = false) :
    (table_nf2_insert nf s flow).1 = 1 ∧
    (table_nf2_insert nf s flow).2.td.flows = flow :: s.td.flows ∧
    (table_nf2_insert nf s flow).2.td.iter_flows = flow :: s.td.iter_flows ∧
    (table_nf2_insert nf s flow).2.td.n_flows = s.td.n_flows + 1 ∧
    (table_nf2_insert nf s flow).2.mem =
      set_private s.mem flow (nf.nf2_build_and_write_flow (s.mem flow)).2 := by
  have hloop := insert_replace_loop_miss flow s.td.flows
    { s with mem := set_private s.mem flow (nf.nf2_build_and_write_flow (s.mem flow)).2 }
    (by
      intro f hf
      simp only [set_private_key]
      exact h f hf)
  unfold table_nf2_insert
  simp only [ne_eq, hsup, not_false_eq_true, if_true, hwr, not_true_eq_false, if_false]
  rw [hloop]
  simp [list_add_rcu]

theorem insert_all_new (nf : nf2_offload)
    (hacc : ∀ r, nf.nf2_are_actions_supported r ≠ 0 ∧ (nf.nf2_build_and_write_flow r).1 = 0)
    (K : Nat → sw_flow_key) (fl : List Nat) :
    ∀ s : nf2_state, (∀ f, (s.mem f).key = K f) →
      (∀ new ∈ fl, ∀ old ∈ s.td.flows, exact_match (K old) (K new) = false) →
      fl.Pairwise (fun old new => exact_match (K old) (K new) = false) →
      (insert_all nf fl s).td.flows = fl.reverse ++ s.td.flows ∧
      (insert_all nf fl s).td.iter_flows = fl.reverse ++ s.td.iter_flows ∧
      (insert_all nf fl s).td.n_flows = s.td.n_flows + fl.length ∧
      (∀ f, ((insert_all nf fl s).mem f).key = K f) ∧
      (∀ f, ((insert_all nf fl s).mem f).serial = (s.mem f).serial) := by
  induction fl with
  | nil => intro s hK _ _; simp [insert_all, hK]
  | cons a rest ih =>
    intro s hK hold hpw
    have hnew := table_nf2_insert_new nf s a (hacc _).1 (hacc _).2 (by
      intro f hf
      rw [hK, hK]
      exact hold a (by simp) f hf)
    obtain ⟨-, hfl, hil, hn, hmem⟩ := hnew
    have hK' : ∀ f, ((table_nf2_insert nf s a).2.mem f).key = K f := by
      intro f
      rw [hmem, set_private_key, hK]
    have hold' : ∀ new ∈ rest, ∀ old ∈ (table_nf2_insert nf s a).2.td.flows,
        exact_match (K old) (K new) = false := by
      intro new hnew old ho
      rw [hfl] at ho
      rcases List.mem_cons.mp ho with rfl | ho
      · exact (List.pairwise_cons.mp hpw).1 new hnew
      · exact hold new (by simp [hnew]) old ho
    obtain ⟨h1, h2, h3, h4, h5⟩ :=
      ih (table_nf2_insert nf s a).2 hK' hold' (List.pairwise_cons.mp hpw).2
    unfold insert_all
    refine ⟨?_, ?_, ?_, h4, ?_⟩
    · rw [h1, hfl]; simp
    · rw [h2, hil]; simp
    · rw [h3, hn, List.length_cons]; push_cast; ring
    · intro f
      rw [h5, hmem, set_private_serial]

theorem filter_le_range' (n k : Nat) (hk : k ≤ n) :
    (List.range' 1 n).filter (fun x => decide (x ≤ k)) = List.range' 1 k := by
  have hsplit : List.range' 1 n = List.range' 1 k ++ List.range' (1 + k) (n - k) := by
    rw [List.range'_append_1]
    congr 1
    omega
  rw [hsplit, List.filter_append]
  have h1 : (List.range' 1 k).filter (fun x => decide (x ≤ k)) = List.range' 1 k := by
    rw [List.filter_eq_self]
    intro a ha
    have := List.mem_range'_1.mp ha
    simp
    omega
  have h2 : (List.range' (1 + k) (n - k)).filter (fun x => decide (x ≤ k)) = [] := by
    rw [List.filter_eq_nil_iff]
    intro a ha
    have := List.mem_range'_1.mp ha
    simp
    omega
  rw [h1, h2, List.append_nil]

theorem insert_all_append (nf : nf2_offload) (l1 l2 : List Nat) :
    ∀ s : nf2_state, insert_all nf (l1 ++ l2) s = insert_all nf l2 (insert_all nf l1 s) := by
  induction l1 with
  | nil => intro s; rfl
  | cons a rest ih => intro s; exact ih (table_nf2_insert nf s a).2

theorem table_nf2_iterate_all {σ : Type} (s : nf2_state) (mem0 : flow_mem)
    (key : sw_flow_key) (position : sw_table_position) (callback : Nat → σ → Int × σ)
    (priv : σ) (hall : ∀ f p, (callback f p).1 = 0)
    (hkey : ∀ f, (s.mem f).key = (mem0 f).key)
    (hserial : ∀ f, (s.mem f).serial = (mem0 f).serial) :
    (table_nf2_iterate s key position callback priv).error = 0 ∧
    (table_nf2_iterate s key position callback priv).position = position ∧
    (table_nf2_iterate s key position callback priv).visited =
      s.td.iter_flows.filter (fun f =>
        decide ((mem0 f).serial ≤ ulong_not position.private_0)
          && flow_matches key (mem0 f).key) := by
  obtain ⟨h1, h2, h3⟩ := iterate_loop_all s.mem key (ulong_not position.private_0) callback
    position hall s.td.iter_flows priv
  refine ⟨h1, h2, ?_⟩
  unfold table_nf2_iterate
  rw [h3]
  apply List.filter_congr
  intro f _
  rw [hkey, hserial]

/-- C10 (counterexample): after the inserts of the flows at addresses 1, 2, 3
in that order, an iteration with a fresh cursor and a visit that never stops
visits 3, 2, 1: the newest flow first, not the oldest. -/
theorem table_nf2_iterate_not_insertion_order :
    port_state.td.iter_flows = [3, 2, 1] ∧
    (table_nf2_iterate port_state any_key { private_0 := 0 } visit_all ()).visited =
      [3, 2, 1] ∧
    (table_nf2_iterate port_state any_key { private_0 := 0 } visit_all ()).visited ≠
      [1, 2, 3] := by
  refine ⟨by decide, by decide, by decide⟩

/-- C10 (amended): `table_nf2_iterate` traverses entries in reverse insertion
order: for every table built from a newly created one by a sequence of
successful non-replacing inserts, iterating with a fresh (zero) cursor and a
visit that never stops returns 0 and invokes visit on the flows matching the
filter in the reverse of the order in which they were inserted (newest
first). -/
theorem table_nf2_iterate_newest_first {σ : Type} (nf : nf2_offload) (mem0 : flow_mem)
    (exact_size wildcard_size : Nat) (fl : List Nat) (key : sw_flow_key)
    (callback : Nat → σ → Int × σ) (priv : σ)
    (hacc : ∀ r, nf.nf2_are_actions_supported r ≠ 0 ∧ (nf.nf2_build_and_write_flow r).1 = 0)
    (hpw : fl.Pairwise (fun old new => exact_match (mem0 old).key (mem0 new).key = false))
    (hser : ∀ f ∈ fl, (mem0 f).serial < 2 ^ 64)
    (hall : ∀ f p, (callback f p).1 = 0) :
    (insert_all nf fl
      { mem := mem0, td := table_nf2_create exact_size wildcard_size }).td.n_flows =
        fl.length ∧
    (table_nf2_iterate (insert_all nf fl
      { mem := mem0, td := table_nf2_create exact_size wildcard_size }) key
      { private_0 := 0 } callback priv).error = 0 ∧
    (table_nf2_iterate (insert_all nf fl
      { mem := mem0, td := table_nf2_create exact_size wildcard_size }) key
      { private_0 := 0 } callback priv).visited =
        (fl.filter (fun f => flow_matches key (mem0 f).key)).reverse := by
  obtain ⟨-, hil, hn, hkey, hserial⟩ := insert_all_new nf hacc (fun f => (mem0 f).key) fl
    { mem := mem0, td := table_nf2_create exact_size wildcard_size } (fun _ => rfl)
    (by intro new _ old ho; simp [table_nf2_create] at ho) hpw
  obtain ⟨h1, -, h3⟩ := table_nf2_iterate_all (insert_all nf fl
    { mem := mem0, td := table_nf2_create exact_size wildcard_size }) mem0 key
    { private_0 := 0 } callback priv hall hkey hserial
  refine ⟨?_, h1, ?_⟩
  · rw [hn]; simp [table_nf2_create]
  · rw [h3, hil]
    simp only [table_nf2_create, List.append_nil, List.filter_reverse]
    congr 1
    apply List.filter_congr
    intro f hf
    have := hser f hf
    have hle : (mem0 f).serial ≤ ulong_not 0 := by
      rw [ulong_not_zero]
      unfold ULONG_MAX
      omega
    simp [hle]

/-- The flows at addresses 1, 2, 3 of `port_mem`, inserted in that order, are
visited in the order 3, 2, 1. -/
theorem table_nf2_iterate_newest_first_witness :
    (table_nf2_iterate (insert_all accept_all [1, 2, 3]
      { mem := port_mem, td := table_nf2_create 32768 32 }) any_key
      { private_0 := 0 } visit_all ()).visited = [3, 2, 1] ∧
    (insert_all accept_all [1, 2, 3]
      { mem := port_mem, td := table_nf2_create 32768 32 }).td.n_flows =
        ([1, 2, 3] : List Nat).length ∧
    (table_nf2_iterate (insert_all accept_all [1, 2, 3]
      { mem := port_mem, td := table_nf2_create 32768 32 }) any_key
      { private_0 := 0 } visit_all ()).error = 0 ∧
    (table_nf2_iterate (insert_all accept_all [1, 2, 3]
      { mem := port_mem, td := table_nf2_create 32768 32 }) any_key
      { private_0 := 0 } visit_all ()).visited =
        ([1, 2, 3].filter (fun f => flow_matches any_key (port_mem f).key)).reverse :=
  ⟨by decide,
    table_nf2_iterate_newest_first accept_all port_mem 32768 32 [1, 2, 3] any_key visit_all ()
      (fun _ => ⟨by simp [accept_all], rfl⟩) (by decide) (by decide) (fun _ _ => rfl)⟩

/-- C9 (counterexample): flows with serials 1 to 5 are inserted in that order;
an iteration with a fresh cursor that stops on serial 3 has visited serials
5, 4, 3; the call resumed with the cursor it left visits serials 3, 2, 1,
with or without the insert of a flow with serial 6 in between, and not 4, 5. -/
theorem table_nf2_iterate_resume_not_upward :
    five_state.td.iter_flows.map (fun f => (five_state.mem f).serial) = [5, 4, 3, 2, 1] ∧
    (table_nf2_iterate five_state any_key { private_0 := 0 }
      (visit_until five_state.mem 3) ()).error = 1 ∧
    (table_nf2_iterate five_state any_key { private_0 := 0 }
      (visit_until five_state.mem 3) ()).visited.map
        (fun f => (five_state.mem f).serial) = [5, 4, 3] ∧
    (table_nf2_iterate five_state any_key
      (table_nf2_iterate five_state any_key { private_0 := 0 }
        (visit_until five_state.mem 3) ()).position visit_all ()).visited.map
        (fun f => (five_state.mem f).serial) = [3, 2, 1] ∧
    (table_nf2_insert accept_all five_state 6).1 = 1 ∧
    ((table_nf2_insert accept_all five_state 6).2.mem 6).serial = 6 ∧
    flow_matches any_key ((table_nf2_insert accept_all five_state 6).2.mem 6).key = true ∧
    (table_nf2_iterate (table_nf2_insert accept_all five_state 6).2 any_key
      (table_nf2_iterate five_state any_key { private_0 := 0 }
        (visit_until five_state.mem 3) ()).position visit_all ()).visited.map
        (fun f => (five_state.mem f).serial) = [3, 2, 1] ∧
    (table_nf2_iterate (table_nf2_insert accept_all five_state 6).2 any_key
      (table_nf2_iterate five_state any_key { private_0 := 0 }
        (visit_until five_state.mem 3) ()).position visit_all ()).visited.map
        (fun f => (five_state.mem f).serial) ≠ [4, 5] := by
  refine ⟨by decide, by decide, by decide, by decide, by decide, by decide, by decide,
    by decide, by decide⟩

/-- C9 (amended): for a table holding flows with serials 1..n inserted in that
order, all matching the filter, an iteration with a fresh cursor that stops on
serial k and is then resumed with the returned cursor (visit never stopping)
visits exactly the flows with serials k, k-1, .., 1, in that order, and this
holds even if a new flow with serial n+1 is inserted between the two calls. -/
theorem table_nf2_iterate_resume_serials {σ τ : Type} (nf : nf2_offload) (mem0 : flow_mem)
    (exact_size wildcard_size : Nat) (fl : List Nat) (n k g : Nat) (key : sw_flow_key)
    (callback : Nat → σ → Int × σ) (priv : σ) (callback' : Nat → τ → Int × τ) (priv' : τ)
    (hacc : ∀ r, nf.nf2_are_actions_supported r ≠ 0 ∧ (nf.nf2_build_and_write_flow r).1 = 0)
    (hserials : fl.map (fun f => (mem0 f).serial) = List.range' 1 n)
    (hg : (mem0 g).serial = n + 1) (hn : n + 1 < 2 ^ 64)
    (hmatch : ∀ f ∈ fl, flow_matches key (mem0 f).key = true)
    (hpw : (fl ++ [g]).Pairwise
      (fun old new => exact_match (mem0 old).key (mem0 new).key = false))
    (hstop : (table_nf2_iterate (insert_all nf fl
      { mem := mem0, td := table_nf2_create exact_size wildcard_size }) key
      { private_0 := 0 } callback priv).error ≠ 0)
    (hk : (table_nf2_iterate (insert_all nf fl
      { mem := mem0, td := table_nf2_create exact_size wildcard_size }) key
      { private_0 := 0 } callback priv).visited.getLast?.map
        (fun f => (mem0 f).serial) = some k)
    (hall : ∀ f p, (callback' f p).1 = 0) :
    (table_nf2_iterate (insert_all nf fl
        { mem := mem0, td := table_nf2_create exact_size wildcard_size }) key
      (table_nf2_iterate (insert_all nf fl
        { mem := mem0, td := table_nf2_create exact_size wildcard_size }) key
        { private_0 := 0 } callback priv).position callback' priv').visited.map
        (fun f => (mem0 f).serial) = (List.range' 1 k).reverse ∧
    (table_nf2_iterate (table_nf2_insert nf (insert_all nf fl
        { mem := mem0, td := table_nf2_create exact_size wildcard_size }) g).2 key
      (table_nf2_iterate (insert_all nf fl
        { mem := mem0, td := table_nf2_create exact_size wildcard_size }) key
        { private_0 := 0 } callback priv).position callback' priv').visited.map
        (fun f => (mem0 f).serial) = (List.range' 1 k).reverse := by
  have hpw1 : fl.Pairwise (fun old new => exact_match (mem0 old).key (mem0 new).key = false) :=
    (List.pairwise_append.mp hpw).1
  obtain ⟨-, hil, -, hkey, hserial⟩ := insert_all_new nf hacc (fun f => (mem0 f).key) fl
    { mem := mem0, td := table_nf2_create exact_size wildcard_size } (fun _ => rfl)
    (by intro new _ old ho; simp [table_nf2_create] at ho) hpw1
  obtain ⟨-, hil2, -, hkey2, hserial2⟩ := insert_all_new nf hacc (fun f => (mem0 f).key)
    (fl ++ [g]) { mem := mem0, td := table_nf2_create exact_size wildcard_size }
    (fun _ => rfl) (by intro new _ old ho; simp [table_nf2_create] at ho) hpw
  rw [insert_all_append] at hil2 hkey2 hserial2
  simp only [insert_all] at hil2 hkey2 hserial2
  have hI : (insert_all nf fl
      { mem := mem0, td := table_nf2_create exact_size wildcard_size }).td.iter_flows =
      fl.reverse := by
    rw [hil]; simp [table_nf2_create]
  have hI2 : (table_nf2_insert nf (insert_all nf fl
      { mem := mem0, td := table_nf2_create exact_size wildcard_size }) g).2.td.iter_flows =
      g :: fl.reverse := by
    rw [hil2]; simp [table_nf2_create]
  -- the entry on which the first call stopped
  obtain ⟨init, E, p, hv, hE, -, -, -, hpos⟩ :=
    iterate_loop_stop _ key _ callback _ _ priv hstop
  have hvis : (table_nf2_iterate (insert_all nf fl
      { mem := mem0, td := table_nf2_create exact_size wildcard_size }) key
      { private_0 := 0 } callback priv).visited = init ++ [E] := hv
  have hposition : (table_nf2_iterate (insert_all nf fl
      { mem := mem0, td := table_nf2_create exact_size wildcard_size }) key
      { private_0 := 0 } callback priv).position = { private_0 := ulong_not (mem0 E).serial } := by
    rw [← hserial E]
    exact hpos
  rw [hvis] at hk
  have hEk : (mem0 E).serial = k := by simpa using hk
  have hEfl : E ∈ fl := by
    have : E ∈ fl.reverse := by
      rw [← hI]
      exact hE
    exact List.mem_reverse.mp this
  have hkmem : k ∈ List.range' 1 n := by
    rw [← hserials, ← hEk]
    exact List.mem_map_of_mem _ hEfl
  have hkn : 1 ≤ k ∧ k < 1 + n := List.mem_range'_1.mp hkmem
  have hthr : ulong_not (ulong_not k) = k := ulong_not_ulong_not k (by omega)
  have hfilter : (fl.filter (fun f => decide ((mem0 f).serial ≤ k)
      && flow_matches key (mem0 f).key)).map (fun f => (mem0 f).serial) = List.range' 1 k := by
    have e1 : fl.filter (fun f => decide ((mem0 f).serial ≤ k)
        && flow_matches key (mem0 f).key) =
        fl.filter ((fun x => decide (x ≤ k)) ∘ (fun f => (mem0 f).serial)) := by
      apply List.filter_congr
      intro f hf
      simp [hmatch f hf]
    rw [e1, ← List.filter_map, hserials]
    exact filter_le_range' n k (by omega)
  rw [hposition, hEk]
  obtain ⟨-, -, h3⟩ := table_nf2_iterate_all (insert_all nf fl
    { mem := mem0, td := table_nf2_create exact_size wildcard_size }) mem0 key
    { private_0 := ulong_not k } callback' priv' hall hkey hserial
  obtain ⟨-, -, h4⟩ := table_nf2_iterate_all (table_nf2_insert nf (insert_all nf fl
    { mem := mem0, td := table_nf2_create exact_size wildcard_size }) g).2 mem0 key
    { private_0 := ulong_not k } callback' priv' hall hkey2 hserial2
  constructor
  · rw [h3, hI, hthr, List.filter_reverse, List.map_reverse, hfilter]
  · rw [h4, hI2, hthr, List.filter_cons]
    have hgk : ¬ ((mem0 g).serial ≤ k) := by omega
    simp only [hgk, decide_False, Bool.false_and, Bool.false_eq_true, if_false]
    rw [List.filter_reverse, List.map_reverse, hfilter]

/-- Serials 1 to 5, stop on serial 3: the resumed call visits serials 3, 2, 1,
also after the insert of the flow with serial 6. -/
theorem table_nf2_iterate_resume_serials_witness :
    (List.range' 1 3).reverse = [3, 2, 1] ∧
    (table_nf2_iterate (insert_all accept_all [1, 2, 3, 4, 5]
        { mem := port_mem, td := table_nf2_create 32768 32 }) any_key
      (table_nf2_iterate (insert_all accept_all [1, 2, 3, 4, 5]
        { mem := port_mem, td := table_nf2_create 32768 32 }) any_key
        { private_0 := 0 } (visit_until port_mem 3) ()).position visit_all ()).visited.map
        (fun f => (port_mem f).serial) = (List.range' 1 3).reverse ∧
    (table_nf2_iterate (table_nf2_insert accept_all (insert_all accept_all [1, 2, 3, 4, 5]
        { mem := port_mem, td := table_nf2_create 32768 32 }) 6).2 any_key
      (table_nf2_iterate (insert_all accept_all [1, 2, 3, 4, 5]
        { mem := port_mem, td := table_nf2_create 32768 32 }) any_key
        { private_0 := 0 } (visit_until port_mem 3) ()).position visit_all ()).visited.map
        (fun f => (port_mem f).serial) = (List.range' 1 3).reverse :=
  ⟨by decide,
    table_nf2_iterate_resume_serials accept_all port_mem 32768 32 [1, 2, 3, 4, 5] 5 3 6 any_key
      (visit_until port_mem 3) () visit_all ()
      (fun _ => ⟨by simp [accept_all], rfl⟩) (by decide) (by decide) (by norm_num)
      (by decide) (by decide) (by decide) (by decide) (fun _ _ => rfl)⟩

/-! ## Iterate: the entries visited -/

theorem iterate_loop_prefix {σ : Type} (mem : flow_mem) (key : sw_flow_key) (start : Nat)
    (callback : Nat → σ → Int × σ) (position : sw_table_position) (l : List Nat) :
    ∀ priv : σ,
      (∃ rest, l.filter (fun f => decide ((mem f).serial ≤ start)
          && flow_matches key (mem f).key) =
        (iterate_loop mem key start callback position l priv).visited ++ rest) ∧
      ((iterate_loop mem key start callback position l priv).error = 0 →
        (iterate_loop mem key start callback position l priv).visited =
          l.filter (fun f => decide ((mem f).serial ≤ start)
            && flow_matches key (mem f).key) ∧
        (iterate_loop mem key start callback position l priv).position = position) := by
  induction l with
  | nil => intro priv; simp [iterate_loop]
  | cons a rest ih =>
    intro priv
    unfold iterate_loop
    by_cases hc : ((decide ((mem a).serial ≤ start)) && flow_matches key (mem a).key) = true
    · simp only [hc, if_true, List.filter_cons]
      by_cases he : (callback a priv).1 = 0
      · simp only [he, ne_eq, not_true_eq_false, if_false]
        obtain ⟨⟨r, hr⟩, h2⟩ := ih (callback a priv).2
        refine ⟨⟨r, by rw [hr]; rfl⟩, fun h0 => ?_⟩
        obtain ⟨h3, h4⟩ := h2 h0
        exact ⟨by rw [h3], h4⟩
      · simp only [ne_eq, he, not_false_eq_true, if_true]
        exact ⟨⟨_, rfl⟩, fun h0 => False.elim h0⟩
    · simp only [hc, Bool.false_eq_true, if_false, List.filter_cons]
      exact ih priv

/-- C11: `table_nf2_iterate` invokes visit on the iteration-list entries, in
list order, whose serial is at most the threshold decoded from the cursor as
the complement of its stored word and whose key matches the filter
(`flow_matches (filter, entry.key)`): the entries visited are always an
initial part of that list, and all of it when the call returns 0.  A fresh
cursor (stored word 0) decodes to the largest `unsigned long`, so no serial is
excluded.  If visit never signals stop, the call returns 0, leaves the cursor
unchanged and has visited every such entry. -/
theorem table_nf2_iterate_visits {σ : Type} (s : nf2_state) (key : sw_flow_key)
    (position : sw_table_position) (callback : Nat → σ → Int × σ) (priv : σ) :
    (∃ rest, s.td.iter_flows.filter (fun f =>
        decide ((s.mem f).serial ≤ ulong_not position.private_0)
          && flow_matches key (s.mem f).key) =
      (table_nf2_iterate s key position callback priv).visited ++ rest) ∧
    ((table_nf2_iterate s key position callback priv).error = 0 →
      (table_nf2_iterate s key position callback priv).visited =
        s.td.iter_flows.filter (fun f =>
          decide ((s.mem f).serial ≤ ulong_not position.private_0)
            && flow_matches key (s.mem f).key) ∧
      (table_nf2_iterate s key position callback priv).position = position) ∧
    ((∀ f p, (callback f p).1 = 0) →
      (table_nf2_iterate s key position callback priv).error = 0 ∧
      (table_nf2_iterate s key position callback priv).position = position ∧
      (table_nf2_iterate s key position callback priv).visited =
        s.td.iter_flows.filter (fun f =>
          decide ((s.mem f).serial ≤ ulong_not position.private_0)
            && flow_matches key (s.mem f).key)) ∧
    ulong_not 0 = 2 ^ 64 - 1 ∧
    (position.private_0 = 0 → (∀ f ∈ s.td.iter_flows, (s.mem f).serial < 2 ^ 64) →
      s.td.iter_flows.filter (fun f =>
        decide ((s.mem f).serial ≤ ulong_not position.private_0)
          && flow_matches key (s.mem f).key) =
      s.td.iter_flows.filter (fun f => flow_matches key (s.mem f).key)) := by
  obtain ⟨h1, h2⟩ := iterate_loop_prefix s.mem key (ulong_not position.private_0) callback
    position s.td.iter_flows priv
  refine ⟨h1, h2, ?_, ?_, ?_⟩
  · intro hall
    exact iterate_loop_all s.mem key (ulong_not position.private_0) callback position hall
      s.td.iter_flows priv
  · rw [ulong_not_zero]; rfl
  · intro h0 hser
    apply List.filter_congr
    intro f hf
    have := hser f hf
    have hle : (s.mem f).serial ≤ ulong_not position.private_0 := by
      rw [h0, ulong_not_zero]
      unfold ULONG_MAX
      omega
    simp [hle]

/-! ## Iterate: a stop signal ends the call -/

theorem iterate_loop_append {σ : Type} (mem : flow_mem) (key : sw_flow_key) (start : Nat)
    (callback : Nat → σ → Int × σ) (position : sw_table_position) (pre rest : List Nat) :
    ∀ priv : σ, (iterate_loop mem key start callback position pre priv).error = 0 →
      (iterate_loop mem key start callback position (pre ++ rest) priv).error =
        (iterate_loop mem key start callback position rest
          (iterate_loop mem key start callback position pre priv).priv).error ∧
      (iterate_loop mem key start callback position (pre ++ rest) priv).position =
        (iterate_loop mem key start callback position rest
          (iterate_loop mem key start callback position pre priv).priv).position ∧
      (iterate_loop mem key start callback position (pre ++ rest) priv).priv =
        (iterate_loop mem key start callback position rest
          (iterate_loop mem key start callback position pre priv).priv).priv ∧
      (iterate_loop mem key start callback position (pre ++ rest) priv).visited =
        (iterate_loop mem key start callback position pre priv).visited ++
        (iterate_loop mem key start callback position rest
          (iterate_loop mem key start callback position pre priv).priv).visited := by
  induction pre with
  | nil => intro priv _; simp [iterate_loop]
  | cons a pre ih =>
    intro priv h0
    rw [List.cons_append]
    by_cases hc : ((decide ((mem a).serial ≤ start)) && flow_matches key (mem a).key) = true
    · by_cases he : (callback a priv).1 = 0
      · have e1 : ∀ l, (iterate_loop mem key start callback position (a :: l) priv).error =
            (iterate_loop mem key start callback position l (callback a priv).2).error := by
          intro l; rw [iterate_loop]; simp [hc, he]
        have e2 : ∀ l, (iterate_loop mem key start callback position (a :: l) priv).position =
            (iterate_loop mem key start callback position l (callback a priv).2).position := by
          intro l; rw [iterate_loop]; simp [hc, he]
        have e3 : ∀ l, (iterate_loop mem key start callback position (a :: l) priv).priv =
            (iterate_loop mem key start callback position l (callback a priv).2).priv := by
          intro l; rw [iterate_loop]; simp [hc, he]
        have e4 : ∀ l, (iterate_loop mem key start callback position (a :: l) priv).visited =
            a :: (iterate_loop mem key start callback position l (callback a priv).2).visited := by
          intro l; rw [iterate_loop]; simp [hc, he]
        rw [e1] at h0
        obtain ⟨h1, h2, h3, h4⟩ := ih (callback a priv).2 h0
        rw [e1, e2, e3, e4, e3, e4, h1, h2, h3, h4]
        exact ⟨rfl, rfl, rfl, rfl⟩
      · have e1 : (iterate_loop mem key start callback position (a :: pre) priv).error =
            (callback a priv).1 := by
          rw [iterate_loop]; simp [hc, he]
        rw [e1] at h0
        exact absurd h0 he
    · have e : ∀ l, iterate_loop mem key start callback position (a :: l) priv =
          iterate_loop mem key start callback position l priv := by
        intro l; rw [iterate_loop]; simp [hc]
      rw [e] at h0
      rw [e, e]
      exact ih priv h0

theorem iterate_loop_stop_here {σ : Type} (mem : flow_mem) (key : sw_flow_key) (start : Nat)
    (callback : Nat → σ → Int × σ) (position : sw_table_position) (E : Nat)
    (post : List Nat) (priv : σ)
    (hE : (mem E).serial ≤ start ∧ flow_matches key (mem E).key = true)
    (hsig : (callback E priv).1 ≠ 0) :
    (iterate_loop mem key start callback position (E :: post) priv).error =
      (callback E priv).1 ∧
    (iterate_loop mem key start callback position (E :: post) priv).position =
      { private_0 := ulong_not (mem E).serial } ∧
    (iterate_loop mem key start callback position (E :: post) priv).priv =
      (callback E priv).2 ∧
    (iterate_loop mem key start callback position (E :: post) priv).visited = [E] := by
  have hc : ((decide ((mem E).serial ≤ start)) && flow_matches key (mem E).key) = true := by
    simp [hE.1, hE.2]
  refine ⟨?_, ?_, ?_, ?_⟩ <;> (rw [iterate_loop]; simp [hc, hsig])

/-- C8 (amended): when visit signals stop on an entry `E` with serial `S` (the
iteration-list is `pre ++ E :: post`, visit has signalled no stop on the
entries of `pre`, and `E` passes the serial and filter tests),
`table_nf2_iterate` returns that signal there: it has visited the entries of
`pre` that pass the tests and then `E`, no entry of `post`, whatever visit
would signal on them, and it stores the complement of `S` in the cursor.  The
cursor decodes to the threshold `S`, so a subsequent call resumes at that
entry, not strictly after it: a resumed call on the unchanged table whose
visit never stops visits exactly the entries matching the filter with serial
`<= S`, and `E`, the entry on which the previous call stopped, is visited
again. -/
theorem table_nf2_iterate_stop_cursor {σ τ : Type} (s : nf2_state) (key : sw_flow_key)
    (position : sw_table_position) (callback : Nat → σ → Int × σ) (priv : σ)
    (callback' : Nat → τ → Int × τ) (priv' : τ) (pre post : List Nat) (E : Nat)
    (hflows : s.td.iter_flows = pre ++ E :: post)
    (hpre : (iterate_loop s.mem key (ulong_not position.private_0) callback position
      pre priv).error = 0)
    (hE : (s.mem E).serial ≤ ulong_not position.private_0 ∧
      flow_matches key (s.mem E).key = true)
    (hsig : (callback E (iterate_loop s.mem key (ulong_not position.private_0) callback
      position pre priv).priv).1 ≠ 0)
    (hser : (s.mem E).serial < 2 ^ 64)
    (hall : ∀ f p, (callback' f p).1 = 0) :
    (table_nf2_iterate s key position callback priv).error =
      (callback E (iterate_loop s.mem key (ulong_not position.private_0) callback
        position pre priv).priv).1 ∧
    (table_nf2_iterate s key position callback priv).priv =
      (callback E (iterate_loop s.mem key (ulong_not position.private_0) callback
        position pre priv).priv).2 ∧
    (table_nf2_iterate s key position callback priv).visited =
      pre.filter (fun f => decide ((s.mem f).serial ≤ ulong_not position.private_0)
        && flow_matches key (s.mem f).key) ++ [E] ∧
    (table_nf2_iterate s key position callback priv).position.private_0 =
      ulong_not (s.mem E).serial ∧
    ulong_not (table_nf2_iterate s key position callback priv).position.private_0 =
      (s.mem E).serial ∧
    (table_nf2_iterate s key (table_nf2_iterate s key position callback priv).position
        callback' priv').visited =
      s.td.iter_flows.filter (fun f =>
        decide ((s.mem f).serial ≤ (s.mem E).serial) && flow_matches key (s.mem f).key) ∧
    E ∈ (table_nf2_iterate s key (table_nf2_iterate s key position callback priv).position
        callback' priv').visited := by
  obtain ⟨a1, a2, a3, a4⟩ := iterate_loop_append s.mem key (ulong_not position.private_0)
    callback position pre (E :: post) priv hpre
  obtain ⟨b1, b2, b3, b4⟩ := iterate_loop_stop_here s.mem key (ulong_not position.private_0)
    callback position E post _ hE hsig
  have hp := iterate_loop_prefix s.mem key (ulong_not position.private_0) callback
    position pre priv
  obtain ⟨c1, -⟩ := hp.2 hpre
  have herr : (table_nf2_iterate s key position callback priv).error =
      (callback E (iterate_loop s.mem key (ulong_not position.private_0) callback
        position pre priv).priv).1 := by
    unfold table_nf2_iterate
    rw [hflows, a1, b1]
  have hpriv : (table_nf2_iterate s key position callback priv).priv =
      (callback E (iterate_loop s.mem key (ulong_not position.private_0) callback
        position pre priv).priv).2 := by
    unfold table_nf2_iterate
    rw [hflows, a3, b3]
  have hvis : (table_nf2_iterate s key position callback priv).visited =
      pre.filter (fun f => decide ((s.mem f).serial ≤ ulong_not position.private_0)
        && flow_matches key (s.mem f).key) ++ [E] := by
    unfold table_nf2_iterate
    rw [hflows, a4, b4, c1]
  have hpos : (table_nf2_iterate s key position callback priv).position =
      { private_0 := ulong_not (s.mem E).serial } := by
    unfold table_nf2_iterate
    rw [hflows, a2, b2]
  have hdec : ulong_not (table_nf2_iterate s key position callback priv).position.private_0 =
      (s.mem E).serial := by
    rw [hpos]
    exact ulong_not_ulong_not _ hser
  have hres : (table_nf2_iterate s key (table_nf2_iterate s key position callback priv).position
        callback' priv').visited =
      s.td.iter_flows.filter (fun f =>
        decide ((s.mem f).serial ≤ (s.mem E).serial) && flow_matches key (s.mem f).key) := by
    rw [← hdec]
    exact (iterate_loop_all s.mem key _ callback' _ hall s.td.iter_flows priv').2.2
  refine ⟨herr, hpriv, hvis, by rw [hpos], hdec, hres, ?_⟩
  rw [hres, List.mem_filter]
  exact ⟨by rw [hflows]; simp, by simp [hE.2]⟩

/-- On the table with the iteration-list 3, 2, 1 a visit that signals stop on
every entry is obeyed on the first one: the call returns 1 having visited 3
only and stores the complement of 3, although visit would signal stop on 2 and
1 as well; the resumed call visits 3, 2, 1.  With a visit that signals stop on
serial 2 the call visits 3, 2, stores the complement of 2, and the resumed
call visits 2, 1. -/
theorem table_nf2_iterate_stop_cursor_witness :
    (port_state.td.iter_flows = [3, 2, 1] ∧
      (table_nf2_iterate port_state any_key { private_0 := 0 } visit_stop ()).error = 1 ∧
      (table_nf2_iterate port_state any_key { private_0 := 0 } visit_stop ()).visited = [3] ∧
      (table_nf2_iterate port_state any_key { private_0 := 0 }
        visit_stop ()).position.private_0 = 2 ^ 64 - 1 - 3 ∧
      (table_nf2_iterate port_state any_key
        (table_nf2_iterate port_state any_key { private_0 := 0 } visit_stop ()).position
        visit_all ()).visited = [3, 2, 1] ∧
      (table_nf2_iterate port_state any_key { private_0 := 0 }
        (visit_until port_state.mem 2) ()).visited = [3, 2] ∧
      (table_nf2_iterate port_state any_key { private_0 := 0 }
        (visit_until port_state.mem 2) ()).position.private_0 = 2 ^ 64 - 1 - 2 ∧
      (table_nf2_iterate port_state any_key
        (table_nf2_iterate port_state any_key { private_0 := 0 }
          (visit_until port_state.mem 2) ()).position visit_all ()).visited = [2, 1]) ∧
    (table_nf2_iterate port_state any_key { private_0 := 0 } visit_stop ()).error =
      (visit_stop 3 (iterate_loop port_state.mem any_key (ulong_not 0) visit_stop
        { private_0 := 0 } [] ()).priv).1 ∧
    (table_nf2_iterate port_state any_key { private_0 := 0 } visit_stop ()).priv =
      (visit_stop 3 (iterate_loop port_state.mem any_key (ulong_not 0) visit_stop
        { private_0 := 0 } [] ()).priv).2 ∧
    (table_nf2_iterate port_state any_key { private_0 := 0 } visit_stop ()).visited =
      ([] : List Nat).filter (fun f => decide ((port_state.mem f).serial ≤ ulong_not 0)
        && flow_matches any_key (port_state.mem f).key) ++ [3] ∧
    (table_nf2_iterate port_state any_key { private_0 := 0 }
      visit_stop ()).position.private_0 = ulong_not (port_state.mem 3).serial ∧
    ulong_not (table_nf2_iterate port_state any_key { private_0 := 0 }
      visit_stop ()).position.private_0 = (port_state.mem 3).serial ∧
    (table_nf2_iterate port_state any_key
        (table_nf2_iterate port_state any_key { private_0 := 0 } visit_stop ()).position
        visit_all ()).visited =
      port_state.td.iter_flows.filter (fun f =>
        decide ((port_state.mem f).serial ≤ (port_state.mem 3).serial)
          && flow_matches any_key (port_state.mem f).key) ∧
    3 ∈ (table_nf2_iterate port_state any_key
        (table_nf2_iterate port_state any_key { private_0 := 0 } visit_stop ()).position
        visit_all ()).visited :=
  ⟨by decide, table_nf2_iterate_stop_cursor port_state any_key { private_0 := 0 }
    visit_stop () visit_all () [] [2, 1] 3 (by decide) (by decide) (by decide) (by decide)
    (by decide) (fun _ _ => rfl)⟩

/-! ## Insert: the two outcomes of an accepted insert -/

theorem list_split_first (P : Nat → Bool) (l : List Nat) :
    (∀ x ∈ l, P x = false) ∨
    ∃ pre E post, l = pre ++ E :: post ∧ P E = true ∧ ∀ x ∈ pre, P x = false := by
  induction l with
  | nil => left; simp
  | cons a rest ih =>
    by_cases ha : P a = true
    · right
      exact ⟨[], a, rest, rfl, ha, by simp⟩
    · have ha' : P a = false := by simpa using ha
      rcases ih with h | ⟨pre, E, post, hl, hE, hpre⟩
      · left
        intro x hx
        rcases List.mem_cons.mp hx with rfl | hx
        · exact ha'
        · exact h x hx
      · right
        refine ⟨a :: pre, E, post, by simp [hl], hE, ?_⟩
        intro x hx
        rcases List.mem_cons.mp hx with rfl | hx
        · exact ha'
        · exact hpre x hx

theorem replaceable_iff (mem : flow_mem) (flow f : Nat) :
    replaceable mem flow f = true ↔
      ((mem f).key.wildcards = (mem flow).key.wildcards ∧
        flow_matches (mem f).key (mem flow).key = true ∧ (mem f).deleted = false) := by
  simp [replaceable, exact_match, and_assoc]

theorem replaceable_set_private (mem : flow_mem) (flow : Nat) (x : Option Nat) (f : Nat) :
    replaceable (set_private mem flow x) flow f = replaceable mem flow f := by
  simp [replaceable, set_private_key, set_private_deleted]

theorem insert_replace_loop_none (flow : Nat) (l : List Nat) (s : nf2_state)
    (h : ∀ f ∈ l, replaceable s.mem flow f = false) :
    insert_replace_loop flow l s = none := by
  induction l with
  | nil => rfl
  | cons a rest ih =>
    have ha := h a (by simp)
    have ih1 := ih (fun f hf => h f (by simp [hf]))
    unfold insert_replace_loop
    by_cases hc : ((s.mem a).key.wildcards = (s.mem flow).key.wildcards
        && flow_matches (s.mem a).key (s.mem flow).key) = true
    · have hd : (s.mem a).deleted = true := by
        have hx : exact_match (s.mem a).key (s.mem flow).key = true := hc
        simpa [replaceable, hx] using ha
      rw [if_pos hc, flow_del_marked s.mem a hd]
      exact ih1
    · rw [if_neg hc]
      exact ih1

theorem table_nf2_insert_cases (nf : nf2_offload) (s : nf2_state) (F : Nat)
    (hsup : nf.nf2_are_actions_supported (s.mem F) ≠ 0)
    (hwr : (nf.nf2_build_and_write_flow (s.mem F)).1 = 0) :
    (table_nf2_insert nf s F).1 = 1 ∧
    (table_nf2_insert nf s F).2.td.max_flows = s.td.max_flows ∧
    (((∀ f ∈ s.td.flows, replaceable s.mem F f = false) ∧
        (table_nf2_insert nf s F).2.td.flows = F :: s.td.flows ∧
        (table_nf2_insert nf s F).2.td.iter_flows = F :: s.td.iter_flows ∧
        (table_nf2_insert nf s F).2.td.n_flows = s.td.n_flows + 1 ∧
        (table_nf2_insert nf s F).2.mem =
          set_private s.mem F (nf.nf2_build_and_write_flow (s.mem F)).2) ∨
      (∃ pre E post, s.td.flows = pre ++ E :: post ∧ replaceable s.mem F E = true ∧
        (∀ f ∈ pre, replaceable s.mem F f = false) ∧
        (table_nf2_insert nf s F).2.td.flows = list_replace_rcu E F s.td.flows ∧
        (table_nf2_insert nf s F).2.td.iter_flows = list_replace_rcu E F s.td.iter_flows ∧
        (table_nf2_insert nf s F).2.td.n_flows = s.td.n_flows ∧
        (table_nf2_insert nf s F).2.mem =
          set_deleted (set_private s.mem F (nf.nf2_build_and_write_flow (s.mem F)).2) E)) := by
  rcases list_split_first (replaceable s.mem F) s.td.flows with hnone | ⟨pre, E, post, hl, hE, hpre⟩
  · have hloop := insert_replace_loop_none F s.td.flows
      { s with mem := set_private s.mem F (nf.nf2_build_and_write_flow (s.mem F)).2 }
      (by
        intro f hf
        simp only [replaceable_set_private]
        exact hnone f hf)
    unfold table_nf2_insert
    simp only [ne_eq, hsup, not_false_eq_true, if_true, hwr, not_true_eq_false, if_false]
    rw [hloop]
    exact ⟨rfl, rfl, Or.inl ⟨hnone, rfl, rfl, rfl, rfl⟩⟩
  · have hloop := insert_replace_loop_hit F E pre post
      { s with mem := set_private s.mem F (nf.nf2_build_and_write_flow (s.mem F)).2 }
      (by
        intro f hf
        have := hpre f hf
        rw [← replaceable_set_private s.mem F (nf.nf2_build_and_write_flow (s.mem F)).2] at this
        rw [← replaceable_iff]
        simp [this])
      (by
        rw [← replaceable_set_private s.mem F (nf.nf2_build_and_write_flow (s.mem F)).2] at hE
        exact (replaceable_iff _ _ _).mp hE)
    unfold table_nf2_insert
    simp only [ne_eq, hsup, not_false_eq_true, if_true, hwr, not_true_eq_false, if_false]
    simp only [hl] at hloop ⊢
    rw [hloop]
    exact ⟨rfl, rfl, Or.inr ⟨pre, E, post, rfl, hE, hpre, rfl, rfl, rfl, rfl⟩⟩

/-! ## Insert: no capacity check -/

/-- C18: whatever the live-flow count, also when it has reached `max_flows`,
the insert of an accepted flow that exactly matches no linked entry returns 1,
adds exactly one to the live-flow counter and links the flow at the head of
the match-list and of the iteration-list, in front of the previous entries in
their previous order; `max_flows` is not consulted, so the count reported by
`table_nf2_stats` exceeds `max_flows` afterwards whenever it had reached it. -/
theorem table_nf2_insert_no_capacity_check (nf : nf2_offload) (s : nf2_state) (flow : Nat)
    (hsup : nf.nf2_are_actions_supported (s.mem flow) ≠ 0)
    (hwr : (nf.nf2_build_and_write_flow (s.mem flow)).1 = 0)
    (hnone : ∀ f ∈ s.td.flows, exact_match (s.mem f).key (s.mem flow).key = false) :
    (table_nf2_insert nf s flow).1 = 1 ∧
    (table_nf2_insert nf s flow).2.td.n_flows = s.td.n_flows + 1 ∧
    (table_nf2_insert nf s flow).2.td.flows = flow :: s.td.flows ∧
    (table_nf2_insert nf s flow).2.td.iter_flows = flow :: s.td.iter_flows ∧
    (table_nf2_stats (table_nf2_insert nf s flow).2.td).n_flows =
      (table_nf2_stats s.td).n_flows + 1 ∧
    (table_nf2_stats (table_nf2_insert nf s flow).2.td).max_flows =
      (table_nf2_stats s.td).max_flows ∧
    ((s.td.max_flows : Int) ≤ s.td.n_flows →
      ((table_nf2_stats (table_nf2_insert nf s flow).2.td).max_flows : Int) <
        (table_nf2_stats (table_nf2_insert nf s flow).2.td).n_flows) := by
  obtain ⟨h1, hmax, hcase⟩ := table_nf2_insert_cases nf s flow hsup hwr
  rcases hcase with ⟨-, hfl, hil, hn, -⟩ | ⟨pre, E, post, hl, hE, -⟩
  · refine ⟨h1, hn, hfl, hil, ?_, ?_, ?_⟩
    · simp [table_nf2_stats, hn]
    · simp [table_nf2_stats, hmax]
    · intro hfull
      simp only [table_nf2_stats, hmax, hn]
      omega
  · have hEin : E ∈ s.td.flows := by rw [hl]; simp
    have := hnone E hEin
    simp [replaceable, this] at hE

/-- At capacity 1 with one flow linked, a second flow is inserted all the
same and the reported live count, 2, exceeds `max_flows`, 1. -/
theorem table_nf2_insert_no_capacity_check_witness :
    ((table_nf2_stats full_state.td).n_flows = 1 ∧
      (table_nf2_stats full_state.td).max_flows = 1 ∧
      (table_nf2_stats (table_nf2_insert accept_all full_state 2).2.td).n_flows = 2 ∧
      (table_nf2_stats (table_nf2_insert accept_all full_state 2).2.td).max_flows = 1) ∧
    (table_nf2_insert accept_all full_state 2).1 = 1 ∧
    (table_nf2_insert accept_all full_state 2).2.td.n_flows = full_state.td.n_flows + 1 ∧
    (table_nf2_insert accept_all full_state 2).2.td.flows = 2 :: full_state.td.flows ∧
    (table_nf2_insert accept_all full_state 2).2.td.iter_flows =
      2 :: full_state.td.iter_flows ∧
    (table_nf2_stats (table_nf2_insert accept_all full_state 2).2.td).n_flows =
      (table_nf2_stats full_state.td).n_flows + 1 ∧
    (table_nf2_stats (table_nf2_insert accept_all full_state 2).2.td).max_flows =
      (table_nf2_stats full_state.td).max_flows ∧
    ((full_state.td.max_flows : Int) ≤ full_state.td.n_flows →
      ((table_nf2_stats (table_nf2_insert accept_all full_state 2).2.td).max_flows : Int) <
        (table_nf2_stats (table_nf2_insert accept_all full_state 2).2.td).n_flows) :=
  ⟨by decide, table_nf2_insert_no_capacity_check accept_all full_state 2
    (by decide) (by decide) (by decide)⟩

/-! ## End-to-end replacement -/

theorem set_private_other (mem : flow_mem) (flow : Nat) (x : Option Nat) (f : Nat)
    (h : f ≠ flow) : set_private mem flow x f = mem f := by
  simp [set_private, Function.update_noteq h]

theorem set_private_actions (mem : flow_mem) (flow : Nat) (x : Option Nat) (f : Nat) :
    (set_private mem flow x f).actions = (mem f).actions := by
  by_cases h : f = flow
  · subst h; simp [set_private]
  · rw [set_private_other mem flow x f h]

theorem set_deleted_other (mem : flow_mem) (flow f : Nat) (h : f ≠ flow) :
    set_deleted mem flow f = mem f := by
  simp [set_deleted, Function.update_noteq h]

theorem set_deleted_key (mem : flow_mem) (flow f : Nat) :
    (set_deleted mem flow f).key = (mem f).key := by
  by_cases h : f = flow
  · subst h; simp [set_deleted]
  · rw [set_deleted_other mem flow f h]

theorem flow_matches_self (k : sw_flow_key) : flow_matches k k = true := by
  simp [flow_matches, field_matches]

theorem flow_matches_port_only (k probe : sw_flow_key) (hw : k.wildcards = 1022)
    (hp : k.in_port = probe.in_port) : flow_matches k probe = true := by
  have h1 : Nat.testBit 1022 1 = true := by decide
  have h2 : Nat.testBit 1022 2 = true := by decide
  have h3 : Nat.testBit 1022 3 = true := by decide
  have h4 : Nat.testBit 1022 4 = true := by decide
  have h5 : Nat.testBit 1022 5 = true := by decide
  have h6 : Nat.testBit 1022 6 = true := by decide
  have h7 : Nat.testBit 1022 7 = true := by decide
  have h8 : Nat.testBit 1022 8 = true := by decide
  have h9 : Nat.testBit 1022 9 = true := by decide
  simp [flow_matches, field_matches, hw, hp, h1, h2, h3, h4, h5, h6, h7, h8, h9]

/-- C15 (with `flow_matches` as the spec describes it): on a newly created
table, after the insert of flow A (only the ingress port not wildcarded, port
1, priority 10) the lookup of every probe with port 1 returns A; the insert of
flow B with the same key and mask and priority 20 then returns 1 as a
replacement: the live-flow count stays 1, B alone is linked, and the lookup of
every probe with port 1 returns B, with B's actions, and not A. -/
theorem table_nf2_replace_end_to_end (nf : nf2_offload) (mem : flow_mem)
    (exact_size wildcard_size A B : Nat) (probe : sw_flow_key)
    (hAB : A ≠ B)
    (hmask : (mem A).key.wildcards = 1022) (hport : (mem A).key.in_port = 1)
    (hprioA : (mem A).priority = 10) (hprioB : (mem B).priority = 20)
    (hkeyB : (mem B).key = (mem A).key)
    (hlive : (mem A).deleted = false)
    (haccA : nf.nf2_are_actions_supported (mem A) ≠ 0 ∧
      (nf.nf2_build_and_write_flow (mem A)).1 = 0)
    (haccB : nf.nf2_are_actions_supported (mem B) ≠ 0 ∧
      (nf.nf2_build_and_write_flow (mem B)).1 = 0)
    (hprobe : probe.in_port = 1) :
    (table_nf2_insert nf
      { mem := mem, td := table_nf2_create exact_size wildcard_size } A).1 = 1 ∧
    table_nf2_lookup (table_nf2_insert nf
      { mem := mem, td := table_nf2_create exact_size wildcard_size } A).2 probe = some A ∧
    ((table_nf2_insert nf
      { mem := mem, td := table_nf2_create exact_size wildcard_size } A).2.mem A).priority
        = 10 ∧
    (table_nf2_stats (table_nf2_insert nf
      { mem := mem, td := table_nf2_create exact_size wildcard_size } A).2.td).n_flows = 1 ∧
    (table_nf2_insert nf (table_nf2_insert nf
      { mem := mem, td := table_nf2_create exact_size wildcard_size } A).2 B).1 = 1 ∧
    (table_nf2_stats (table_nf2_insert nf (table_nf2_insert nf
      { mem := mem, td := table_nf2_create exact_size wildcard_size } A).2 B).2.td).n_flows
        = 1 ∧
    (table_nf2_insert nf (table_nf2_insert nf
      { mem := mem, td := table_nf2_create exact_size wildcard_size } A).2 B).2.td.flows
        = [B] ∧
    (table_nf2_insert nf (table_nf2_insert nf
      { mem := mem, td := table_nf2_create exact_size wildcard_size } A).2 B).2.td.iter_flows
        = [B] ∧
    table_nf2_lookup (table_nf2_insert nf (table_nf2_insert nf
      { mem := mem, td := table_nf2_create exact_size wildcard_size } A).2 B).2 probe
        = some B ∧
    table_nf2_lookup (table_nf2_insert nf (table_nf2_insert nf
      { mem := mem, td := table_nf2_create exact_size wildcard_size } A).2 B).2 probe
        ≠ some A ∧
    ((table_nf2_insert nf (table_nf2_insert nf
      { mem := mem, td := table_nf2_create exact_size wildcard_size } A).2 B).2.mem B).actions
        = (mem B).actions ∧
    ((table_nf2_insert nf (table_nf2_insert nf
      { mem := mem, td := table_nf2_create exact_size wildcard_size } A).2 B).2.mem B).priority
        = 20 := by
  -- the first insert links A
  obtain ⟨hr1, -, hcase1⟩ := table_nf2_insert_cases nf
    { mem := mem, td := table_nf2_create exact_size wildcard_size } A haccA.1 haccA.2
  have hempty : ({ mem := mem, td := table_nf2_create exact_size wildcard_size } :
      nf2_state).td.flows = [] := rfl
  have hiempty : ({ mem := mem, td := table_nf2_create exact_size wildcard_size } :
      nf2_state).td.iter_flows = [] := rfl
  have hzero : ({ mem := mem, td := table_nf2_create exact_size wildcard_size } :
      nf2_state).td.n_flows = 0 := rfl
  rcases hcase1 with ⟨-, hfl1, hil1, hn1, hmem1⟩ | ⟨pre, E, post, hl, -⟩
  swap
  · rw [hempty] at hl
    exact absurd hl (by simp)
  rw [hempty] at hfl1
  rw [hiempty] at hil1
  rw [hzero] at hn1
  have hmem1A : ∀ f, ((table_nf2_insert nf
      { mem := mem, td := table_nf2_create exact_size wildcard_size } A).2.mem f).key =
      (mem f).key := by
    intro f; rw [hmem1]; exact set_private_key _ _ _ _
  have hmem1B : (table_nf2_insert nf
      { mem := mem, td := table_nf2_create exact_size wildcard_size } A).2.mem B = mem B := by
    rw [hmem1]; exact set_private_other _ _ _ _ (Ne.symm hAB)
  have hdel1 : ((table_nf2_insert nf
      { mem := mem, td := table_nf2_create exact_size wildcard_size } A).2.mem A).deleted =
      false := by
    rw [hmem1, set_private_deleted]; exact hlive
  have hmatchA : flow_matches (mem A).key probe = true :=
    flow_matches_port_only _ _ hmask (by rw [hport, hprobe])
  -- the second insert replaces A by B
  obtain ⟨hr2, -, hcase2⟩ := table_nf2_insert_cases nf (table_nf2_insert nf
    { mem := mem, td := table_nf2_create exact_size wildcard_size } A).2 B
    (by rw [hmem1B]; exact haccB.1) (by rw [hmem1B]; exact haccB.2)
  have hrep : replaceable (table_nf2_insert nf
      { mem := mem, td := table_nf2_create exact_size wildcard_size } A).2.mem B A = true := by
    simp [replaceable, exact_match, hmem1A, hkeyB, flow_matches_self, hdel1]
  rcases hcase2 with ⟨hnone, -⟩ | ⟨pre, E, post, hl, -, -, hfl2, hil2, hn2, hmem2⟩
  · have := hnone A (by rw [hfl1]; simp)
    rw [hrep] at this
    exact absurd this (by simp)
  rw [hfl1] at hl hfl2
  rw [hil1] at hil2
  have hEA : E = A := by
    cases pre with
    | nil => exact ((List.cons.inj hl).1).symm
    | cons b pre =>
      have := (List.cons.inj hl).2
      exact absurd this (by simp)
  rw [hEA] at hfl2 hil2 hmem2
  have hfl2' : (table_nf2_insert nf (table_nf2_insert nf
      { mem := mem, td := table_nf2_create exact_size wildcard_size } A).2 B).2.td.flows =
      [B] := by
    rw [hfl2]; simp [list_replace_rcu]
  have hil2' : (table_nf2_insert nf (table_nf2_insert nf
      { mem := mem, td := table_nf2_create exact_size wildcard_size } A).2 B).2.td.iter_flows =
      [B] := by
    rw [hil2]; simp [list_replace_rcu]
  have hkey2 : ((table_nf2_insert nf (table_nf2_insert nf
      { mem := mem, td := table_nf2_create exact_size wildcard_size } A).2 B).2.mem B).key =
      (mem A).key := by
    rw [hmem2, set_deleted_key, set_private_key, hmem1B, hkeyB]
  have hrec2 : ∀ x, (set_deleted (set_private (table_nf2_insert nf
      { mem := mem, td := table_nf2_create exact_size wildcard_size } A).2.mem B x) A B) =
      set_private (table_nf2_insert nf
      { mem := mem, td := table_nf2_create exact_size wildcard_size } A).2.mem B x B :=
    fun x => set_deleted_other _ _ _ (Ne.symm hAB)
  have hlook2 : table_nf2_lookup (table_nf2_insert nf (table_nf2_insert nf
      { mem := mem, td := table_nf2_create exact_size wildcard_size } A).2 B).2 probe =
      some B := by
    unfold table_nf2_lookup
    rw [hfl2']
    simp [lookup_loop, hkey2, hmatchA]
  refine ⟨hr1, ?_, ?_, ?_, hr2, ?_, hfl2', hil2', hlook2, ?_, ?_, ?_⟩
  · unfold table_nf2_lookup
    rw [hfl1]
    simp [lookup_loop, hmem1A, hmatchA]
  · rw [hmem1, set_private_priority]; exact hprioA
  · simp [table_nf2_stats, hn1]
  · simp [table_nf2_stats, hn2, hn1]
  · rw [hlook2]
    intro h
    exact hAB (Option.some.inj h).symm
  · rw [hmem2, hrec2, set_private_actions, hmem1B]
  · rw [hmem2, hrec2, set_private_priority, hmem1B]; exact hprioB

/-- A and B of `replace_mem` on a table of capacity 32792: every probe on port
1 finds A (actions `[1]`) before the second insert and B (actions `[2]`)
after it. -/
theorem table_nf2_replace_end_to_end_witness :
    (((table_nf2_insert accept_all (table_nf2_insert accept_all
        { mem := replace_mem, td := table_nf2_create 32768 32 } 1).2 2).2.mem 2).actions = [2] ∧
      table_nf2_lookup (table_nf2_insert accept_all
        { mem := replace_mem, td := table_nf2_create 32768 32 } 1).2 (sample_key 1 0)
          = some 1) ∧
    (table_nf2_insert accept_all
      { mem := replace_mem, td := table_nf2_create 32768 32 } 1).1 = 1 ∧
    table_nf2_lookup (table_nf2_insert accept_all
      { mem := replace_mem, td := table_nf2_create 32768 32 } 1).2 (sample_key 1 0)
        = some 1 ∧
    ((table_nf2_insert accept_all
      { mem := replace_mem, td := table_nf2_create 32768 32 } 1).2.mem 1).priority = 10 ∧
    (table_nf2_stats (table_nf2_insert accept_all
      { mem := replace_mem, td := table_nf2_create 32768 32 } 1).2.td).n_flows = 1 ∧
    (table_nf2_insert accept_all (table_nf2_insert accept_all
      { mem := replace_mem, td := table_nf2_create 32768 32 } 1).2 2).1 = 1 ∧
    (table_nf2_stats (table_nf2_insert accept_all (table_nf2_insert accept_all
      { mem := replace_mem, td := table_nf2_create 32768 32 } 1).2 2).2.td).n_flows = 1 ∧
    (table_nf2_insert accept_all (table_nf2_insert accept_all
      { mem := replace_mem, td := table_nf2_create 32768 32 } 1).2 2).2.td.flows = [2] ∧
    (table_nf2_insert accept_all (table_nf2_insert accept_all
      { mem := replace_mem, td := table_nf2_create 32768 32 } 1).2 2).2.td.iter_flows = [2] ∧
    table_nf2_lookup (table_nf2_insert accept_all (table_nf2_insert accept_all
      { mem := replace_mem, td := table_nf2_create 32768 32 } 1).2 2).2 (sample_key 1 0)
        = some 2 ∧
    table_nf2_lookup (table_nf2_insert accept_all (table_nf2_insert accept_all
      { mem := replace_mem, td := table_nf2_create 32768 32 } 1).2 2).2 (sample_key 1 0)
        ≠ some 1 ∧
    ((table_nf2_insert accept_all (table_nf2_insert accept_all
      { mem := replace_mem, td := table_nf2_create 32768 32 } 1).2 2).2.mem 2).actions
        = (replace_mem 2).actions ∧
    ((table_nf2_insert accept_all (table_nf2_insert accept_all
      { mem := replace_mem, td := table_nf2_create 32768 32 } 1).2 2).2.mem 2).priority
        = 20 :=
  ⟨by decide, table_nf2_replace_end_to_end accept_all replace_mem 32768 32 1 2 (sample_key 1 0)
    (by decide) (by decide) (by decide) (by decide) (by decide) (by decide) (by decide)
    (by decide) (by decide) (by decide)⟩

/-! ## Timeout: the steps of the sweep -/

theorem do_delete_other (s : nf2_state) (a f : Nat) (h : f ≠ a) :
    (do_delete s a).2.mem f = s.mem f := by
  by_cases hd : (s.mem a).deleted = true
  · rw [do_delete_marked s a hd]
  · have h0 : (s.mem a).deleted = false := by simpa using hd
    unfold do_delete
    rw [flow_del_live s.mem a h0]
    by_cases hp : ((Function.update s.mem a { s.mem a with deleted := true }) a).private_.isSome
    · simp only [hp, if_true]
      rw [set_private_other _ _ _ _ h]
      simp [Function.update_noteq h]
    · simp only [hp]
      simp [Function.update_noteq h]

theorem do_delete_aging (s : nf2_state) (a f : Nat) :
    ((do_delete s a).2.mem f).max_idle = (s.mem f).max_idle ∧
    ((do_delete s a).2.mem f).timeout = (s.mem f).timeout ∧
    ((do_delete s a).2.mem f).packet_count = (s.mem f).packet_count ∧
    ((do_delete s a).2.mem f).byte_count = (s.mem f).byte_count ∧
    ((do_delete s a).2.mem f).actions = (s.mem f).actions := by
  by_cases h : f = a
  · subst h
    by_cases hd : (s.mem f).deleted = true
    · rw [do_delete_marked s f hd]
      simp
    · have h0 : (s.mem f).deleted = false := by simpa using hd
      unfold do_delete
      rw [flow_del_live s.mem f h0]
      by_cases hp : ((Function.update s.mem f { s.mem f with deleted := true }) f).private_.isSome
      · simp only [hp, if_true]
        simp [set_private]
      · simp only [hp]
        simp
  · rw [do_delete_other s a f h]
    simp

theorem do_delete_deleted (s : nf2_state) (a : Nat) :
    ((do_delete s a).2.mem a).deleted = true := by
  by_cases hd : (s.mem a).deleted = true
  · rw [do_delete_marked s a hd]; exact hd
  · exact (do_delete_live s a (by simpa using hd)).2.2.2.2

theorem set_refreshed_other (c : nf2_consts) (j : Nat) (mem : flow_mem) (a pc f : Nat)
    (h : f ≠ a) : set_refreshed c j mem a pc f = mem f := by
  simp [set_refreshed, Function.update_noteq h]

theorem timeout_refresh_other (c : nf2_consts) (j : Nat) (mem : flow_mem) (a pc f : Nat)
    (h : f ≠ a) : timeout_refresh c j mem a pc f = mem f := by
  unfold timeout_refresh
  split
  · exact set_refreshed_other c j mem a pc f h
  · rfl

theorem timeout_refresh_frame (c : nf2_consts) (j : Nat) (mem : flow_mem) (a pc f : Nat) :
    (timeout_refresh c j mem a pc f).key = (mem f).key ∧
    (timeout_refresh c j mem a pc f).priority = (mem f).priority ∧
    (timeout_refresh c j mem a pc f).serial = (mem f).serial ∧
    (timeout_refresh c j mem a pc f).max_idle = (mem f).max_idle ∧
    (timeout_refresh c j mem a pc f).private_ = (mem f).private_ ∧
    (timeout_refresh c j mem a pc f).byte_count = (mem f).byte_count ∧
    (timeout_refresh c j mem a pc f).deleted = (mem f).deleted ∧
    (timeout_refresh c j mem a pc f).actions = (mem f).actions := by
  by_cases h : f = a
  · subst h
    unfold timeout_refresh
    split
    · simp [set_refreshed]
    · simp
  · rw [timeout_refresh_other c j mem a pc f h]
    simp

theorem timeout_add_bytes_other (nf : nf2_offload) (mem : flow_mem) (a : Nat)
    (sfw : Option Nat) (f : Nat) (h : f ≠ a) : timeout_add_bytes nf mem a sfw f = mem f := by
  cases sfw with
  | none => rfl
  | some x => simp [timeout_add_bytes, Function.update_noteq h]

theorem timeout_add_bytes_frame (nf : nf2_offload) (mem : flow_mem) (a : Nat)
    (sfw : Option Nat) (f : Nat) :
    (timeout_add_bytes nf mem a sfw f).key = (mem f).key ∧
    (timeout_add_bytes nf mem a sfw f).priority = (mem f).priority ∧
    (timeout_add_bytes nf mem a sfw f).serial = (mem f).serial ∧
    (timeout_add_bytes nf mem a sfw f).max_idle = (mem f).max_idle ∧
    (timeout_add_bytes nf mem a sfw f).timeout = (mem f).timeout ∧
    (timeout_add_bytes nf mem a sfw f).packet_count = (mem f).packet_count ∧
    (timeout_add_bytes nf mem a sfw f).private_ = (mem f).private_ ∧
    (timeout_add_bytes nf mem a sfw f).deleted = (mem f).deleted ∧
    (timeout_add_bytes nf mem a sfw f).actions = (mem f).actions := by
  by_cases h : f = a
  · subst h
    cases sfw with
    | none => simp [timeout_add_bytes]
    | some x => simp [timeout_add_bytes]
  · rw [timeout_add_bytes_other nf mem a sfw f h]
    simp

theorem timeout_notify_td (nf : nf2_offload) (c : nf2_consts) (dp : datapath) (s : nf2_state)
    (a : Nat) (sfw : Option Nat) (sent : List flow_expired) :
    (timeout_notify nf c dp s a sfw sent).1.td = s.td := by
  unfold timeout_notify
  split <;> rfl

theorem timeout_notify_other (nf : nf2_offload) (c : nf2_consts) (dp : datapath)
    (s : nf2_state) (a : Nat) (sfw : Option Nat) (sent : List flow_expired) (f : Nat)
    (h : f ≠ a) : (timeout_notify nf c dp s a sfw sent).1.mem f = s.mem f := by
  unfold timeout_notify
  split
  · exact timeout_add_bytes_other nf s.mem a sfw f h
  · rfl

theorem timeout_notify_frame (nf : nf2_offload) (c : nf2_consts) (dp : datapath)
    (s : nf2_state) (a : Nat) (sfw : Option Nat) (sent : List flow_expired) (f : Nat) :
    ((timeout_notify nf c dp s a sfw sent).1.mem f).key = (s.mem f).key ∧
    ((timeout_notify nf c dp s a sfw sent).1.mem f).priority = (s.mem f).priority ∧
    ((timeout_notify nf c dp s a sfw sent).1.mem f).serial = (s.mem f).serial ∧
    ((timeout_notify nf c dp s a sfw sent).1.mem f).max_idle = (s.mem f).max_idle ∧
    ((timeout_notify nf c dp s a sfw sent).1.mem f).timeout = (s.mem f).timeout ∧
    ((timeout_notify nf c dp s a sfw sent).1.mem f).packet_count = (s.mem f).packet_count ∧
    ((timeout_notify nf c dp s a sfw sent).1.mem f).private_ = (s.mem f).private_ ∧
    ((timeout_notify nf c dp s a sfw sent).1.mem f).deleted = (s.mem f).deleted ∧
    ((timeout_notify nf c dp s a sfw sent).1.mem f).actions = (s.mem f).actions := by
  unfold timeout_notify
  split
  · exact timeout_add_bytes_frame nf s.mem a sfw f
  · simp

theorem flow_timeout_congr (c : nf2_consts) (j : Nat) (r r' : sw_flow)
    (h1 : r'.max_idle = r.max_idle) (h2 : r'.timeout = r.timeout) :
    flow_timeout c j r' = flow_timeout c j r := by
  simp [flow_timeout, h1, h2]

theorem timeout_step_expired_case (nf : nf2_offload) (c : nf2_consts) (dp : datapath)
    (j : Nat) (acc : timeout_acc) (a : Nat)
    (hT : flow_timeout c j ((timeout_refreshed nf c j acc a).mem a) = true) :
    timeout_step nf c dp j acc a =
      { packet_count := timeout_packet_count nf acc.s.mem acc.packet_count a,
        del_count := acc.del_count +
          (do_delete (timeout_notify nf c dp (timeout_refreshed nf c j acc a)
            a (acc.s.mem a).private_ acc.sent).1 a).1,
        s := (do_delete (timeout_notify nf c dp (timeout_refreshed nf c j acc a)
            a (acc.s.mem a).private_ acc.sent).1 a).2,
        sent := (timeout_notify nf c dp (timeout_refreshed nf c j acc a)
            a (acc.s.mem a).private_ acc.sent).2 } := by
  unfold timeout_step
  simp only [hT, if_true]

theorem timeout_step_kept_case (nf : nf2_offload) (c : nf2_consts) (dp : datapath)
    (j : Nat) (acc : timeout_acc) (a : Nat)
    (hT : flow_timeout c j ((timeout_refreshed nf c j acc a).mem a) = false) :
    timeout_step nf c dp j acc a =
      { packet_count := timeout_packet_count nf acc.s.mem acc.packet_count a,
        del_count := acc.del_count,
        s := timeout_refreshed nf c j acc a,
        sent := acc.sent } := by
  unfold timeout_step
  simp only [hT, Bool.false_eq_true, if_false]

theorem timeout_refreshed_other (nf : nf2_offload) (c : nf2_consts) (j : Nat)
    (acc : timeout_acc) (a f : Nat) (h : f ≠ a) :
    (timeout_refreshed nf c j acc a).mem f = acc.s.mem f :=
  timeout_refresh_other c j acc.s.mem a _ f h

theorem timeout_refreshed_frame (nf : nf2_offload) (c : nf2_consts) (j : Nat)
    (acc : timeout_acc) (a f : Nat) :
    ((timeout_refreshed nf c j acc a).mem f).key = (acc.s.mem f).key ∧
    ((timeout_refreshed nf c j acc a).mem f).priority = (acc.s.mem f).priority ∧
    ((timeout_refreshed nf c j acc a).mem f).serial = (acc.s.mem f).serial ∧
    ((timeout_refreshed nf c j acc a).mem f).max_idle = (acc.s.mem f).max_idle ∧
    ((timeout_refreshed nf c j acc a).mem f).private_ = (acc.s.mem f).private_ ∧
    ((timeout_refreshed nf c j acc a).mem f).byte_count = (acc.s.mem f).byte_count ∧
    ((timeout_refreshed nf c j acc a).mem f).deleted = (acc.s.mem f).deleted ∧
    ((timeout_refreshed nf c j acc a).mem f).actions = (acc.s.mem f).actions :=
  timeout_refresh_frame c j acc.s.mem a _ f

theorem timeout_step_other (nf : nf2_offload) (c : nf2_consts) (dp : datapath)
    (j : Nat) (acc : timeout_acc) (a f : Nat) (h : f ≠ a) :
    (timeout_step nf c dp j acc a).s.mem f = acc.s.mem f := by
  by_cases hT : flow_timeout c j ((timeout_refreshed nf c j acc a).mem a) = true
  · rw [timeout_step_expired_case nf c dp j acc a hT]
    show (do_delete _ a).2.mem f = _
    rw [do_delete_other _ a f h, timeout_notify_other _ _ _ _ _ _ _ f h]
    exact timeout_refreshed_other nf c j acc a f h
  · rw [timeout_step_kept_case nf c dp j acc a (by simpa using hT)]
    exact timeout_refreshed_other nf c j acc a f h

theorem timeout_step_frame (nf : nf2_offload) (c : nf2_consts) (dp : datapath)
    (j : Nat) (acc : timeout_acc) (a f : Nat) :
    ((timeout_step nf c dp j acc a).s.mem f).key = (acc.s.mem f).key ∧
    ((timeout_step nf c dp j acc a).s.mem f).priority = (acc.s.mem f).priority ∧
    ((timeout_step nf c dp j acc a).s.mem f).serial = (acc.s.mem f).serial ∧
    ((timeout_step nf c dp j acc a).s.mem f).max_idle = (acc.s.mem f).max_idle ∧
    ((timeout_step nf c dp j acc a).s.mem f).actions = (acc.s.mem f).actions := by
  obtain ⟨r1, r2, r3, r4, -, -, -, r8⟩ := timeout_refreshed_frame nf c j acc a f
  by_cases hT : flow_timeout c j ((timeout_refreshed nf c j acc a).mem a) = true
  · rw [timeout_step_expired_case nf c dp j acc a hT]
    obtain ⟨d1, d2, d3, -⟩ := do_delete_mem (timeout_notify nf c dp
      (timeout_refreshed nf c j acc a) a (acc.s.mem a).private_ acc.sent).1 a f
    obtain ⟨e1, -, -, -, e5⟩ := do_delete_aging (timeout_notify nf c dp
      (timeout_refreshed nf c j acc a) a (acc.s.mem a).private_ acc.sent).1 a f
    obtain ⟨n1, n2, n3, n4, -, -, -, -, n9⟩ := timeout_notify_frame nf c dp
      (timeout_refreshed nf c j acc a) a (acc.s.mem a).private_ acc.sent f
    exact ⟨by rw [d1, n1, r1], by rw [d2, n2, r2], by rw [d3, n3, r3], by rw [e1, n4, r4],
      by rw [e5, n9, r8]⟩
  · rw [timeout_step_kept_case nf c dp j acc a (by simpa using hT)]
    exact ⟨r1, r2, r3, r4, r8⟩

theorem timeout_step_at (nf : nf2_offload) (c : nf2_consts) (dp : datapath)
    (j : Nat) (acc : timeout_acc) (a : Nat) :
    ((timeout_step nf c dp j acc a).s.mem a).timeout =
      ((timeout_refreshed nf c j acc a).mem a).timeout ∧
    ((timeout_step nf c dp j acc a).s.mem a).packet_count =
      ((timeout_refreshed nf c j acc a).mem a).packet_count ∧
    flow_timeout c j ((timeout_step nf c dp j acc a).s.mem a) =
      flow_timeout c j ((timeout_refreshed nf c j acc a).mem a) ∧
    ((timeout_step nf c dp j acc a).s.mem a).deleted =
      ((acc.s.mem a).deleted || flow_timeout c j ((timeout_refreshed nf c j acc a).mem a)) := by
  obtain ⟨-, -, -, r4, -, -, r7, -⟩ := timeout_refreshed_frame nf c j acc a a
  by_cases hT : flow_timeout c j ((timeout_refreshed nf c j acc a).mem a) = true
  · have hstep := timeout_step_expired_case nf c dp j acc a hT
    obtain ⟨e1, e2, e3, -, -⟩ := do_delete_aging (timeout_notify nf c dp
      (timeout_refreshed nf c j acc a) a (acc.s.mem a).private_ acc.sent).1 a a
    obtain ⟨-, -, -, n4, n5, n6, -, -, -⟩ := timeout_notify_frame nf c dp
      (timeout_refreshed nf c j acc a) a (acc.s.mem a).private_ acc.sent a
    have hdel := do_delete_deleted (timeout_notify nf c dp
      (timeout_refreshed nf c j acc a) a (acc.s.mem a).private_ acc.sent).1 a
    rw [hstep]
    refine ⟨by rw [e2, n5], by rw [e3, n6], ?_, ?_⟩
    · exact flow_timeout_congr c j _ _ (by rw [e1, n4]) (by rw [e2, n5])
    · rw [hT, Bool.or_true]
      exact hdel
  · have hF : flow_timeout c j ((timeout_refreshed nf c j acc a).mem a) = false := by
      simpa using hT
    rw [timeout_step_kept_case nf c dp j acc a hF, hF, Bool.or_false]
    exact ⟨rfl, rfl, rfl, r7⟩

theorem timeout_step_td (nf : nf2_offload) (c : nf2_consts) (dp : datapath)
    (j : Nat) (acc : timeout_acc) (a : Nat) :
    (timeout_step nf c dp j acc a).s.td.n_flows = acc.s.td.n_flows ∧
    (timeout_step nf c dp j acc a).s.td.max_flows = acc.s.td.max_flows ∧
    (timeout_step nf c dp j acc a).s.td.flows =
      (if (flow_timeout c j ((timeout_step nf c dp j acc a).s.mem a)
          && !(acc.s.mem a).deleted) = true
        then acc.s.td.flows.erase a else acc.s.td.flows) ∧
    (timeout_step nf c dp j acc a).s.td.iter_flows =
      (if (flow_timeout c j ((timeout_step nf c dp j acc a).s.mem a)
          && !(acc.s.mem a).deleted) = true
        then acc.s.td.iter_flows.erase a else acc.s.td.iter_flows) ∧
    (timeout_step nf c dp j acc a).del_count =
      acc.del_count + (if (flow_timeout c j ((timeout_step nf c dp j acc a).s.mem a)
          && !(acc.s.mem a).deleted) = true then 1 else 0) := by
  obtain ⟨-, -, hexp, -⟩ := timeout_step_at nf c dp j acc a
  obtain ⟨-, -, -, -, -, -, r7, -⟩ := timeout_refreshed_frame nf c j acc a a
  rw [hexp]
  by_cases hT : flow_timeout c j ((timeout_refreshed nf c j acc a).mem a) = true
  · have hstep := timeout_step_expired_case nf c dp j acc a hT
    obtain ⟨-, -, -, -, -, -, -, n8, -⟩ := timeout_notify_frame nf c dp
      (timeout_refreshed nf c j acc a) a (acc.s.mem a).private_ acc.sent a
    have htd := timeout_notify_td nf c dp (timeout_refreshed nf c j acc a) a
      (acc.s.mem a).private_ acc.sent
    have hrtd : (timeout_refreshed nf c j acc a).td = acc.s.td := rfl
    rw [hstep, hT]
    by_cases hd : (acc.s.mem a).deleted = true
    · have hd' : ((timeout_notify nf c dp (timeout_refreshed nf c j acc a) a
          (acc.s.mem a).private_ acc.sent).1.mem a).deleted = true := by
        rw [n8, r7]; exact hd
      rw [do_delete_marked _ a hd']
      simp [hd, htd, hrtd]
    · have hd0 : (acc.s.mem a).deleted = false := by simpa using hd
      have hd' : ((timeout_notify nf c dp (timeout_refreshed nf c j acc a) a
          (acc.s.mem a).private_ acc.sent).1.mem a).deleted = false := by
        rw [n8, r7]; exact hd0
      obtain ⟨h1, h2, h3, h4, -⟩ := do_delete_live _ a hd'
      have hmax : (do_delete (timeout_notify nf c dp (timeout_refreshed nf c j acc a) a
          (acc.s.mem a).private_ acc.sent).1 a).2.td.max_flows = acc.s.td.max_flows := by
        unfold do_delete
        rw [flow_del_live _ a hd']
        simp [htd, hrtd]
      simp only [hd0, Bool.not_false, Bool.and_self, if_true]
      rw [h1, h2, h3, h4, hmax, htd, hrtd]
      exact ⟨rfl, rfl, rfl, rfl, rfl⟩
  · have hF : flow_timeout c j ((timeout_refreshed nf c j acc a).mem a) = false := by
      simpa using hT
    rw [timeout_step_kept_case nf c dp j acc a hF, hF]
    simp [timeout_refreshed]

/-! ## Timeout: the whole sweep -/

theorem timeout_loop_frame (nf : nf2_offload) (c : nf2_consts) (dp : datapath) (j : Nat)
    (l : List Nat) :
    ∀ acc : timeout_acc,
      (∀ f, f ∉ l → (timeout_loop nf c dp j l acc).s.mem f = acc.s.mem f) ∧
      (∀ f, ((timeout_loop nf c dp j l acc).s.mem f).key = (acc.s.mem f).key ∧
        ((timeout_loop nf c dp j l acc).s.mem f).priority = (acc.s.mem f).priority ∧
        ((timeout_loop nf c dp j l acc).s.mem f).serial = (acc.s.mem f).serial ∧
        ((timeout_loop nf c dp j l acc).s.mem f).max_idle = (acc.s.mem f).max_idle ∧
        ((timeout_loop nf c dp j l acc).s.mem f).actions = (acc.s.mem f).actions) ∧
      (timeout_loop nf c dp j l acc).s.td.n_flows = acc.s.td.n_flows ∧
      (timeout_loop nf c dp j l acc).s.td.max_flows = acc.s.td.max_flows := by
  induction l with
  | nil => intro acc; simp [timeout_loop]
  | cons a rest ih =>
    intro acc
    obtain ⟨h1, h2, h3, h4⟩ := ih (timeout_step nf c dp j acc a)
    obtain ⟨t1, t2, -⟩ := timeout_step_td nf c dp j acc a
    have hR : timeout_loop nf c dp j (a :: rest) acc =
        timeout_loop nf c dp j rest (timeout_step nf c dp j acc a) := rfl
    rw [hR]
    refine ⟨?_, ?_, by rw [h3, t1], by rw [h4, t2]⟩
    · intro f hf
      have hfa : f ≠ a := fun e => hf (by simp [e])
      have hfr : f ∉ rest := fun e => hf (by simp [e])
      rw [h1 f hfr, timeout_step_other nf c dp j acc a f hfa]
    · intro f
      obtain ⟨k1, k2, k3, k4, k5⟩ := h2 f
      obtain ⟨s1, s2, s3, s4, s5⟩ := timeout_step_frame nf c dp j acc a f
      exact ⟨by rw [k1, s1], by rw [k2, s2], by rw [k3, s3], by rw [k4, s4], by rw [k5, s5]⟩

theorem timeout_loop_spec (nf : nf2_offload) (c : nf2_consts) (dp : datapath) (j : Nat)
    (l : List Nat) :
    ∀ acc : timeout_acc, l.Nodup →
      (timeout_loop nf c dp j l acc).s.td.flows =
        acc.s.td.flows.diff (l.filter (fun f =>
          flow_timeout c j ((timeout_loop nf c dp j l acc).s.mem f)
            && !(acc.s.mem f).deleted)) ∧
      (timeout_loop nf c dp j l acc).s.td.iter_flows =
        acc.s.td.iter_flows.diff (l.filter (fun f =>
          flow_timeout c j ((timeout_loop nf c dp j l acc).s.mem f)
            && !(acc.s.mem f).deleted)) ∧
      (timeout_loop nf c dp j l acc).del_count =
        acc.del_count + ((l.filter (fun f =>
          flow_timeout c j ((timeout_loop nf c dp j l acc).s.mem f)
            && !(acc.s.mem f).deleted)).length : Int) ∧
      (∀ f ∈ l, ((timeout_loop nf c dp j l acc).s.mem f).deleted =
        ((acc.s.mem f).deleted ||
          flow_timeout c j ((timeout_loop nf c dp j l acc).s.mem f))) := by
  induction l with
  | nil => intro acc _; simp [timeout_loop]
  | cons a rest ih =>
    intro acc hnd
    have hnd' : rest.Nodup := (List.nodup_cons.mp hnd).2
    have ha : a ∉ rest := (List.nodup_cons.mp hnd).1
    obtain ⟨h1, h2, h3, h4⟩ := ih (timeout_step nf c dp j acc a) hnd'
    obtain ⟨-, -, t3, t4, t5⟩ := timeout_step_td nf c dp j acc a
    obtain ⟨-, -, -, tdel⟩ := timeout_step_at nf c dp j acc a
    obtain ⟨-, -, texp, -⟩ := timeout_step_at nf c dp j acc a
    have hfr := (timeout_loop_frame nf c dp j rest (timeout_step nf c dp j acc a)).1 a ha
    have hR : timeout_loop nf c dp j (a :: rest) acc =
        timeout_loop nf c dp j rest (timeout_step nf c dp j acc a) := rfl
    have hfilt : rest.filter (fun f =>
          flow_timeout c j ((timeout_loop nf c dp j rest
            (timeout_step nf c dp j acc a)).s.mem f)
            && !((timeout_step nf c dp j acc a).s.mem f).deleted) =
        rest.filter (fun f =>
          flow_timeout c j ((timeout_loop nf c dp j rest
            (timeout_step nf c dp j acc a)).s.mem f)
            && !(acc.s.mem f).deleted) := by
      apply List.filter_congr
      intro f hf
      have hfa : f ≠ a := fun e => ha (e ▸ hf)
      rw [timeout_step_other nf c dp j acc a f hfa]
    rw [hfilt] at h1 h2 h3
    rw [hR]
    rw [← hfr] at t3 t4 t5
    by_cases hq : (flow_timeout c j ((timeout_loop nf c dp j rest
        (timeout_step nf c dp j acc a)).s.mem a) && !(acc.s.mem a).deleted) = true
    · rw [if_pos hq] at t3 t4 t5
      rw [h1, h2, h3, t3, t4, t5]
      simp only [List.filter_cons, hq, if_true, List.diff_cons, List.length_cons]
      refine ⟨trivial, trivial, by push_cast; ring, ?_⟩
      intro f hf
      rcases List.mem_cons.mp hf with rfl | hf
      · rw [hfr, tdel, texp]
      · have hfa : f ≠ a := fun e => ha (e ▸ hf)
        rw [h4 f hf, timeout_step_other nf c dp j acc a f hfa]
    · rw [if_neg hq] at t3 t4 t5
      rw [h1, h2, h3, t3, t4, t5]
      simp only [List.filter_cons, hq, Bool.false_eq_true, if_false]
      refine ⟨trivial, trivial, by simp, ?_⟩
      intro f hf
      rcases List.mem_cons.mp hf with rfl | hf
      · rw [hfr, tdel, texp]
      · have hfa : f ≠ a := fun e => ha (e ▸ hf)
        rw [h4 f hf, timeout_step_other nf c dp j acc a f hfa]

theorem table_nf2_timeout_fields (nf : nf2_offload) (c : nf2_consts) (dp : datapath)
    (j : Nat) (s : nf2_state) :
    (table_nf2_timeout nf c dp j s).del_count =
      (timeout_loop nf c dp j s.td.flows (timeout_start s)).del_count ∧
    (table_nf2_timeout nf c dp j s).s.mem =
      (timeout_loop nf c dp j s.td.flows (timeout_start s)).s.mem ∧
    (table_nf2_timeout nf c dp j s).s.td.flows =
      (timeout_loop nf c dp j s.td.flows (timeout_start s)).s.td.flows ∧
    (table_nf2_timeout nf c dp j s).s.td.iter_flows =
      (timeout_loop nf c dp j s.td.flows (timeout_start s)).s.td.iter_flows ∧
    (table_nf2_timeout nf c dp j s).s.td.n_flows =
      (timeout_loop nf c dp j s.td.flows (timeout_start s)).s.td.n_flows -
        (timeout_loop nf c dp j s.td.flows (timeout_start s)).del_count ∧
    (table_nf2_timeout nf c dp j s).s.td.max_flows =
      (timeout_loop nf c dp j s.td.flows (timeout_start s)).s.td.max_flows ∧
    (table_nf2_timeout nf c dp j s).sent =
      (timeout_loop nf c dp j s.td.flows (timeout_start s)).sent := by
  unfold table_nf2_timeout
  by_cases h : (timeout_loop nf c dp j s.td.flows (timeout_start s)).del_count = 0
  · simp [h]
  · simp [h]

theorem timeout_packet_count_handle (nf : nf2_offload) (mem : flow_mem) (pc a h : Nat)
    (hp : (mem a).private_ = some h) :
    timeout_packet_count nf mem pc a = nf.nf2_get_packet_count h := by
  simp [timeout_packet_count, hp]

theorem timeout_refresh_self (c : nf2_consts) (j : Nat) (mem : flow_mem) (a pc : Nat) :
    (timeout_refresh c j mem a pc a).packet_count =
      (if (mem a).packet_count < pc ∧ (mem a).max_idle ≠ c.OFP_FLOW_PERMANENT then pc
        else (mem a).packet_count) ∧
    (timeout_refresh c j mem a pc a).timeout =
      (if (mem a).packet_count < pc ∧ (mem a).max_idle ≠ c.OFP_FLOW_PERMANENT then
        (j + c.HZ * (mem a).max_idle) % 2 ^ 64 else (mem a).timeout) := by
  unfold timeout_refresh
  split
  · simp [set_refreshed]
  · simp

theorem timeout_loop_handle_entry (nf : nf2_offload) (c : nf2_consts) (dp : datapath)
    (j : Nat) (l : List Nat) :
    ∀ acc : timeout_acc, l.Nodup → ∀ f ∈ l, ∀ h, (acc.s.mem f).private_ = some h →
      ((timeout_loop nf c dp j l acc).s.mem f).packet_count =
        (if (acc.s.mem f).packet_count < nf.nf2_get_packet_count h ∧
            (acc.s.mem f).max_idle ≠ c.OFP_FLOW_PERMANENT
          then nf.nf2_get_packet_count h else (acc.s.mem f).packet_count) ∧
      ((timeout_loop nf c dp j l acc).s.mem f).timeout =
        (if (acc.s.mem f).packet_count < nf.nf2_get_packet_count h ∧
            (acc.s.mem f).max_idle ≠ c.OFP_FLOW_PERMANENT
          then (j + c.HZ * (acc.s.mem f).max_idle) % 2 ^ 64 else (acc.s.mem f).timeout) := by
  induction l with
  | nil => intro acc _ f hf; simp at hf
  | cons a rest ih =>
    intro acc hnd f hf h hp
    have hnd' : rest.Nodup := (List.nodup_cons.mp hnd).2
    have ha : a ∉ rest := (List.nodup_cons.mp hnd).1
    have hR : timeout_loop nf c dp j (a :: rest) acc =
        timeout_loop nf c dp j rest (timeout_step nf c dp j acc a) := rfl
    rw [hR]
    rcases List.mem_cons.mp hf with rfl | hf
    · rw [(timeout_loop_frame nf c dp j rest (timeout_step nf c dp j acc f)).1 f ha]
      obtain ⟨t1, t2, -, -⟩ := timeout_step_at nf c dp j acc f
      obtain ⟨r1, r2⟩ := timeout_refresh_self c j acc.s.mem f
        (timeout_packet_count nf acc.s.mem acc.packet_count f)
      rw [timeout_packet_count_handle nf acc.s.mem acc.packet_count f h hp] at r1 r2
      have hmem : (timeout_refreshed nf c j acc f).mem =
          timeout_refresh c j acc.s.mem f (nf.nf2_get_packet_count h) := by
        unfold timeout_refreshed
        rw [timeout_packet_count_handle nf acc.s.mem acc.packet_count f h hp]
      rw [t1, t2, hmem]
      exact ⟨r1, r2⟩
    · have hfa : f ≠ a := fun e => ha (e ▸ hf)
      have hsame := timeout_step_other nf c dp j acc a f hfa
      have := ih (timeout_step nf c dp j acc a) hnd' f hf h (by rw [hsame]; exact hp)
      rw [hsame] at this
      exact this

/-! ## Timeout: counter and deadline refresh -/

/-- C12 (counterexample): in `permanent_state` the flow at address 3 has the
permanent idle policy, 20 stored packets and the handle 3, for which the
collaborator reports 30 packets; after the sweep its stored count is still 20,
not 30. -/
theorem table_nf2_timeout_permanent_not_refreshed :
    (permanent_state.mem 3).private_ = some 3 ∧
    odd_handles.nf2_get_packet_count 3 = 30 ∧
    (permanent_state.mem 3).packet_count = 20 ∧
    (permanent_state.mem 3).max_idle = sample_consts.OFP_FLOW_PERMANENT ∧
    3 ∈ (table_nf2_timeout odd_handles sample_consts { flags := 1 } 1000
      permanent_state).s.td.flows ∧
    ((table_nf2_timeout odd_handles sample_consts { flags := 1 } 1000
      permanent_state).s.mem 3).packet_count = 20 ∧
    ((table_nf2_timeout odd_handles sample_consts { flags := 1 } 1000
      permanent_state).s.mem 3).packet_count ≠ 30 := by
  refine ⟨by decide, by decide, by decide, by decide, by decide, by decide, by decide⟩

/-- C12 (amended): in `table_nf2_timeout`, for each entry that has an offload
handle, when the packet count the collaborator reports for that handle
exceeds the stored count and the entry does not use the permanent idle policy,
the stored count becomes the reported count and the deadline becomes
`jiffies + HZ * max_idle`; for an entry with the permanent idle policy, and
when the reported count does not exceed the stored one, the stored count and
the deadline are left unchanged. -/
theorem table_nf2_timeout_refresh (nf : nf2_offload) (c : nf2_consts) (dp : datapath)
    (j : Nat) (s : nf2_state) (f h : Nat)
    (hnd : s.td.flows.Nodup) (hf : f ∈ s.td.flows) (hp : (s.mem f).private_ = some h) :
    ((table_nf2_timeout nf c dp j s).s.mem f).packet_count =
      (if (s.mem f).packet_count < nf.nf2_get_packet_count h ∧
          (s.mem f).max_idle ≠ c.OFP_FLOW_PERMANENT
        then nf.nf2_get_packet_count h else (s.mem f).packet_count) ∧
    ((table_nf2_timeout nf c dp j s).s.mem f).timeout =
      (if (s.mem f).packet_count < nf.nf2_get_packet_count h ∧
          (s.mem f).max_idle ≠ c.OFP_FLOW_PERMANENT
        then (j + c.HZ * (s.mem f).max_idle) % 2 ^ 64 else (s.mem f).timeout) := by
  obtain ⟨-, hmem, -⟩ := table_nf2_timeout_fields nf c dp j s
  rw [hmem]
  exact timeout_loop_handle_entry nf c dp j s.td.flows (timeout_start s) hnd f hf h hp

/-- In `aging_state`, swept at time 1000, the flow at address 3 (handle 3, 30
reported packets against 20 stored, idle time 5) gets the count 30 and the
deadline 1500; the flow at address 1 (10 reported packets) keeps 20 and 5000. -/
theorem table_nf2_timeout_refresh_witness :
    (((table_nf2_timeout odd_handles sample_consts { flags := 1 } 1000
        aging_state).s.mem 3).packet_count = 30 ∧
      ((table_nf2_timeout odd_handles sample_consts { flags := 1 } 1000
        aging_state).s.mem 3).timeout = 1500 ∧
      ((table_nf2_timeout odd_handles sample_consts { flags := 1 } 1000
        aging_state).s.mem 1).packet_count = 20 ∧
      ((table_nf2_timeout odd_handles sample_consts { flags := 1 } 1000
        aging_state).s.mem 1).timeout = 5000) ∧
    ((table_nf2_timeout odd_handles sample_consts { flags := 1 } 1000
        aging_state).s.mem 3).packet_count =
      (if (aging_state.mem 3).packet_count < odd_handles.nf2_get_packet_count 3 ∧
          (aging_state.mem 3).max_idle ≠ sample_consts.OFP_FLOW_PERMANENT
        then odd_handles.nf2_get_packet_count 3 else (aging_state.mem 3).packet_count) ∧
    ((table_nf2_timeout odd_handles sample_consts { flags := 1 } 1000
        aging_state).s.mem 3).timeout =
      (if (aging_state.mem 3).packet_count < odd_handles.nf2_get_packet_count 3 ∧
          (aging_state.mem 3).max_idle ≠ sample_consts.OFP_FLOW_PERMANENT
        then (1000 + sample_consts.HZ * (aging_state.mem 3).max_idle) % 2 ^ 64
        else (aging_state.mem 3).timeout) :=
  ⟨by decide, table_nf2_timeout_refresh odd_handles sample_consts { flags := 1 } 1000
    aging_state 3 3 (by decide) (by decide) (by decide)⟩

/-- C19 (the code at the failing input): in `aging_state` the match-list is
3, 2, 1 and the flow at address 2 has no offload handle, 20 stored packets and
the deadline 5000; the sweep at time 1000 leaves it with the 30 packets
reported for the handle of the flow at address 3, which precedes it in the
match-list, and with the deadline 1500.  With the same flows linked in the
order 1, 2, 3 the flow at address 2 keeps 20 and 5000. -/
theorem table_nf2_timeout_stale_packet_count :
    aging_state.td.flows = [3, 2, 1] ∧
    (aging_state.mem 2).private_ = none ∧
    (aging_state.mem 2).packet_count = 20 ∧
    (aging_state.mem 2).timeout = 5000 ∧
    (aging_state.mem 3).private_ = some 3 ∧
    odd_handles.nf2_get_packet_count 3 = 30 ∧
    ((table_nf2_timeout odd_handles sample_consts { flags := 1 } 1000
      aging_state).s.mem 2).packet_count = 30 ∧
    ((table_nf2_timeout odd_handles sample_consts { flags := 1 } 1000
      aging_state).s.mem 2).timeout = 1500 ∧
    (insert_all odd_handles [3, 2, 1]
      { mem := aging_mem, td := table_nf2_create 32768 32 }).td.flows = [1, 2, 3] ∧
    ((table_nf2_timeout odd_handles sample_consts { flags := 1 } 1000
      (insert_all odd_handles [3, 2, 1]
        { mem := aging_mem, td := table_nf2_create 32768 32 })).s.mem 2).packet_count = 20 ∧
    ((table_nf2_timeout odd_handles sample_consts { flags := 1 } 1000
      (insert_all odd_handles [3, 2, 1]
        { mem := aging_mem, td := table_nf2_create 32768 32 })).s.mem 2).timeout = 5000 := by
  refine ⟨by decide, by decide, by decide, by decide, by decide, by decide, by decide,
    by decide, by decide, by decide, by decide⟩

/-! ## Timeout: eviction -/

theorem time_after_refreshed (j d : Nat) (hd : d < 2 ^ 63) :
    time_after j ((j + d) % 2 ^ 64) = false := by
  unfold time_after
  norm_num at hd ⊢
  omega

theorem timeout_refreshed_stays_fresh (nf : nf2_offload) (c : nf2_consts) (j : Nat)
    (acc : timeout_acc) (a : Nat)
    (hb : c.HZ * (acc.s.mem a).max_idle < 2 ^ 63)
    (hT : flow_timeout c j (acc.s.mem a) = false) :
    flow_timeout c j ((timeout_refreshed nf c j acc a).mem a) = false := by
  unfold timeout_refreshed timeout_refresh
  simp only []
  split
  · rename_i hc
    simp only [set_refreshed, Function.update_same, flow_timeout, hc.2, if_false]
    exact time_after_refreshed j _ hb
  · exact hT

theorem timeout_loop_stays_fresh (nf : nf2_offload) (c : nf2_consts) (dp : datapath)
    (j : Nat) (l : List Nat) :
    ∀ acc : timeout_acc, l.Nodup → ∀ f ∈ l, c.HZ * (acc.s.mem f).max_idle < 2 ^ 63 →
      flow_timeout c j (acc.s.mem f) = false →
      flow_timeout c j ((timeout_loop nf c dp j l acc).s.mem f) = false := by
  induction l with
  | nil => intro acc _ f hf; simp at hf
  | cons a rest ih =>
    intro acc hnd f hf hb hT
    have hnd' : rest.Nodup := (List.nodup_cons.mp hnd).2
    have ha : a ∉ rest := (List.nodup_cons.mp hnd).1
    have hR : timeout_loop nf c dp j (a :: rest) acc =
        timeout_loop nf c dp j rest (timeout_step nf c dp j acc a) := rfl
    rw [hR]
    rcases List.mem_cons.mp hf with rfl | hf
    · rw [(timeout_loop_frame nf c dp j rest (timeout_step nf c dp j acc f)).1 f ha,
        (timeout_step_at nf c dp j acc f).2.2.1]
      exact timeout_refreshed_stays_fresh nf c j acc f hb hT
    · have hfa : f ≠ a := fun e => ha (e ▸ hf)
      have hsame := timeout_step_other nf c dp j acc a f hfa
      exact ih (timeout_step nf c dp j acc a) hnd' f hf (by rw [hsame]; exact hb)
        (by rw [hsame]; exact hT)

/-- C14 (with `flow_timeout` as the spec describes it): when
`table_nf2_timeout` is run twice in immediate succession, with the same time
and the same counter readings, the second run evicts no entry and leaves the
match-list, the iteration-list and the live-flow counter as the first run
left them.  (Idle times are below half the range of the clock.) -/
theorem table_nf2_timeout_idempotent (nf : nf2_offload) (c : nf2_consts) (dp : datapath)
    (j : Nat) (s : nf2_state)
    (hnd : s.td.flows.Nodup)
    (hidle : ∀ f ∈ s.td.flows, c.HZ * (s.mem f).max_idle < 2 ^ 63) :
    (table_nf2_timeout nf c dp j (table_nf2_timeout nf c dp j s).s).del_count = 0 ∧
    (table_nf2_timeout nf c dp j (table_nf2_timeout nf c dp j s).s).s.td.flows =
      (table_nf2_timeout nf c dp j s).s.td.flows ∧
    (table_nf2_timeout nf c dp j (table_nf2_timeout nf c dp j s).s).s.td.iter_flows =
      (table_nf2_timeout nf c dp j s).s.td.iter_flows ∧
    (table_nf2_timeout nf c dp j (table_nf2_timeout nf c dp j s).s).s.td.n_flows =
      (table_nf2_timeout nf c dp j s).s.td.n_flows := by
  -- the first run
  obtain ⟨-, hmem, hfl, -, -, -, -⟩ := table_nf2_timeout_fields nf c dp j s
  obtain ⟨h1, -, -, h4⟩ := timeout_loop_spec nf c dp j s.td.flows (timeout_start s) hnd
  obtain ⟨-, hframe, -, -⟩ := timeout_loop_frame nf c dp j s.td.flows (timeout_start s)
  have hstart : (timeout_start s).s = s := rfl
  rw [hstart] at h1 h4 hframe
  rw [← hmem] at h1 h4 hframe
  rw [← hfl] at h1
  have hnd1 : (table_nf2_timeout nf c dp j s).s.td.flows.Nodup := by
    rw [h1]; exact hnd.diff
  -- the entries the first run has left are not timed out, or are marked deleted
  have hkept : ∀ f ∈ (table_nf2_timeout nf c dp j s).s.td.flows,
      f ∈ s.td.flows ∧
      (((table_nf2_timeout nf c dp j s).s.mem f).deleted = false →
        flow_timeout c j ((table_nf2_timeout nf c dp j s).s.mem f) = false) := by
    intro f hf
    have hfs : f ∈ s.td.flows := by
      rw [h1] at hf
      exact (hnd.mem_diff_iff.mp hf).1
    refine ⟨hfs, fun hd => ?_⟩
    have := h4 f hfs
    rw [hd] at this
    have h5 : ((s.mem f).deleted ||
        flow_timeout c j ((table_nf2_timeout nf c dp j s).s.mem f)) = false := this.symm
    simp only [Bool.or_eq_false_iff] at h5
    exact h5.2
  -- the second run
  obtain ⟨hdc2, hmem2, hfl2, hil2, hn2, -, -⟩ :=
    table_nf2_timeout_fields nf c dp j (table_nf2_timeout nf c dp j s).s
  obtain ⟨g1, g2, g3, -⟩ := timeout_loop_spec nf c dp j
    (table_nf2_timeout nf c dp j s).s.td.flows
    (timeout_start (table_nf2_timeout nf c dp j s).s) hnd1
  obtain ⟨-, -, gn, -⟩ := timeout_loop_frame nf c dp j
    (table_nf2_timeout nf c dp j s).s.td.flows
    (timeout_start (table_nf2_timeout nf c dp j s).s)
  have hstart2 : (timeout_start (table_nf2_timeout nf c dp j s).s).s =
      (table_nf2_timeout nf c dp j s).s := rfl
  have hzero2 : (timeout_start (table_nf2_timeout nf c dp j s).s).del_count = 0 := rfl
  rw [hstart2] at g1 g2 g3 gn
  rw [hzero2, zero_add] at g3
  have hnil : (table_nf2_timeout nf c dp j s).s.td.flows.filter (fun f =>
        flow_timeout c j ((timeout_loop nf c dp j (table_nf2_timeout nf c dp j s).s.td.flows
          (timeout_start (table_nf2_timeout nf c dp j s).s)).s.mem f)
          && !((table_nf2_timeout nf c dp j s).s.mem f).deleted) = [] := by
    rw [List.filter_eq_nil_iff]
    intro f hf
    obtain ⟨hfs, hfresh⟩ := hkept f hf
    by_cases hd : ((table_nf2_timeout nf c dp j s).s.mem f).deleted = true
    · simp [hd]
    · have hd0 : ((table_nf2_timeout nf c dp j s).s.mem f).deleted = false := by simpa using hd
      have hT2 := timeout_loop_stays_fresh nf c dp j (table_nf2_timeout nf c dp j s).s.td.flows
        (timeout_start (table_nf2_timeout nf c dp j s).s) hnd1 f hf
        (by rw [hstart2, (hframe f).2.2.2.1]; exact hidle f hfs)
        (by rw [hstart2]; exact hfresh hd0)
      simp [hT2]
  rw [hnil] at g1 g2 g3
  simp only [List.diff_nil, List.length_nil, Int.ofNat_zero] at g1 g2 g3
  refine ⟨?_, ?_, ?_, ?_⟩
  · rw [hdc2]; exact g3
  · rw [hfl2]; exact g1
  · rw [hil2]; exact g2
  · rw [hn2, gn, g3, sub_zero]

/-- Two sweeps of `aging_state` at time 6000: the first evicts the flow at
address 1, the second evicts nothing. -/
theorem table_nf2_timeout_idempotent_witness :
    ((table_nf2_timeout odd_handles sample_consts { flags := 1 } 6000
        aging_state).del_count = 1 ∧
      (table_nf2_timeout odd_handles sample_consts { flags := 1 } 6000
        aging_state).s.td.flows = [3, 2]) ∧
    (table_nf2_timeout odd_handles sample_consts { flags := 1 } 6000
      (table_nf2_timeout odd_handles sample_consts { flags := 1 } 6000
        aging_state).s).del_count = 0 ∧
    (table_nf2_timeout odd_handles sample_consts { flags := 1 } 6000
      (table_nf2_timeout odd_handles sample_consts { flags := 1 } 6000
        aging_state).s).s.td.flows =
      (table_nf2_timeout odd_handles sample_consts { flags := 1 } 6000
        aging_state).s.td.flows ∧
    (table_nf2_timeout odd_handles sample_consts { flags := 1 } 6000
      (table_nf2_timeout odd_handles sample_consts { flags := 1 } 6000
        aging_state).s).s.td.iter_flows =
      (table_nf2_timeout odd_handles sample_consts { flags := 1 } 6000
        aging_state).s.td.iter_flows ∧
    (table_nf2_timeout odd_handles sample_consts { flags := 1 } 6000
      (table_nf2_timeout odd_handles sample_consts { flags := 1 } 6000
        aging_state).s).s.td.n_flows =
      (table_nf2_timeout odd_handles sample_consts { flags := 1 } 6000
        aging_state).s.td.n_flows :=
  ⟨by decide, table_nf2_timeout_idempotent odd_handles sample_consts { flags := 1 } 6000
    aging_state (by decide) (by decide)⟩

/-! ## Timeout: expiration notifications -/

theorem timeout_add_bytes_self (nf : nf2_offload) (mem : flow_mem) (a : Nat) :
    (timeout_add_bytes nf mem a (mem a).private_ a).byte_count =
      expired_byte_count nf (mem a) := by
  unfold expired_byte_count
  cases h : (mem a).private_ with
  | none => simp [timeout_add_bytes]
  | some x => simp [timeout_add_bytes]

theorem timeout_notify_off (nf : nf2_offload) (c : nf2_consts) (dp : datapath)
    (s : nf2_state) (a : Nat) (sfw : Option Nat) (sent : List flow_expired)
    (hoff : dp.flags &&& c.OFPC_SEND_FLOW_EXP = 0) :
    timeout_notify nf c dp s a sfw sent = (s, sent) := by
  simp [timeout_notify, hoff]

theorem timeout_notify_on (nf : nf2_offload) (c : nf2_consts) (dp : datapath)
    (s : nf2_state) (a : Nat) (sfw : Option Nat) (sent : List flow_expired)
    (hon : dp.flags &&& c.OFPC_SEND_FLOW_EXP ≠ 0) :
    (timeout_notify nf c dp s a sfw sent).1.mem = timeout_add_bytes nf s.mem a sfw ∧
    (timeout_notify nf c dp s a sfw sent).2 =
      sent ++ [{ flow := a, snapshot := timeout_add_bytes nf s.mem a sfw a,
                 linked := decide (a ∈ s.td.flows) }] := by
  simp [timeout_notify, hon]

theorem timeout_step_sent_off (nf : nf2_offload) (c : nf2_consts) (dp : datapath)
    (j : Nat) (acc : timeout_acc) (a : Nat)
    (hoff : dp.flags &&& c.OFPC_SEND_FLOW_EXP = 0) :
    (timeout_step nf c dp j acc a).sent = acc.sent ∧
    ∀ f, ((timeout_step nf c dp j acc a).s.mem f).byte_count = (acc.s.mem f).byte_count := by
  by_cases hT : flow_timeout c j ((timeout_refreshed nf c j acc a).mem a) = true
  · rw [timeout_step_expired_case nf c dp j acc a hT, timeout_notify_off _ _ _ _ _ _ _ hoff]
    refine ⟨rfl, fun f => ?_⟩
    rw [(do_delete_aging _ a f).2.2.2.1]
    exact (timeout_refreshed_frame nf c j acc a f).2.2.2.2.2.1
  · rw [timeout_step_kept_case nf c dp j acc a (by simpa using hT)]
    exact ⟨rfl, fun f => (timeout_refreshed_frame nf c j acc a f).2.2.2.2.2.1⟩

theorem timeout_step_sent_on (nf : nf2_offload) (c : nf2_consts) (dp : datapath)
    (j : Nat) (acc : timeout_acc) (a : Nat)
    (hon : dp.flags &&& c.OFPC_SEND_FLOW_EXP ≠ 0) :
    (flow_timeout c j ((timeout_step nf c dp j acc a).s.mem a) = false →
      (timeout_step nf c dp j acc a).sent = acc.sent) ∧
    (flow_timeout c j ((timeout_step nf c dp j acc a).s.mem a) = true →
      ∃ m, (timeout_step nf c dp j acc a).sent = acc.sent ++ [m] ∧ m.flow = a ∧
        expired_sent_ok nf acc.s.mem acc.s.td.flows (timeout_step nf c dp j acc a).s.mem m) := by
  obtain ⟨-, hpc, hexp, -⟩ := timeout_step_at nf c dp j acc a
  rw [hexp]
  constructor
  · intro hF
    rw [timeout_step_kept_case nf c dp j acc a hF]
  · intro hT
    obtain ⟨n1, n2⟩ := timeout_notify_on nf c dp (timeout_refreshed nf c j acc a) a
      (acc.s.mem a).private_ acc.sent hon
    obtain ⟨-, -, -, -, r5, r6, r7, -⟩ := timeout_refreshed_frame nf c j acc a a
    have hstep := timeout_step_expired_case nf c dp j acc a hT
    refine ⟨flow_expired.mk a
      (timeout_add_bytes nf (timeout_refreshed nf c j acc a).mem a (acc.s.mem a).private_ a)
      (decide (a ∈ (timeout_refreshed nf c j acc a).td.flows)), ?_, rfl, ?_⟩
    · rw [hstep]
      exact n2
    · have hb := timeout_add_bytes_self nf (timeout_refreshed nf c j acc a).mem a
      rw [r5] at hb
      obtain ⟨-, -, -, -, -, a6, a7, a8, -⟩ := timeout_add_bytes_frame nf
        (timeout_refreshed nf c j acc a).mem a (acc.s.mem a).private_ a
      refine ⟨rfl, ?_, ?_, ?_, ?_, ?_⟩
      · show (timeout_add_bytes nf _ a _ a).deleted = _
        rw [a8, r7]
      · show (timeout_add_bytes nf _ a _ a).private_ = _
        rw [a7, r5]
      · show (timeout_add_bytes nf _ a _ a).byte_count = _
        rw [hb]
        unfold expired_byte_count
        rw [r5, r6]
      · show (timeout_add_bytes nf _ a _ a).packet_count = _
        rw [a6, hpc]
      · show _ = (timeout_add_bytes nf _ a _ a).byte_count
        rw [hstep]
        show ((do_delete _ a).2.mem a).byte_count = _
        rw [(do_delete_aging _ a a).2.2.2.1, n1]

theorem timeout_loop_sent_off (nf : nf2_offload) (c : nf2_consts) (dp : datapath) (j : Nat)
    (hoff : dp.flags &&& c.OFPC_SEND_FLOW_EXP = 0) (l : List Nat) :
    ∀ acc : timeout_acc,
      (timeout_loop nf c dp j l acc).sent = acc.sent ∧
      ∀ f, ((timeout_loop nf c dp j l acc).s.mem f).byte_count = (acc.s.mem f).byte_count := by
  induction l with
  | nil => intro acc; simp [timeout_loop]
  | cons a rest ih =>
    intro acc
    obtain ⟨h1, h2⟩ := ih (timeout_step nf c dp j acc a)
    obtain ⟨s1, s2⟩ := timeout_step_sent_off nf c dp j acc a hoff
    have hR : timeout_loop nf c dp j (a :: rest) acc =
        timeout_loop nf c dp j rest (timeout_step nf c dp j acc a) := rfl
    rw [hR]
    exact ⟨by rw [h1, s1], fun f => by rw [h2 f, s2 f]⟩

theorem timeout_loop_sent_on (nf : nf2_offload) (c : nf2_consts) (dp : datapath) (j : Nat)
    (hon : dp.flags &&& c.OFPC_SEND_FLOW_EXP ≠ 0) (l : List Nat) :
    ∀ acc : timeout_acc, l.Nodup →
      ∃ new, (timeout_loop nf c dp j l acc).sent = acc.sent ++ new ∧
        new.map (fun m => m.flow) =
          l.filter (fun f => flow_timeout c j ((timeout_loop nf c dp j l acc).s.mem f)) ∧
        ∀ m ∈ new, expired_sent_ok nf acc.s.mem acc.s.td.flows
          (timeout_loop nf c dp j l acc).s.mem m := by
  induction l with
  | nil => intro acc _; exact ⟨[], by simp [timeout_loop]⟩
  | cons a rest ih =>
    intro acc hnd
    have hnd' : rest.Nodup := (List.nodup_cons.mp hnd).2
    have ha : a ∉ rest := (List.nodup_cons.mp hnd).1
    obtain ⟨new1, hs1, hmap1, hok1⟩ := ih (timeout_step nf c dp j acc a) hnd'
    obtain ⟨soff, son⟩ := timeout_step_sent_on nf c dp j acc a hon
    obtain ⟨-, -, t3, -, -⟩ := timeout_step_td nf c dp j acc a
    have hfr := (timeout_loop_frame nf c dp j rest (timeout_step nf c dp j acc a)).1 a ha
    have hR : timeout_loop nf c dp j (a :: rest) acc =
        timeout_loop nf c dp j rest (timeout_step nf c dp j acc a) := rfl
    rw [hR]
    -- the notifications of the later entries, read against the state before `a`
    have hok1' : ∀ m ∈ new1, expired_sent_ok nf acc.s.mem acc.s.td.flows
        (timeout_loop nf c dp j rest (timeout_step nf c dp j acc a)).s.mem m := by
      intro m hm
      have hmr : m.flow ∈ rest := by
        have : m.flow ∈ new1.map (fun m => m.flow) := List.mem_map_of_mem _ hm
        rw [hmap1] at this
        exact (List.mem_filter.mp this).1
      have hma : m.flow ≠ a := fun e => ha (e ▸ hmr)
      obtain ⟨o1, o2, o3, o4, o5, o6⟩ := hok1 m hm
      have hmemeq := timeout_step_other nf c dp j acc a m.flow hma
      have hlinked : decide (m.flow ∈ (timeout_step nf c dp j acc a).s.td.flows) =
          decide (m.flow ∈ acc.s.td.flows) := by
        rw [t3]
        split
        · rw [decide_eq_decide]
          exact List.mem_erase_of_ne hma
        · rfl
      rw [hmemeq] at o2 o3 o4
      rw [hlinked] at o1
      exact ⟨o1, o2, o3, o4, o5, o6⟩
    by_cases hT : flow_timeout c j ((timeout_step nf c dp j acc a).s.mem a) = true
    · obtain ⟨m0, hs0, hm0, ok0⟩ := son hT
      refine ⟨m0 :: new1, ?_, ?_, ?_⟩
      · rw [hs1, hs0]; simp
      · rw [List.map_cons, hmap1, hm0, List.filter_cons, hfr, hT]
        simp
      · intro m hm
        rcases List.mem_cons.mp hm with rfl | hm
        · obtain ⟨o1, o2, o3, o4, o5, o6⟩ := ok0
          have hfr' : (timeout_loop nf c dp j rest (timeout_step nf c dp j acc a)).s.mem m.flow =
              (timeout_step nf c dp j acc a).s.mem m.flow := by
            rw [hm0]; exact hfr
          refine ⟨o1, o2, o3, o4, ?_, ?_⟩
          · rw [hfr']; exact o5
          · rw [hfr']; exact o6
        · exact hok1' m hm
    · have hF : flow_timeout c j ((timeout_step nf c dp j acc a).s.mem a) = false := by
        simpa using hT
      refine ⟨new1, ?_, ?_, hok1'⟩
      · rw [hs1, soff hF]
      · rw [hmap1, List.filter_cons, hfr, hF]
        simp

/-- C20: on a well-formed table, when `dp->flags & OFPC_SEND_FLOW_EXP` is set,
`table_nf2_timeout` calls `dp_send_flow_expired` exactly once for each entry
it evicts, in list order, and for no other entry; at the call the entry is
still linked, not yet marked deleted and still holds its offload handle, and
the record sent carries the stored byte count increased by the byte count
reported for the entry's handle (the stored count itself for an entry without
a handle).  When the flag is not set, nothing is sent and no byte count is
changed. -/
theorem table_nf2_timeout_notifies (nf : nf2_offload) (c : nf2_consts) (dp : datapath)
    (j : Nat) (s : nf2_state)
    (hnd : s.td.flows.Nodup)
    (hlive : ∀ f ∈ s.td.flows, (s.mem f).deleted = false) :
    (dp.flags &&& c.OFPC_SEND_FLOW_EXP = 0 →
      (table_nf2_timeout nf c dp j s).sent = [] ∧
      ∀ f, ((table_nf2_timeout nf c dp j s).s.mem f).byte_count = (s.mem f).byte_count) ∧
    (dp.flags &&& c.OFPC_SEND_FLOW_EXP ≠ 0 →
      (table_nf2_timeout nf c dp j s).sent.map (fun m => m.flow) =
        s.td.flows.filter (fun f => decide (f ∉ (table_nf2_timeout nf c dp j s).s.td.flows)) ∧
      ((table_nf2_timeout nf c dp j s).sent.map (fun m => m.flow)).Nodup ∧
      ((table_nf2_timeout nf c dp j s).sent.length : Int) =
        (table_nf2_timeout nf c dp j s).del_count ∧
      ∀ m ∈ (table_nf2_timeout nf c dp j s).sent,
        m.flow ∈ s.td.flows ∧
        m.flow ∉ (table_nf2_timeout nf c dp j s).s.td.flows ∧
        m.linked = true ∧
        m.snapshot.deleted = false ∧
        m.snapshot.private_ = (s.mem m.flow).private_ ∧
        (∀ h, (s.mem m.flow).private_ = some h →
          m.snapshot.byte_count =
            ((s.mem m.flow).byte_count + nf.nf2_get_byte_count h) % 2 ^ 64 ∧
          ((s.mem m.flow).byte_count + nf.nf2_get_byte_count h < 2 ^ 64 →
            m.snapshot.byte_count = (s.mem m.flow).byte_count + nf.nf2_get_byte_count h)) ∧
        ((s.mem m.flow).private_ = none → m.snapshot.byte_count = (s.mem m.flow).byte_count) ∧
        m.snapshot.packet_count =
          ((table_nf2_timeout nf c dp j s).s.mem m.flow).packet_count ∧
        ((table_nf2_timeout nf c dp j s).s.mem m.flow).byte_count = m.snapshot.byte_count) := by
  obtain ⟨hdc, hmem, hfl, -, -, -, hsent⟩ := table_nf2_timeout_fields nf c dp j s
  have hstart : (timeout_start s).s = s := rfl
  have hsent0 : (timeout_start s).sent = [] := rfl
  have hzero : (timeout_start s).del_count = 0 := rfl
  constructor
  · intro hoff
    obtain ⟨h1, h2⟩ := timeout_loop_sent_off nf c dp j hoff s.td.flows (timeout_start s)
    rw [hsent, hmem, h1]
    exact ⟨rfl, h2⟩
  · intro hon
    obtain ⟨new, hs, hmap, hok⟩ :=
      timeout_loop_sent_on nf c dp j hon s.td.flows (timeout_start s) hnd
    obtain ⟨h1, -, h3, -⟩ := timeout_loop_spec nf c dp j s.td.flows (timeout_start s) hnd
    rw [hstart] at h1 h3 hok
    rw [hsent0, List.nil_append] at hs
    rw [hzero, zero_add] at h3
    have hL : s.td.flows.filter (fun f =>
          flow_timeout c j ((timeout_loop nf c dp j s.td.flows (timeout_start s)).s.mem f)
            && !(s.mem f).deleted) =
        s.td.flows.filter (fun f =>
          flow_timeout c j ((timeout_loop nf c dp j s.td.flows (timeout_start s)).s.mem f)) := by
      apply List.filter_congr
      intro f hf
      simp [hlive f hf]
    rw [hL] at h1 h3
    rw [hsent, hs, hmem, hfl, hdc]
    have hin : ∀ f, f ∈ (timeout_loop nf c dp j s.td.flows (timeout_start s)).s.td.flows ↔
        f ∈ s.td.flows ∧ f ∉ s.td.flows.filter (fun f =>
          flow_timeout c j ((timeout_loop nf c dp j s.td.flows (timeout_start s)).s.mem f)) := by
      intro f
      rw [h1]
      exact hnd.mem_diff_iff
    refine ⟨?_, ?_, ?_, ?_⟩
    · rw [hmap]
      apply List.filter_congr
      intro f hf
      rw [Bool.eq_iff_iff, decide_eq_true_iff, hin f]
      simp [List.mem_filter, hf]
    · rw [hmap]
      exact hnd.filter _
    · rw [h3, ← hmap, List.length_map]
    · intro m hm
      obtain ⟨o1, o2, o3, o4, o5, o6⟩ := hok m hm
      have hmL : m.flow ∈ s.td.flows.filter (fun f =>
          flow_timeout c j ((timeout_loop nf c dp j s.td.flows (timeout_start s)).s.mem f)) := by
        rw [← hmap]
        exact List.mem_map_of_mem (fun m => m.flow) hm
      have hmf : m.flow ∈ s.td.flows := (List.mem_filter.mp hmL).1
      refine ⟨hmf, ?_, ?_, ?_, o3, ?_, ?_, o5, o6⟩
      · intro hmem'
        exact ((hin m.flow).mp hmem').2 hmL
      · rw [o1]
        simp [hmf]
      · rw [o2]
        exact hlive m.flow hmf
      · intro h hp
        have hb : m.snapshot.byte_count =
            ((s.mem m.flow).byte_count + nf.nf2_get_byte_count h) % 2 ^ 64 := by
          rw [o4]
          simp [expired_byte_count, hp]
        exact ⟨hb, fun hlt => by rw [hb, Nat.mod_eq_of_lt hlt]⟩
      · intro hp
        rw [o4]
        simp [expired_byte_count, hp]

/-- The sweep of `aging_state` at time 6000: with the flag set, one
notification is sent, for the evicted flow at address 1, with the byte count
7 + 100; with the flag clear, none is sent and the byte count stays 7. -/
theorem table_nf2_timeout_notifies_witness :
    ((table_nf2_timeout odd_handles sample_consts { flags := 1 } 6000
        aging_state).sent.map (fun m => (m.flow, m.snapshot.byte_count, m.linked)) =
        [(1, 107, true)] ∧
      (table_nf2_timeout odd_handles sample_consts { flags := 1 } 6000
        aging_state).s.td.flows = [3, 2] ∧
      (table_nf2_timeout odd_handles sample_consts { flags := 0 } 6000
        aging_state).sent = [] ∧
      ((table_nf2_timeout odd_handles sample_consts { flags := 0 } 6000
        aging_state).s.mem 1).byte_count = 7) ∧
    (((1 : Nat) &&& sample_consts.OFPC_SEND_FLOW_EXP = 0 →
      (table_nf2_timeout odd_handles sample_consts { flags := 1 } 6000 aging_state).sent = [] ∧
      ∀ f, ((table_nf2_timeout odd_handles sample_consts { flags := 1 } 6000
        aging_state).s.mem f).byte_count = (aging_state.mem f).byte_count) ∧
    ((1 : Nat) &&& sample_consts.OFPC_SEND_FLOW_EXP ≠ 0 →
      (table_nf2_timeout odd_handles sample_consts { flags := 1 } 6000
          aging_state).sent.map (fun m => m.flow) =
        aging_state.td.flows.filter (fun f => decide (f ∉ (table_nf2_timeout odd_handles
          sample_consts { flags := 1 } 6000 aging_state).s.td.flows)) ∧
      ((table_nf2_timeout odd_handles sample_consts { flags := 1 } 6000
          aging_state).sent.map (fun m => m.flow)).Nodup ∧
      ((table_nf2_timeout odd_handles sample_consts { flags := 1 } 6000
          aging_state).sent.length : Int) =
        (table_nf2_timeout odd_handles sample_consts { flags := 1 } 6000
          aging_state).del_count ∧
      ∀ m ∈ (table_nf2_timeout odd_handles sample_consts { flags := 1 } 6000 aging_state).sent,
        m.flow ∈ aging_state.td.flows ∧
        m.flow ∉ (table_nf2_timeout odd_handles sample_consts { flags := 1 } 6000
          aging_state).s.td.flows ∧
        m.linked = true ∧
        m.snapshot.deleted = false ∧
        m.snapshot.private_ = (aging_state.mem m.flow).private_ ∧
        (∀ h, (aging_state.mem m.flow).private_ = some h →
          m.snapshot.byte_count =
            ((aging_state.mem m.flow).byte_count + odd_handles.nf2_get_byte_count h) % 2 ^ 64 ∧
          ((aging_state.mem m.flow).byte_count + odd_handles.nf2_get_byte_count h < 2 ^ 64 →
            m.snapshot.byte_count =
              (aging_state.mem m.flow).byte_count + odd_handles.nf2_get_byte_count h)) ∧
        ((aging_state.mem m.flow).private_ = none →
          m.snapshot.byte_count = (aging_state.mem m.flow).byte_count) ∧
        m.snapshot.packet_count =
          ((table_nf2_timeout odd_handles sample_consts { flags := 1 } 6000
            aging_state).s.mem m.flow).packet_count ∧
        ((table_nf2_timeout odd_handles sample_consts { flags := 1 } 6000
          aging_state).s.mem m.flow).byte_count = m.snapshot.byte_count)) :=
  ⟨by decide, table_nf2_timeout_notifies odd_handles sample_consts { flags := 1 } 6000
    aging_state (by decide) (by decide)⟩

/-! ## Exact matching is an equivalence -/

theorem field_matches_iff (w bit a b : Nat) :
    field_matches w bit a b = true ↔ (w.testBit bit = true ∨ a = b) := by
  simp [field_matches]

theorem flow_matches_iff (t d : sw_flow_key) :
    flow_matches t d = true ↔
      ((t.wildcards.testBit 0 = true ∨ t.in_port = d.in_port) ∧
       (t.wildcards.testBit 1 = true ∨ t.dl_vlan = d.dl_vlan) ∧
       (t.wildcards.testBit 2 = true ∨ t.dl_src = d.dl_src) ∧
       (t.wildcards.testBit 3 = true ∨ t.dl_dst = d.dl_dst) ∧
       (t.wildcards.testBit 4 = true ∨ t.dl_type = d.dl_type) ∧
       (t.wildcards.testBit 5 = true ∨ t.nw_src = d.nw_src) ∧
       (t.wildcards.testBit 6 = true ∨ t.nw_dst = d.nw_dst) ∧
       (t.wildcards.testBit 7 = true ∨ t.nw_proto = d.nw_proto) ∧
       (t.wildcards.testBit 8 = true ∨ t.tp_src = d.tp_src) ∧
       (t.wildcards.testBit 9 = true ∨ t.tp_dst = d.tp_dst)) := by
  unfold flow_matches
  simp only [Bool.and_eq_true, field_matches_iff, and_assoc]

theorem exact_match_iff (a b : sw_flow_key) :
    exact_match a b = true ↔ (a.wildcards = b.wildcards ∧ flow_matches a b = true) := by
  simp [exact_match]

theorem exact_match_refl (a : sw_flow_key) : exact_match a a = true := by
  rw [exact_match_iff]
  exact ⟨rfl, flow_matches_self a⟩

theorem exact_match_symm (a b : sw_flow_key) (h : exact_match a b = true) :
    exact_match b a = true := by
  rw [exact_match_iff, flow_matches_iff] at h ⊢
  obtain ⟨hw, h0, h1, h2, h3, h4, h5, h6, h7, h8, h9⟩ := h
  rw [← hw]
  exact ⟨rfl, h0.imp id Eq.symm, h1.imp id Eq.symm, h2.imp id Eq.symm, h3.imp id Eq.symm,
    h4.imp id Eq.symm, h5.imp id Eq.symm, h6.imp id Eq.symm, h7.imp id Eq.symm,
    h8.imp id Eq.symm, h9.imp id Eq.symm⟩

theorem or_eq_trans {p : Prop} {x y z : Nat} (h1 : p ∨ x = y) (h2 : p ∨ y = z) : p ∨ x = z := by
  rcases h1 with h | h
  · exact Or.inl h
  · rcases h2 with h' | h'
    · exact Or.inl h'
    · exact Or.inr (h.trans h')

theorem exact_match_trans (a b c : sw_flow_key) (h : exact_match a b = true)
    (h' : exact_match b c = true) : exact_match a c = true := by
  rw [exact_match_iff, flow_matches_iff] at h h' ⊢
  obtain ⟨hw, h0, h1, h2, h3, h4, h5, h6, h7, h8, h9⟩ := h
  obtain ⟨hw', g0, g1, g2, g3, g4, g5, g6, g7, g8, g9⟩ := h'
  rw [← hw] at g0 g1 g2 g3 g4 g5 g6 g7 g8 g9
  exact ⟨hw.trans hw', or_eq_trans h0 g0, or_eq_trans h1 g1, or_eq_trans h2 g2,
    or_eq_trans h3 g3, or_eq_trans h4 g4, or_eq_trans h5 g5, or_eq_trans h6 g6,
    or_eq_trans h7 g7, or_eq_trans h8 g8, or_eq_trans h9 g9⟩

theorem exact_match_false_symm (a b : sw_flow_key) (h : exact_match a b = false) :
    exact_match b a = false := by
  by_contra hc
  have := exact_match_symm b a (by simpa using hc)
  rw [h] at this
  exact absurd this (by simp)

/-! ## The invariant of the reachable states -/

theorem table_inv_create (mem : flow_mem) (exact_size wildcard_size : Nat) :
    table_inv { mem := mem, td := table_nf2_create exact_size wildcard_size } := by
  simp [table_inv, table_nf2_create]

theorem table_inv_alloc (s : nf2_state) (F : Nat) (r : sw_flow) (hinv : table_inv s)
    (hF : F ∉ s.td.flows) : table_inv (alloc_flow s F r) := by
  obtain ⟨h1, h2, h3, h4, h5⟩ := hinv
  have hsame : ∀ f ∈ s.td.flows, (alloc_flow s F r).mem f = s.mem f := by
    intro f hf
    have hne : f ≠ F := fun e => hF (e ▸ hf)
    simp [alloc_flow, Function.update_noteq hne]
  refine ⟨h1, h2, ?_, h4, ?_⟩
  · intro f hf
    rw [hsame f hf]
    exact h3 f hf
  · intro x hx y hy hxy
    rw [hsame x hx, hsame y hy]
    exact h5 x hx y hy hxy

theorem table_nf2_insert_rejected (nf : nf2_offload) (s : nf2_state) (F : Nat)
    (h : nf.nf2_are_actions_supported (s.mem F) = 0 ∨
      (nf.nf2_build_and_write_flow (s.mem F)).1 ≠ 0) :
    (table_nf2_insert nf s F).2.td = s.td ∧
    ∀ f, ((table_nf2_insert nf s F).2.mem f).key = (s.mem f).key ∧
      ((table_nf2_insert nf s F).2.mem f).deleted = (s.mem f).deleted := by
  unfold table_nf2_insert
  by_cases hs : nf.nf2_are_actions_supported (s.mem F) = 0
  · simp [hs]
  · have hw : (nf.nf2_build_and_write_flow (s.mem F)).1 ≠ 0 := by
      rcases h with h | h
      · exact absurd h hs
      · exact h
    simp only [ne_eq, hs, not_false_eq_true, if_true, hw]
    exact ⟨trivial, fun f => ⟨set_private_key _ _ _ _, set_private_deleted _ _ _ _⟩⟩

theorem table_inv_insert (nf : nf2_offload) (s : nf2_state) (F : Nat) (hinv : table_inv s)
    (hF : F ∉ s.td.flows) (hlive : (s.mem F).deleted = false) :
    table_inv (table_nf2_insert nf s F).2 := by
  obtain ⟨h1, h2, h3, h4, h5⟩ := hinv
  by_cases hacc : nf.nf2_are_actions_supported (s.mem F) ≠ 0 ∧
      (nf.nf2_build_and_write_flow (s.mem F)).1 = 0
  swap
  · have hrej : nf.nf2_are_actions_supported (s.mem F) = 0 ∨
        (nf.nf2_build_and_write_flow (s.mem F)).1 ≠ 0 := by
      by_cases hs : nf.nf2_are_actions_supported (s.mem F) = 0
      · exact Or.inl hs
      · exact Or.inr (fun hw => hacc ⟨hs, hw⟩)
    obtain ⟨htd, hmem⟩ := table_nf2_insert_rejected nf s F hrej
    refine ⟨by rw [htd]; exact h1, by rw [htd]; exact h2, ?_, by rw [htd]; exact h4, ?_⟩
    · intro f hf
      rw [htd] at hf
      rw [(hmem f).2]
      exact h3 f hf
    · intro x hx y hy hxy
      rw [htd] at hx hy
      rw [(hmem x).1, (hmem y).1]
      exact h5 x hx y hy hxy
  obtain ⟨-, -, hcase⟩ := table_nf2_insert_cases nf s F hacc.1 hacc.2
  rcases hcase with ⟨hnone, hfl, hil, hn, hmem⟩ |
    ⟨pre, E, post, hl, hE, -, hfl, hil, hn, hmem⟩
  · -- the flow is linked as a new entry
    have hkey : ∀ f, ((table_nf2_insert nf s F).2.mem f).key = (s.mem f).key := by
      intro f; rw [hmem]; exact set_private_key _ _ _ _
    have hdel : ∀ f, ((table_nf2_insert nf s F).2.mem f).deleted = (s.mem f).deleted := by
      intro f; rw [hmem]; exact set_private_deleted _ _ _ _
    have hno : ∀ y ∈ s.td.flows, exact_match (s.mem y).key (s.mem F).key = false := by
      intro y hy
      have := hnone y hy
      simpa [replaceable, h3 y hy] using this
    refine ⟨?_, ?_, ?_, ?_, ?_⟩
    · rw [hfl]; exact List.nodup_cons.mpr ⟨hF, h1⟩
    · rw [hfl, hil, h2]
    · intro f hf
      rw [hfl] at hf
      rw [hdel f]
      rcases List.mem_cons.mp hf with hfF | hf'
      · rw [hfF]; exact hlive
      · exact h3 f hf'
    · rw [hn, hfl, h4, List.length_cons]; push_cast; ring
    · intro x hx y hy hxy
      rw [hfl] at hx hy
      rw [hkey x, hkey y]
      rcases List.mem_cons.mp hx with hxF | hx'
      · rcases List.mem_cons.mp hy with hyF | hy'
        · exact absurd (hxF.trans hyF.symm) hxy
        · rw [hxF]
          exact exact_match_false_symm _ _ (hno y hy')
      · rcases List.mem_cons.mp hy with hyF | hy'
        · rw [hyF]
          exact hno x hx'
        · exact h5 x hx' y hy' hxy
  · -- the flow replaces the entry E
    have hEin : E ∈ s.td.flows := by rw [hl]; simp
    have hEF : E ≠ F := fun e => hF (e ▸ hEin)
    have hnd := h1
    rw [hl] at hnd
    have hEpre : E ∉ pre := fun h => (List.nodup_append.mp hnd).2.2 h (by simp)
    have hEpost : E ∉ post := (List.nodup_cons.mp (List.nodup_append.mp hnd).2.1).1
    have hrest : ∀ x, x ∈ pre ∨ x ∈ post → x ∈ s.td.flows ∧ x ≠ E ∧ x ≠ F := by
      intro x hx
      have hxin : x ∈ s.td.flows := by
        rw [hl]
        rcases hx with hx | hx
        · simp [hx]
        · simp [hx]
      refine ⟨hxin, ?_, fun e => hF (e ▸ hxin)⟩
      rintro rfl
      rcases hx with hx | hx
      · exact hEpre hx
      · exact hEpost hx
    have hfl' : (table_nf2_insert nf s F).2.td.flows = pre ++ F :: post := by
      rw [hfl, hl]; exact list_replace_rcu_append E F pre post hEpre
    have hil' : (table_nf2_insert nf s F).2.td.iter_flows = pre ++ F :: post := by
      rw [hil, h2, hl]; exact list_replace_rcu_append E F pre post hEpre
    have hkey : ∀ f, ((table_nf2_insert nf s F).2.mem f).key = (s.mem f).key := by
      intro f; rw [hmem, set_deleted_key]; exact set_private_key _ _ _ _
    have hdel : ∀ f, f ≠ E → ((table_nf2_insert nf s F).2.mem f).deleted = (s.mem f).deleted := by
      intro f hf
      rw [hmem, set_deleted_other _ _ _ hf]
      exact set_private_deleted _ _ _ _
    have hEmatch : exact_match (s.mem E).key (s.mem F).key = true := by
      have := hE
      simp only [replaceable, Bool.and_eq_true] at this
      exact this.1
    have hmemiff : ∀ x, x ∈ pre ++ F :: post ↔ x = F ∨ x ∈ pre ∨ x ∈ post := by
      intro x
      simp only [List.mem_append, List.mem_cons]
      tauto
    refine ⟨?_, ?_, ?_, ?_, ?_⟩
    · rw [hfl']
      have h6 : (E :: (pre ++ post)).Nodup := List.nodup_middle.mp hnd
      have h7 : F ∉ pre ++ post := by
        intro hin
        rcases List.mem_append.mp hin with h | h
        · exact (hrest F (Or.inl h)).2.2 rfl
        · exact (hrest F (Or.inr h)).2.2 rfl
      exact List.nodup_middle.mpr (List.nodup_cons.mpr ⟨h7, (List.nodup_cons.mp h6).2⟩)
    · rw [hfl', hil']
    · intro f hf
      rw [hfl'] at hf
      rcases (hmemiff f).mp hf with hfF | hf'
      · rw [hfF, hdel F (Ne.symm hEF)]; exact hlive
      · obtain ⟨hfin, hfE, -⟩ := hrest f hf'
        rw [hdel f hfE]; exact h3 f hfin
    · rw [hn, hfl', h4, hl]
      simp
    · intro x hx y hy hxy
      rw [hfl'] at hx hy
      rw [hkey x, hkey y]
      rcases (hmemiff x).mp hx with hxF | hx'
      · rcases (hmemiff y).mp hy with hyF | hy'
        · exact absurd (hxF.trans hyF.symm) hxy
        · obtain ⟨hyin, hyE, -⟩ := hrest y hy'
          rw [hxF]
          by_contra hc
          have hFy : exact_match (s.mem F).key (s.mem y).key = true := by simpa using hc
          have := exact_match_trans _ _ _ hEmatch hFy
          rw [h5 E hEin y hyin (Ne.symm hyE)] at this
          exact absurd this (by simp)
      · obtain ⟨hxin, hxE, -⟩ := hrest x hx'
        rcases (hmemiff y).mp hy with hyF | hy'
        · rw [hyF]
          by_contra hc
          have hxF : exact_match (s.mem x).key (s.mem F).key = true := by simpa using hc
          have := exact_match_trans _ _ _ hxF (exact_match_symm _ _ hEmatch)
          rw [h5 x hxin E hEin hxE] at this
          exact absurd this (by simp)
        · obtain ⟨hyin, -, -⟩ := hrest y hy'
          exact h5 x hxin y hyin hxy

theorem table_inv_shrink (s s' : nf2_state) (L : List Nat) (hinv : table_inv s)
    (hfl : s'.td.flows = s.td.flows.diff L) (hil : s'.td.iter_flows = s.td.iter_flows.diff L)
    (hL : L.Nodup) (hsub : ∀ f ∈ L, f ∈ s.td.flows)
    (hn : s'.td.n_flows = s.td.n_flows - (L.length : Int))
    (hkey : ∀ f, (s'.mem f).key = (s.mem f).key)
    (hdel : ∀ f ∈ s.td.flows, f ∉ L → (s'.mem f).deleted = false) :
    table_inv s' := by
  obtain ⟨h1, h2, h3, h4, h5⟩ := hinv
  have hin : ∀ f, f ∈ s'.td.flows → f ∈ s.td.flows ∧ f ∉ L := by
    intro f hf
    rw [hfl] at hf
    exact h1.mem_diff_iff.mp hf
  have hlen := length_diff_of_subset L s.td.flows hL hsub
  refine ⟨?_, ?_, ?_, ?_, ?_⟩
  · rw [hfl]; exact h1.diff
  · rw [hil, hfl, h2]
  · intro f hf
    exact hdel f (hin f hf).1 (hin f hf).2
  · rw [hn, h4, hfl, ← hlen]
    push_cast
    ring
  · intro x hx y hy hxy
    rw [hkey x, hkey y]
    exact h5 x (hin x hx).1 y (hin y hy).1 hxy

theorem table_nf2_delete_mem (s : nf2_state) (key : sw_flow_key) (priority : Nat)
    (strict : Int) :
    (table_nf2_delete s key priority strict).2.mem =
      (delete_loop key priority strict s.td.flows (0, s)).2.mem := by
  unfold table_nf2_delete
  by_cases h : (delete_loop key priority strict s.td.flows (0, s)).1 = 0
  · simp [h]
  · simp [h]

theorem delete_loop_key (key : sw_flow_key) (priority : Nat) (strict : Int) (l : List Nat) :
    ∀ (count : Int) (s : nf2_state) (f : Nat),
      ((delete_loop key priority strict l (count, s)).2.mem f).key = (s.mem f).key := by
  induction l with
  | nil => intro count s f; rfl
  | cons a rest ih =>
    intro count s f
    by_cases hsel : delete_selects s.mem key priority strict a = true
    · simp only [delete_loop, hsel, if_true]
      rw [ih, (do_delete_mem s a f).1]
    · simp only [delete_loop, hsel, Bool.false_eq_true, if_false]
      exact ih count s f

theorem delete_loop_unselected (key : sw_flow_key) (priority : Nat) (strict : Int) (f : Nat)
    (l : List Nat) :
    ∀ (count : Int) (s : nf2_state), delete_selects s.mem key priority strict f = false →
      (delete_loop key priority strict l (count, s)).2.mem f = s.mem f := by
  induction l with
  | nil => intro count s _; rfl
  | cons a rest ih =>
    intro count s hf
    by_cases hsel : delete_selects s.mem key priority strict a = true
    · have hfa : f ≠ a := by
        rintro rfl
        rw [hsel] at hf
        exact absurd hf (by simp)
      simp only [delete_loop, hsel, if_true]
      rw [ih _ _ (by rw [delete_selects_do_delete]; exact hf), do_delete_other s a f hfa]
    · simp only [delete_loop, hsel, Bool.false_eq_true, if_false]
      exact ih count s hf

theorem table_inv_delete (s : nf2_state) (key : sw_flow_key) (priority : Nat) (strict : Int)
    (hinv : table_inv s) : table_inv (table_nf2_delete s key priority strict).2 := by
  obtain ⟨-, hfl, hil, hn⟩ := table_nf2_delete_fields s key priority strict
  obtain ⟨g1, g2, g3, g4⟩ := delete_loop_spec key priority strict s.td.flows 0 s hinv.1
  have hmem := table_nf2_delete_mem s key priority strict
  apply table_inv_shrink s _ (s.td.flows.filter (fun f =>
    delete_selects s.mem key priority strict f && !(s.mem f).deleted)) hinv
  · rw [hfl, g1]
  · rw [hil, g2]
  · exact hinv.1.filter _
  · intro f hf
    exact (List.mem_filter.mp hf).1
  · rw [hn, g3, g4, zero_add]
  · intro f
    rw [hmem]
    exact delete_loop_key key priority strict s.td.flows 0 s f
  · intro f hf hfL
    have hlive := hinv.2.2.1 f hf
    have hsel : delete_selects s.mem key priority strict f = false := by
      by_contra hc
      apply hfL
      rw [List.mem_filter]
      exact ⟨hf, by simp [hlive, hc]⟩
    rw [hmem, delete_loop_unselected key priority strict f s.td.flows 0 s hsel]
    exact hlive

theorem table_inv_timeout (nf : nf2_offload) (c : nf2_consts) (dp : datapath) (j : Nat)
    (s : nf2_state) (hinv : table_inv s) : table_inv (table_nf2_timeout nf c dp j s).s := by
  obtain ⟨hdc, hmem, hfl, hil, hn, -, -⟩ := table_nf2_timeout_fields nf c dp j s
  obtain ⟨g1, g2, g3, g4⟩ := timeout_loop_spec nf c dp j s.td.flows (timeout_start s) hinv.1
  obtain ⟨-, hframe, gn, -⟩ := timeout_loop_frame nf c dp j s.td.flows (timeout_start s)
  have hstart : (timeout_start s).s = s := rfl
  have hzero : (timeout_start s).del_count = 0 := rfl
  rw [hstart] at g1 g2 g3 g4 hframe gn
  rw [hzero, zero_add] at g3
  apply table_inv_shrink s _ (s.td.flows.filter (fun f =>
    flow_timeout c j ((timeout_loop nf c dp j s.td.flows (timeout_start s)).s.mem f)
      && !(s.mem f).deleted)) hinv
  · rw [hfl, g1]
  · rw [hil, g2]
  · exact hinv.1.filter _
  · intro f hf
    exact (List.mem_filter.mp hf).1
  · rw [hn, gn, g3]
  · intro f
    rw [hmem]
    exact (hframe f).1
  · intro f hf hfL
    have hlive := hinv.2.2.1 f hf
    have hT : flow_timeout c j
        ((timeout_loop nf c dp j s.td.flows (timeout_start s)).s.mem f) = false := by
      by_contra hc
      apply hfL
      rw [List.mem_filter]
      exact ⟨hf, by simp [hlive, hc]⟩
    rw [hmem, g4 f hf, hlive, hT]
    rfl

theorem reachable_inv (s : nf2_state) (h : reachable s) : table_inv s := by
  induction h with
  | create mem x w => exact table_inv_create mem x w
  | insert nf s flow r _ hF hr ih =>
    apply table_inv_insert nf (alloc_flow s flow r) flow (table_inv_alloc s flow r ih hF) hF
    simp [alloc_flow, hr]
  | delete s key priority strict _ ih => exact table_inv_delete s key priority strict ih
  | timeout nf c dp j s _ ih => exact table_inv_timeout nf c dp j s ih

/-! ## Dual-list and live-count invariant, replace-not-duplicate -/

/-- C17: in every state reachable from a newly created table by insert, delete
and timeout operations, the match-list and the iteration-list hold the same
flows, each exactly once, and the live-flow count reported by
`table_nf2_stats` is the length of each list; it is 0 for a newly created
table. -/
theorem reachable_dual_list_live_count (s : nf2_state) (h : reachable s) :
    s.td.flows.Nodup ∧ s.td.iter_flows.Nodup ∧
    (∀ f, f ∈ s.td.flows ↔ f ∈ s.td.iter_flows) ∧
    (table_nf2_stats s.td).n_flows = s.td.flows.length ∧
    (table_nf2_stats s.td).n_flows = s.td.iter_flows.length ∧
    (∀ exact_size wildcard_size : Nat,
      (table_nf2_stats (table_nf2_create exact_size wildcard_size)).n_flows = 0) := by
  obtain ⟨h1, h2, -, h4, -⟩ := reachable_inv s h
  refine ⟨h1, by rw [h2]; exact h1, fun f => by rw [h2], ?_, ?_, fun _ _ => rfl⟩
  · simp [table_nf2_stats, h4]
  · simp [table_nf2_stats, h4, h2]

/-- In `reached_state` both lists are 2, 1 and the reported live count is 2. -/
theorem reachable_dual_list_live_count_witness :
    (reached_state.td.flows = [2, 1] ∧ reached_state.td.iter_flows = [2, 1] ∧
      (table_nf2_stats reached_state.td).n_flows = 2) ∧
    reached_state.td.flows.Nodup ∧ reached_state.td.iter_flows.Nodup ∧
    (∀ f, f ∈ reached_state.td.flows ↔ f ∈ reached_state.td.iter_flows) ∧
    (table_nf2_stats reached_state.td).n_flows = reached_state.td.flows.length ∧
    (table_nf2_stats reached_state.td).n_flows = reached_state.td.iter_flows.length ∧
    (∀ exact_size wildcard_size : Nat,
      (table_nf2_stats (table_nf2_create exact_size wildcard_size)).n_flows = 0) :=
  ⟨by decide, reachable_dual_list_live_count reached_state
    (reachable.insert accept_all _ 2 (port_mem 2)
      (reachable.insert accept_all _ 1 (port_mem 1)
        (reachable.create port_mem 32768 32) (by decide) (by decide))
      (by decide) (by decide))⟩

theorem filter_eq_singleton (P : Nat → Bool) (F : Nat) (l : List Nat) (hnd : l.Nodup)
    (hF : F ∈ l) (hP : ∀ x ∈ l, P x = true ↔ x = F) : l.filter P = [F] := by
  induction l with
  | nil => simp at hF
  | cons a rest ih =>
    have hnd' : rest.Nodup := (List.nodup_cons.mp hnd).2
    have ha : a ∉ rest := (List.nodup_cons.mp hnd).1
    by_cases haF : a = F
    · have hPa : P a = true := (hP a (by simp)).mpr haF
      have hrest : rest.filter P = [] := by
        rw [List.filter_eq_nil_iff]
        intro x hx hPx
        have hxF : x = F := (hP x (by simp [hx])).mp hPx
        exact ha (by rw [haF, ← hxF]; exact hx)
      rw [List.filter_cons, hPa, if_pos rfl, hrest, haF]
    · have hPa : P a = false := by
        by_contra hc
        exact haF ((hP a (by simp)).mp (by simpa using hc))
      have hFr : F ∈ rest := by
        rcases List.mem_cons.mp hF with h | h
        · exact absurd h.symm haF
        · exact h
      rw [List.filter_cons, hPa]
      simp only [Bool.false_eq_true, if_false]
      exact ih hnd' hFr (fun x hx => hP x (by simp [hx]))

/-- C16 (with `flow_matches` as the spec describes it): in every state
reachable from a newly created table by insert, delete and timeout
operations, no two linked entries have equal wildcard masks and keys that
match each other; hence the insert of an accepted, freshly allocated flow
whose key and mask exactly match a linked entry returns 1 and leaves exactly
one linked entry that exactly matches that key, the new flow, with the new
key and actions, the number of linked entries being unchanged. -/
theorem reachable_replace_not_duplicate (s : nf2_state) (h : reachable s) :
    (∀ x ∈ s.td.flows, ∀ y ∈ s.td.flows, x ≠ y →
      ¬ ((s.mem x).key.wildcards = (s.mem y).key.wildcards ∧
        flow_matches (s.mem x).key (s.mem y).key = true)) ∧
    (∀ (nf : nf2_offload) (F : Nat) (r : sw_flow),
      F ∉ s.td.flows → r.deleted = false →
      nf.nf2_are_actions_supported r ≠ 0 → (nf.nf2_build_and_write_flow r).1 = 0 →
      (∃ E ∈ s.td.flows, (s.mem E).key.wildcards = r.key.wildcards ∧
        flow_matches (s.mem E).key r.key = true) →
      (table_nf2_insert nf (alloc_flow s F r) F).1 = 1 ∧
      (table_nf2_insert nf (alloc_flow s F r) F).2.td.flows.filter (fun f =>
        exact_match ((table_nf2_insert nf (alloc_flow s F r) F).2.mem f).key r.key) = [F] ∧
      ((table_nf2_insert nf (alloc_flow s F r) F).2.mem F).key = r.key ∧
      ((table_nf2_insert nf (alloc_flow s F r) F).2.mem F).actions = r.actions ∧
      (table_nf2_insert nf (alloc_flow s F r) F).2.td.n_flows = s.td.n_flows ∧
      (table_nf2_insert nf (alloc_flow s F r) F).2.td.flows.length = s.td.flows.length) := by
  have hinv := reachable_inv s h
  constructor
  · intro x hx y hy hxy hm
    have := hinv.2.2.2.2 x hx y hy hxy
    rw [(exact_match_iff _ _).mpr hm] at this
    exact absurd this (by simp)
  · intro nf F r hF hr hsup hwr ⟨E, hEin, hEw, hEm⟩
    have hinv1 := table_inv_alloc s F r hinv hF
    have hFr : (alloc_flow s F r).mem F = r := by simp [alloc_flow]
    have hflows1 : (alloc_flow s F r).td = s.td := rfl
    have hinv' := table_inv_insert nf (alloc_flow s F r) F hinv1 hF (by rw [hFr]; exact hr)
    obtain ⟨hret, -, hcase⟩ := table_nf2_insert_cases nf (alloc_flow s F r) F
      (by rw [hFr]; exact hsup) (by rw [hFr]; exact hwr)
    have hEF : E ≠ F := fun e => hF (e ▸ hEin)
    have hEmem : (alloc_flow s F r).mem E = s.mem E := by
      simp [alloc_flow, Function.update_noteq hEF]
    have hErep : replaceable (alloc_flow s F r).mem F E = true := by
      have hlive := hinv.2.2.1 E hEin
      simp [replaceable, exact_match, hEmem, hFr, hEw, hEm, hlive]
    rcases hcase with ⟨hnone, -⟩ | ⟨pre, E', post, hl, hE', -, hfl, -, hn, hmem⟩
    · have := hnone E hEin
      rw [hErep] at this
      exact absurd this (by simp)
    · rw [hflows1] at hl hfl hn
      have hE'in : E' ∈ s.td.flows := by rw [hl]; simp
      have hE'F : E' ≠ F := fun e => hF (e ▸ hE'in)
      have hnd := hinv.1
      rw [hl] at hnd
      have hE'pre : E' ∉ pre := fun h => (List.nodup_append.mp hnd).2.2 h (by simp)
      have hfl' : (table_nf2_insert nf (alloc_flow s F r) F).2.td.flows = pre ++ F :: post := by
        rw [hfl, hl]; exact list_replace_rcu_append E' F pre post hE'pre
      have hFin : F ∈ (table_nf2_insert nf (alloc_flow s F r) F).2.td.flows := by
        rw [hfl']; simp
      have hrecF : (table_nf2_insert nf (alloc_flow s F r) F).2.mem F =
          set_private (alloc_flow s F r).mem F
            (nf.nf2_build_and_write_flow ((alloc_flow s F r).mem F)).2 F := by
        rw [hmem]; exact set_deleted_other _ _ _ (Ne.symm hE'F)
      have hkeyF : ((table_nf2_insert nf (alloc_flow s F r) F).2.mem F).key = r.key := by
        rw [hrecF, set_private_key, hFr]
      refine ⟨hret, ?_, hkeyF, ?_, hn, ?_⟩
      · apply filter_eq_singleton _ F _ hinv'.1 hFin
        intro x hx
        constructor
        · intro hmx
          by_contra hxF
          have := hinv'.2.2.2.2 x hx F hFin hxF
          rw [hkeyF, hmx] at this
          exact absurd this (by simp)
        · intro hxF
          rw [hxF, hkeyF]
          exact exact_match_refl r.key
      · rw [hrecF, set_private_actions, hFr]
      · rw [hfl', hl]; simp

/-- In `reached_state` a flow allocated at address 3 with the key of the flow
at address 1 replaces it: afterwards the only linked entry matching that key
exactly is 3. -/
theorem reachable_replace_not_duplicate_witness :
    (reached_state.td.flows = [2, 1] ∧
      (table_nf2_insert accept_all (alloc_flow reached_state 3 (port_mem 1)) 3).2.td.flows =
        [2, 3]) ∧
    (∀ x ∈ reached_state.td.flows, ∀ y ∈ reached_state.td.flows, x ≠ y →
      ¬ ((reached_state.mem x).key.wildcards = (reached_state.mem y).key.wildcards ∧
        flow_matches (reached_state.mem x).key (reached_state.mem y).key = true)) ∧
    (∀ (nf : nf2_offload) (F : Nat) (r : sw_flow),
      F ∉ reached_state.td.flows → r.deleted = false →
      nf.nf2_are_actions_supported r ≠ 0 → (nf.nf2_build_and_write_flow r).1 = 0 →
      (∃ E ∈ reached_state.td.flows, (reached_state.mem E).key.wildcards = r.key.wildcards ∧
        flow_matches (reached_state.mem E).key r.key = true) →
      (table_nf2_insert nf (alloc_flow reached_state F r) F).1 = 1 ∧
      (table_nf2_insert nf (alloc_flow reached_state F r) F).2.td.flows.filter (fun f =>
        exact_match ((table_nf2_insert nf (alloc_flow reached_state F r) F).2.mem f).key
          r.key) = [F] ∧
      ((table_nf2_insert nf (alloc_flow reached_state F r) F).2.mem F).key = r.key ∧
      ((table_nf2_insert nf (alloc_flow reached_state F r) F).2.mem F).actions = r.actions ∧
      (table_nf2_insert nf (alloc_flow reached_state F r) F).2.td.n_flows =
        reached_state.td.n_flows ∧
      (table_nf2_insert nf (alloc_flow reached_state F r) F).2.td.flows.length =
        reached_state.td.flows.length) :=
  ⟨by decide, reachable_replace_not_duplicate reached_state
    (reachable.insert accept_all _ 2 (port_mem 2)
      (reachable.insert accept_all _ 1 (port_mem 1)
        (reachable.create port_mem 32768 32) (by decide) (by decide))
      (by decide) (by decide))⟩

end HwTableNf2
